import Mathlib

/-! The verification-condition generator of `hl`.

A shallow embedding of the weakest-precondition calculus (`wp.go`), the
substitution engine and structural equality (`subst.go`), the contract record
and its files (`data.go`), the in-process contract table (`functab.go`), the
expression emitter and script assembly (`smt.go`), the judgement of the
solver's answer (`main.go`), the wait of the solver driver (`popen.go`) and
the configuration defaults (`conf.go`).

Conventions of the embedding.

* The syntax trees of `go/ast` become the inductive types `Expr` and `Stmt`;
  only the fields the program reads are kept.
* A Go function that returns `(value, err)` returns `Res value`; a run-time
  panic (index out of range, failed type assertion, nil dereference) is the
  failure `Fail.panic`, an `err != nil` return is `Fail.error msg`.  `Equals`
  has no `error` return and yields `none` where it panics.
* State reached through pointers or globals (`*acc`, `vars`, `funcTab`) is
  passed explicitly in `St` and returned together with the result, also when
  the result is an error.
* Debug printing (`conf.Debug`) has no effect on results and is left out.
* The solver process is outside the program: `runCmd` is a parameter, and the
  `select` of `runCmd` takes the observed event as an input.
* The meaning of the emitted symbols (`smtEval`), Go's division (`goQuo`,
  `goRem`) and the reader of S-expressions (`readSExp`) are not code of the
  repository; they follow the SMT-LIB standard and the Go language
  specification and serve to state what the emitted text means.
-/

namespace HL

/-! ## Tokens and syntax trees -/

/-- Token kinds of `go/token` that can label a literal or an operator. -/
inductive Token
  | ILLEGAL | INT | FLOAT | IMAG | CHAR | STRING
  | ADD | SUB | MUL | QUO | REM
  | AND | OR | XOR | SHL | SHR | AND_NOT
  | LAND | LOR | ARROW | NOT
  | EQL | NEQ | LSS | GTR | LEQ | GEQ
  | ASSIGN | DEFINE
  | VAR | CONST | TYPE | IMPORT
  deriving DecidableEq, Repr

/-- Expressions (`ast.Expr`).  `Nil` is the nil interface value; `IndexExpr`,
`SelectorExpr` and `ArrayType` stand for the node kinds that the program only
meets in its `default` branches (or, for `ArrayType`, in `convType`). -/
inductive Expr
  | Nil
  | BasicLit (Kind : Token) (Value : String)
  | Ident (Name : String)
  | BinaryExpr (X : Expr) (Op : Token) (Y : Expr)
  | UnaryExpr (Op : Token) (X : Expr)
  | CallExpr (Fun : Expr) (Args : List Expr)
  | ParenExpr (X : Expr)
  | IndexExpr (X : Expr) (Index : Expr)
  | SelectorExpr (X : Expr) (Sel : String)
  | ArrayType (Elt : Expr)
  deriving Repr, Inhabited

/-- How a call can end without a value: an `err != nil` return, or a panic. -/
inductive Fail
  | error (msg : String)
  | panic (msg : String)
  deriving DecidableEq, Repr

/-- Result of a Go function with an `error` return that may also panic. -/
abbrev Res (α : Type) := Except Fail α

/-! ## Structural equality (`subst.go`, `Equals`) -/

mutual
/-- Function `Equals(x, y)` of `subst.go`.  The result is `none` when the call panics
(the argument loop of the `CallExpr` case indexes `yce.Args` out of range).
In the `CallExpr` case `ok` holds the outcome of the type assertion on `y`
when either `break` leaves the `switch`, and is set to `true` after the
loop. -/
def Equals : Expr → Expr → Option Bool
  | .Ident xn, y =>
    match y with
    | .Ident yn => some (decide (xn = yn))
    | _ => some false
  | .BasicLit xk xv, y =>
    match y with
    | .BasicLit yk yv => some (decide (xk = yk) && decide (xv = yv))
    | _ => some false
  | .BinaryExpr xx xop xy, y =>
    match y with
    | .BinaryExpr yx yop yy =>
      if xop = yop then
        match Equals xx yx with
        | none => none
        | some false => some false
        | some true => Equals xy yy
      else some false
    | _ => some false
  | .UnaryExpr xop xx, y =>
    match y with
    | .UnaryExpr yop yx => if xop = yop then Equals xx yx else some false
    | _ => some false
  | .CallExpr xf xargs, y =>
    match y with
    | .CallExpr yf yargs =>
      match Equals xf yf with
      | none => none
      | some false => some true
      | some true =>
        if xargs.length = yargs.length then some true
        else
          match EqualsArgs xargs yargs with
          | none => none
          | some _ => some true
    | _ => some false
  | _, _ => some false
/-- The loop `for i := 0; i < len(xce.Args); i++` of the `CallExpr` case:
`none` when `yce.Args[i]` is out of range, otherwise the loop ends (by
`break` or by exhausting `xce.Args`) and control reaches `ok = true`. -/
def EqualsArgs : List Expr → List Expr → Option Unit
  | [], _ => some ()
  | _ :: _, [] => none
  | x :: xs, y :: ys =>
    match Equals x y with
    | none => none
    | some false => some ()
    | some true => EqualsArgs xs ys
end

/-! ## Substitution (`subst.go`) -/

/-- The loop of `excludeVsEs`, at index `i` of `vs`, with the results so far.
The `else` branch appends the parameter `v` (not the loop variable `v2`) to
`exVs`, as the source does. -/
def excludeVsEsLoop (v : Expr) (es : List Expr) :
    List Expr → Nat → Bool → List Expr → List Expr → Res (Bool × List Expr × List Expr)
  | [], _, r, exVs, exEs => .ok (r, exVs, exEs)
  | v2 :: vs, i, r, exVs, exEs =>
    match Equals v v2 with
    | none => .error (.panic "index out of range")
    | some true => excludeVsEsLoop v es vs (i + 1) true exVs exEs
    | some false =>
      match es[i]? with
      | none => .error (.panic "index out of range")
      | some e => excludeVsEsLoop v es vs (i + 1) r (exVs ++ [v]) (exEs ++ [e])

/-- Function `excludeVsEs(v, vs, es)` of `subst.go`. -/
def excludeVsEs (v : Expr) (vs es : List Expr) : Res (Bool × List Expr × List Expr) :=
  excludeVsEsLoop v es vs 0 false [] []

/-- The `*ast.Ident` case of `subst`: the loop over `vs` at index `i`. -/
def substIdent (ident : Expr) (es : List Expr) : List Expr → Nat → Res Expr
  | [], _ => .ok ident
  | v :: vs, i =>
    match Equals ident v with
    | none => .error (.panic "index out of range")
    | some true =>
      match es[i]? with
      | none => .error (.panic "index out of range")
      | some e => .ok e
    | some false => substIdent ident es vs (i + 1)

/-- Function `subst(expr, vs, es)` of `subst.go`. -/
def subst : Expr → List Expr → List Expr → Res Expr
  | .BasicLit k v, _, _ =>
    if k = Token.INT ∨ k = Token.STRING then .ok (.BasicLit k v)
    else .error (.error "subst: BasicLit: unknown Kind")
  | .Ident n, vs, es => substIdent (.Ident n) es vs 0
  | .BinaryExpr bx op by_, vs, es =>
    match subst bx vs es with
    | .error e => .error e
    | .ok x =>
      match subst by_ vs es with
      | .error e => .error e
      | .ok y => .ok (.BinaryExpr x op y)
  | .UnaryExpr op ux, vs, es =>
    match subst ux vs es with
    | .error e => .error e
    | .ok x => .ok (.UnaryExpr op x)
  | .CallExpr (.Ident name) args, vs, es =>
    if name = "Implies" then
      match args with
      | [a0, a1] =>
        match subst a0 vs es with
        | .error e => .error e
        | .ok left =>
          match subst a1 vs es with
          | .error e => .error e
          | .ok right => .ok (.CallExpr (.Ident "Implies") [left, right])
      | _ => .error (.error "subst: CallExpr: Implies: len(Args) != 2")
    else if name = "ForAll" ∨ name = "Exists" then
      match args with
      | [.Ident x, .Ident t, body] =>
        match excludeVsEs (.Ident x) vs es with
        | .error e => .error e
        | .ok (_, exVs, exEs) =>
          if exVs.length < 1 then .ok (.CallExpr (.Ident name) [.Ident x, .Ident t, body])
          else
            match subst body exVs exEs with
            | .error e => .error e
            | .ok b => .ok (.CallExpr (.Ident name) [.Ident x, .Ident t, b])
      | [.Ident _, _, _] =>
        .error (.error "subst: CallExpr: ForAll/Exists; Args[1] is not Ident")
      | [_, _, _] =>
        .error (.error "subst: CallExpr: ForAll/Exists; Args[0] is not Ident")
      | _ => .error (.error "subst: CallExpr: ForAll/Exists; len(Args) != 3")
    else .error (.error "subst: CallExpr: Fun: Ident: unknown funcname")
  | .CallExpr _ _, _, _ => .error (.error "subst: CallExpr: Fun is not Ident")
  | .ParenExpr px, vs, es => subst px vs es
  | _, _, _ => .error (.error "subst: unknown")

/-! ## Contracts and the in-process table (`data.go`, `functab.go`, `main.go`) -/

/-- A Go `map[string]α`, as an association list with at most one entry per
key.  A nil map and an empty map read alike and are both `[]`. -/
abbrev GoMap (α : Type) := List (String × α)

/-- The assignment `m[k] = a`. -/
def GoMap.set {α : Type} : GoMap α → String → α → GoMap α
  | [], k, a => [(k, a)]
  | (k', a') :: rest, k, a =>
    if k' = k then (k, a) :: rest else (k', a') :: GoMap.set rest k a

/-- The two-valued read `a, ok := m[k]`. -/
def GoMap.get? {α : Type} (m : GoMap α) (k : String) : Option α :=
  List.lookup k m

/-- The contract record `Data` of `data.go`. -/
structure Data where
  Name : String
  Inputs : List (String × String)
  Outputs : List (String × String)
  Pre : String
  Post : String
  Conds : List String
  Date : String
  Note : String
  deriving DecidableEq, Repr, Inhabited

/-- The zero value of `Data`. -/
def Data.zero : Data := ⟨"", [], [], "", "", [], "", ""⟩

/-- The configuration record `Config` of `conf.go`. -/
structure Config where
  Cmd : List String
  TimeOutSec : Int
  IgnoreFuncs : List String
  Debug : Bool
  deriving DecidableEq, Repr, Inhabited

/-- What the calculus reads from outside itself and never writes.

* `ParseExpr` is `parser.ParseExpr` of the Go library: the tree it returns
  and whether it returned `err == nil`.
* `LoadData` is `LoadData(path)` of `data.go`, a read of the contract files:
  the decoded record and the error, if any.
* `rand k i` is the `i`-th value drawn from the generator after the `k`-th
  call of `rand.Seed(time.Now().UnixNano())`; `RandomIdents` reduces it into
  the range of `rand.Intn(10000)`. -/
structure Env where
  conf : Config
  srcFile : String
  ParseExpr : String → Expr × Bool
  LoadData : String → Data × Option String
  rand : Nat → Nat → Nat

/-- Function `makeFuncFileName(funcName)` of `main.go`, on the characters of
`srcFile`: the suffix `.go` is one byte per character, so cutting three bytes
is cutting three characters. -/
def makeFuncFileName (srcFile funcName : String) : String :=
  (if ".go".toList.isSuffixOf srcFile.toList then
      String.mk (srcFile.toList.take (srcFile.length - 3))
    else srcFile) ++ "_" ++ funcName ++ ".json"

/-- Function `getFuncData(name)` of `functab.go` on the table `funcTab`; the second
component is the table after the call.  The assignment
`funcTab[name], err = LoadData(..)` stores the loaded record before `err` is
looked at. -/
def getFuncData (env : Env) (name : String) (funcTab : GoMap Data) : Res Data × GoMap Data :=
  match funcTab.get? name with
  | some r => (.ok r, funcTab)
  | none =>
    let loaded := env.LoadData (makeFuncFileName env.srcFile name)
    let funcTab' := funcTab.set name loaded.1
    match loaded.2 with
    | some msg => (.error (.error msg), funcTab')
    | none => (.ok loaded.1, funcTab')

/-- Function `setFuncData(name, d)` of `functab.go`. -/
def setFuncData (name : String) (d : Data) (funcTab : GoMap Data) : GoMap Data :=
  funcTab.set name d

/-- Method `Data.getParams` of `data.go`: `(is, os, it, ot)`. -/
def Data.getParams (d : Data) : List Expr × List Expr × List Expr × List Expr :=
  (d.Inputs.map (fun vv => Expr.Ident vv.1), d.Outputs.map (fun vv => Expr.Ident vv.1),
   d.Inputs.map (fun vv => Expr.Ident vv.2), d.Outputs.map (fun vv => Expr.Ident vv.2))

/-- Method `Data.getAsserts` of `data.go`: both parse errors are dropped. -/
def Data.getAsserts (env : Env) (d : Data) : Expr × Expr :=
  ((env.ParseExpr d.Pre).1, (env.ParseExpr d.Post).1)

/-! ## Formula builders and fresh names (`wp.go`) -/

/-- Function `astOr` of `wp.go`. -/
def astOr (expr1 expr2 : Expr) : Expr := .BinaryExpr expr1 Token.LOR expr2

/-- Function `astAnd` of `wp.go`. -/
def astAnd (expr1 expr2 : Expr) : Expr := .BinaryExpr expr1 Token.LAND expr2

/-- Function `astNot` of `wp.go`. -/
def astNot (expr : Expr) : Expr := .UnaryExpr Token.NOT expr

/-- Function `astImplies` of `wp.go`. -/
def astImplies (expr1 expr2 : Expr) : Expr := .CallExpr (.Ident "Implies") [expr1, expr2]

/-- Function `astForAll` of `wp.go`. -/
def astForAll (x t expr : Expr) : Expr := .CallExpr (.Ident "ForAll") [x, t, expr]

/-- Function `astExists` of `wp.go`. -/
def astExists (x t expr : Expr) : Expr := .CallExpr (.Ident "Exists") [x, t, expr]

/-- The text `fmt.Sprintf("%05d", k)` prints for `k ≥ 0`: five digits, zero
padded, or the plain decimal numeral when `k` has more than five digits. -/
def fmt05d (k : Nat) : String :=
  if k < 100000 then
    String.mk [Nat.digitChar (k / 10000), Nat.digitChar (k / 1000 % 10),
      Nat.digitChar (k / 100 % 10), Nat.digitChar (k / 10 % 10), Nat.digitChar (k % 10)]
  else toString k

/-- Function `RandomIdents(n)` of `wp.go`, where `draw i` is the `i`-th outcome of the
generator after this call seeded it; `rand.Intn(10000)` lies in `[0, 10000)`. -/
def RandomIdents (draw : Nat → Nat) (n : Nat) : List Expr :=
  (List.range n).map (fun i => Expr.Ident ("u" ++ fmt05d (draw i % 10000)))

/-! ## Statements, declarations and annotations (`wp.go`) -/

/-- Specifications inside a `GenDecl` (`ast.Spec`). -/
inductive Spec
  | ValueSpec (Names : List String) (Typ : Expr)
  | Other
  deriving Repr, Inhabited

/-- Declarations (`ast.Decl`). -/
inductive Decl
  | GenDecl (Tok : Token) (Specs : List Spec)
  | Other
  deriving Repr, Inhabited

/-- Statements (`ast.Stmt`).  `Else = none` is the nil `Else` of an `if`
without `else`; `Other` is any statement kind that `wpStmt` has no case
for.  The fields `Type` and `List` of the
Go library are spelled `Typ` and `Stmts`. -/
inductive Stmt
  | AssignStmt (Lhs : List Expr) (Rhs : List Expr)
  | IfStmt (Cond : Expr) (Body : List Stmt) (Else : Option Stmt)
  | ForStmt (Cond : Expr) (Body : List Stmt)
  | BlockStmt (Stmts : List Stmt)
  | DeclStmt (Decl : Decl)
  | ReturnStmt (Results : List Expr)
  | ExprStmt (X : Expr)
  | Other
  deriving Inhabited

/-- A parameter or result field (`ast.Field`). -/
structure Field where
  Names : List String
  Typ : Expr
  deriving Repr, Inhabited

/-- The signature of a function (`ast.FuncType`); `Results = none` is a nil
result list. -/
structure FuncType where
  Params : List Field
  Results : Option (List Field)
  deriving Inhabited

/-- A function declaration (`ast.FuncDecl`); `Body = none` is a declaration
without body. -/
structure FuncDecl where
  Name : String
  Typ : FuncType
  Body : Option (List Stmt)
  deriving Inhabited

/-- The comparison `e != nil` on an expression. -/
def Expr.notNil : Expr → Bool
  | .Nil => false
  | _ => true

/-- The one-valued read `m[k]` of a `map[string]ast.Expr`: nil for a missing
key. -/
def GoMap.getExpr (m : GoMap Expr) (k : String) : Expr :=
  (m.get? k).getD Expr.Nil

/-- Function `isStrLit(expr)` of `wp.go`.  `Value` is the source text of the literal,
delimited by two one-byte quotes, so that `Value[1 : len(Value)-1]` drops its
first and last character; a shorter text makes the slice expression panic. -/
def isStrLit (env : Env) : Expr → Res (Expr × Bool)
  | .BasicLit k value =>
    if k ≠ Token.STRING then .ok (.Nil, false)
    else if value.length < 2 then .error (.panic "slice bounds out of range")
    else
      let parsed := env.ParseExpr (String.mk (value.toList.tail.dropLast))
      if parsed.2 then .ok (parsed.1, true) else .ok (parsed.1, false)
  | _ => .ok (.Nil, false)

/-- Function `isAssertStmt(stmt)` of `wp.go`: `(tag, cond, ok)`.  `ce.Args[0]` panics
on an annotation call without arguments. -/
def isAssertStmt (env : Env) : Stmt → Res (String × Expr × Bool)
  | .ExprStmt (.CallExpr (.Ident name) args) =>
    if name = "PRE" ∨ name = "POST" ∨ name = "INV" then
      match args with
      | [] => .error (.panic "index out of range")
      | a0 :: _ =>
        match isStrLit env a0 with
        | .error e => .error e
        | .ok (cond, ok) => .ok (name, cond, ok)
    else .ok ("", .Nil, false)
  | _ => .ok ("", .Nil, false)

/-- The loop of `separateStmts` over the remaining statements, with the
`asserts` and `stmts2` built so far. -/
def separateStmtsLoop (env : Env) :
    List Stmt → GoMap Expr → List Stmt → Res (GoMap Expr × List Stmt)
  | [], asserts, stmts2 => .ok (asserts, stmts2)
  | stmt :: rest, asserts, stmts2 =>
    match isAssertStmt env stmt with
    | .error e => .error e
    | .ok (tag, cond, ok) =>
      if ok then
        if (asserts.getExpr tag).notNil then
          .error (.error ("separateStmts: multi occurence of " ++ tag))
        else separateStmtsLoop env rest (asserts.set tag cond) stmts2
      else separateStmtsLoop env rest asserts (stmts2 ++ [stmt])

/-- Function `separateStmts(stmts)` of `wp.go`. -/
def separateStmts (env : Env) (stmts : List Stmt) : Res (GoMap Expr × List Stmt) :=
  separateStmtsLoop env stmts [] []

/-- Function `getFuncVars(ft)` of `wp.go`. -/
def getFuncVars (ft : FuncType) : GoMap Expr :=
  let addField := fun (vars : GoMap Expr) (field : Field) =>
    field.Names.foldl (fun m name => m.set name field.Typ) vars
  let vars := ft.Params.foldl addField []
  match ft.Results with
  | none => vars
  | some results => results.foldl addField vars

/-! ## The weakest-precondition calculus (`wp.go`) -/

/-- The mutable state the calculus works on: the side-condition accumulator
`*acc`, the variable environment `vars`, the global `funcTab`, and the number
of times `RandomIdents` has seeded the generator so far. -/
structure St where
  acc : List Expr
  vars : GoMap Expr
  funcTab : GoMap Data
  seeds : Nat

/-- The loop `for i, u := range us` at the end of `wpFunCall`: the first
identifier becomes the innermost quantifier.  `us` and `oTypes` have the
length of `funData.Outputs`, so `oTypes[i]` is always in range. -/
def wrapForAll (us oTypes : List Expr) (postCond : Expr) : Expr :=
  (us.zip oTypes).foldl (fun p ut => astForAll ut.1 ut.2 p) postCond

/-- Function `wpFunCall(vars, ce, postCond)` of `wp.go`, for `ce = fn(args...)`; it
reads and writes the global `funcTab` and draws fresh names. -/
def wpFunCall (env : Env) (vars : List Expr) (fn : Expr) (args : List Expr) (postCond : Expr)
    (st : St) : Res Expr × St :=
  match fn with
  | .Ident funName =>
    let got := getFuncData env funName st.funcTab
    let st1 : St := { st with funcTab := got.2 }
    match got.1 with
    | .error e => (.error e, st1)
    | .ok funData =>
      let iParams := funData.getParams.1
      let oParams := funData.getParams.2.1
      let oTypes := funData.getParams.2.2.2
      let pre := (funData.getAsserts env).1
      let post := (funData.getAsserts env).2
      if vars.length ≠ oParams.length then
        (.error (.error "wpFunCall: len(vars) != len(oParams)"), st1)
      else if iParams.length ≠ args.length then
        (.error (.error "wpFunCall: len(iParams) != len(ce.Args)"), st1)
      else
        match subst pre iParams args with
        | .error e => (.error e, st1)
        | .ok pre1 =>
          let us := RandomIdents (env.rand st1.seeds) oParams.length
          let st2 : St := { st1 with seeds := st1.seeds + 1 }
          match subst post oParams us with
          | .error e => (.error e, st2)
          | .ok post1 =>
            match subst post1 iParams args with
            | .error e => (.error e, st2)
            | .ok post2 =>
              match subst postCond oParams us with
              | .error e => (.error e, st2)
              | .ok postCond1 =>
                (.ok (astAnd pre1 (wrapForAll us oTypes (astImplies post2 postCond1))), st2)
  | _ => (.error (.error "wpFunCall: Fun is not Ident"), st)

/-- Function `wpFunCall2(ce, postCond)` of `wp.go`, for `ce = fn(args...)`. -/
def wpFunCall2 (env : Env) (fn : Expr) (args : List Expr) (postCond : Expr) (st : St) :
    Res Expr × St :=
  match fn with
  | .Ident funName =>
    if funName ∈ env.conf.IgnoreFuncs then (.ok postCond, st)
    else
      let got := getFuncData env funName st.funcTab
      let st1 : St := { st with funcTab := got.2 }
      match got.1 with
      | .error e => (.error e, st1)
      | .ok funData =>
        let iParams := funData.getParams.1
        let pre := (funData.getAsserts env).1
        if iParams.length ≠ args.length then
          (.error (.error "wpFunCall2: len(iParams) != len(ce.Args)"), st1)
        else
          match subst pre iParams args with
          | .error e => (.error e, st1)
          | .ok pre1 => (.ok (astAnd pre1 postCond), st1)
  | _ => (.error (.error "wpFunCall2: Fun is not Ident"), st)

/-- The index of the first expression that is not an `*ast.Ident`, counting
from `i`. -/
def firstNonIdent : List Expr → Nat → Option Nat
  | [], _ => none
  | .Ident _ :: rest, i => firstNonIdent rest (i + 1)
  | _ :: _, i => some i

/-- The test `_, ok := e.(*ast.CallExpr)`. -/
def Expr.isCall : Expr → Bool
  | .CallExpr _ _ => true
  | _ => false

/-- The last loop of `wpAssignStmt`, at index `i` of `Lhs`: the pairs whose
left and right sides `Equals` finds different.  `Rhs[i]` panics when `Rhs` is
shorter than `Lhs`. -/
def assignPairs (rhs : List Expr) : List Expr → Nat → List Expr → List Expr →
    Res (List Expr × List Expr)
  | [], _, vs, es => .ok (vs, es)
  | v :: rest, i, vs, es =>
    match rhs[i]? with
    | none => .error (.panic "index out of range")
    | some e =>
      match Equals v e with
      | none => .error (.panic "index out of range")
      | some true => assignPairs rhs rest (i + 1) vs es
      | some false => assignPairs rhs rest (i + 1) (vs ++ [v]) (es ++ [e])

/-- Function `wpAssignStmt(acc, vars, s, postCond)` of `wp.go`, for the assignment
with sides `lhs` and `rhs`. -/
def wpAssignStmt (env : Env) (lhs rhs : List Expr) (postCond : Expr) (st : St) :
    Res Expr × St :=
  if lhs.length < 1 then (.error (.error "wp: AssignStmt: len(Lhs) is less than 1"), st)
  else
    match lhs with
    | [.IndexExpr _ _] => (.error (.error "wp: AssignStmt: IndexExpr is not implemented"), st)
    | _ =>
      match firstNonIdent lhs 0 with
      | some i =>
        (.error (.error ("wp: AssignStmt: Lhs[" ++ toString i ++ "] is not ident")), st)
      | none =>
        match rhs with
        | [.CallExpr fn args] => wpFunCall env lhs fn args postCond st
        | _ =>
          if rhs.any Expr.isCall then
            (.error (.error "multi assignment of FunCall is not supported"), st)
          else
            match assignPairs rhs lhs 0 [] [] with
            | .error e => (.error e, st)
            | .ok (vs, es) => (subst postCond vs es, st)

/-- Function `wpDeclStmt(acc, vars, ds, postCond)` of `wp.go`.  `gd.Specs[0]` panics on
an empty specification list. -/
def wpDeclStmt (decl : Decl) (postCond : Expr) (st : St) : Res Expr × St :=
  match decl with
  | .GenDecl tok specs =>
    if tok ≠ Token.VAR then (.error (.error "wpDeclStmt: not var"), st)
    else
      match specs with
      | [] => (.error (.panic "index out of range"), st)
      | .ValueSpec names typ :: _ =>
        (.ok postCond, { st with vars := names.foldl (fun m name => m.set name typ) st.vars })
      | _ :: _ => (.error (.error "wpDeclStmt: Specs[0] is not ValueSpec"), st)
  | _ => (.error (.error "wpDeclStmt: unknown Decl"), st)

/-- The statement pair `x, err = call; if err != nil { return }` followed by
the rest `k` of the function: the state the call left is kept in both
cases. -/
def andThen (r : Res Expr × St) (k : Expr → St → Res Expr × St) : Res Expr × St :=
  match r with
  | (.error e, st1) => (.error e, st1)
  | (.ok x, st1) => k x st1

mutual
/-- Function `wpStmt(acc, vars, stmt, postCond)` of `wp.go`.  The `IfStmt` case is the
body of `wpIfStmt` and the `ForStmt` case the body of `wpForStmt`, written in
place so that the recursion follows the statement tree.  In the `IfStmt`
case a nil `Else` is handed to `wpStmt`, whose type switch then takes its
`default` branch.  In the `ForStmt` case `wpStmtsNonAssert body` stands for
`wpStmts` on the statement list that `separateStmts` returned (see
`wpStmtsNonAssert_eq_wpStmts`). -/
def wpStmt (env : Env) : Stmt → Expr → St → Res Expr × St
  | .AssignStmt lhs rhs, postCond, st => wpAssignStmt env lhs rhs postCond st
  | .IfStmt cond body els, postCond, st =>
    andThen (wpStmts env body postCond st) fun thenCond st1 =>
      match els with
      | none => (.error (.error "wp: unknown statement"), st1)
      | some s2 =>
        andThen (wpStmt env s2 postCond st1) fun elseCond st2 =>
          (.ok (astOr (astAnd cond thenCond) (astAnd (astNot cond) elseCond)), st2)
  | .ForStmt cond body, postCond, st =>
    match separateStmts env body with
    | .error e => (.error e, st)
    | .ok (asserts, _) =>
      if (asserts.getExpr "INV").notNil then
        andThen (wpStmtsNonAssert env body (asserts.getExpr "INV") st) fun pre st1 =>
          (.ok (asserts.getExpr "INV"),
            { st1 with acc := (st1.acc ++ [astImplies (astAnd (asserts.getExpr "INV") cond) pre])
                ++ [astImplies (astAnd (asserts.getExpr "INV") (astNot cond)) postCond] })
      else (.error (.error "wpStmt: ForStmt: no INV"), st)
  | .BlockStmt stmts, postCond, st => wpStmts env stmts postCond st
  | .DeclStmt decl, postCond, st => wpDeclStmt decl postCond st
  | .ReturnStmt _, postCond, st => (.ok postCond, st)
  | .ExprStmt x, postCond, st =>
    match x with
    | .CallExpr fn args => wpFunCall2 env fn args postCond st
    | _ => (.error (.error "wpStmt: ExprStmt: X is unknown"), st)
  | .Other, _, st => (.error (.error "wp: unknown statement"), st)
/-- Function `wpStmts(acc, vars, stmts, postCond)` of `wp.go`: the statements are
visited from the last to the first, and the first error ends the loop. -/
def wpStmts (env : Env) : List Stmt → Expr → St → Res Expr × St
  | [], postCond, st => (.ok postCond, st)
  | stmt :: rest, postCond, st =>
    andThen (wpStmts env rest postCond st) fun pre st1 => wpStmt env stmt pre st1
/-- Function `wpStmts` on the statements of a loop body that are not annotations, that
is, on the list `stmts2` of `separateStmts`. -/
def wpStmtsNonAssert (env : Env) : List Stmt → Expr → St → Res Expr × St
  | [], postCond, st => (.ok postCond, st)
  | stmt :: rest, postCond, st =>
    match isAssertStmt env stmt with
    | .ok (_, _, true) => wpStmtsNonAssert env rest postCond st
    | _ =>
      andThen (wpStmtsNonAssert env rest postCond st) fun pre st1 => wpStmt env stmt pre st1
end

/-- Function `wpIfStmt(acc, vars, s, postCond)` of `wp.go`, for the statement
`if cond body else els`. -/
def wpIfStmt (env : Env) (cond : Expr) (body : List Stmt) (els : Option Stmt)
    (postCond : Expr) (st : St) : Res Expr × St :=
  wpStmt env (.IfStmt cond body els) postCond st

/-- Function `wpForStmt(acc, vars, s, postCond)` of `wp.go`, for the statement
`for cond body`. -/
def wpForStmt (env : Env) (cond : Expr) (body : List Stmt) (postCond : Expr) (st : St) :
    Res Expr × St :=
  wpStmt env (.ForStmt cond body) postCond st

/-- Function `getCondTobeVerified(f)` of `wp.go`, started with the global table
`funcTab` after `seeds` seedings: `(r, vars, preCond, postCond)` and the state
the traversal ended in.  `f.Body.List` panics on a declaration without
body. -/
def getCondTobeVerified (env : Env) (f : FuncDecl) (funcTab : GoMap Data) (seeds : Nat) :
    Res (List Expr × GoMap Expr × Expr × Expr) × GoMap Data × Nat :=
  match f.Body with
  | none => (.error (.panic "nil pointer dereference"), funcTab, seeds)
  | some body =>
    if body.length < 2 then (.error (.error "wpFunc: len(f.Body.List) < 2"), funcTab, seeds)
    else
      match separateStmts env body with
      | .error e => (.error e, funcTab, seeds)
      | .ok (asserts, stmts) =>
        let preCond := asserts.getExpr "PRE"
        let postCond := asserts.getExpr "POST"
        if !preCond.notNil then (.error (.error "wpFunc: no PRE"), funcTab, seeds)
        else if !postCond.notNil then (.error (.error "wpFunc: no POST"), funcTab, seeds)
        else
          match wpStmts env stmts postCond ⟨[], getFuncVars f.Typ, funcTab, seeds⟩ with
          | (.error e, st) => (.error e, st.funcTab, st.seeds)
          | (.ok wp, st) =>
            (.ok ([astNot (astImplies preCond wp)] ++ st.acc.map astNot, st.vars, preCond,
              postCond), st.funcTab, st.seeds)

/-! ## Vocabulary for stating the substitution laws -/

/-- The expression grammar that `subst` accepts: `INT`/`STRING` literals,
identifiers, unary and binary expressions, parenthesized expressions,
`Implies(a, b)`, and `ForAll(x, T, b)` / `Exists(x, T, b)` with identifiers
`x` and `T`. -/
def Supported : Expr → Bool
  | .BasicLit k _ => decide (k = Token.INT ∨ k = Token.STRING)
  | .Ident _ => true
  | .UnaryExpr _ x => Supported x
  | .BinaryExpr x _ y => Supported x && Supported y
  | .ParenExpr x => Supported x
  | .CallExpr (.Ident name) [a, b] => decide (name = "Implies") && Supported a && Supported b
  | .CallExpr (.Ident name) [.Ident _, .Ident _, body] =>
    decide (name = "ForAll" ∨ name = "Exists") && Supported body
  | _ => false

mutual
/-- Predicate `freeIn v e`: the identifier named `v` occurs free in `e`.  A quantifier
`ForAll(x, T, b)` / `Exists(x, T, b)` binds `x` in `b`; the head of a call and
the type position of a quantifier are not variable occurrences. -/
def freeIn (v : String) : Expr → Bool
  | .Nil => false
  | .BasicLit _ _ => false
  | .Ident n => decide (n = v)
  | .BinaryExpr x _ y => freeIn v x || freeIn v y
  | .UnaryExpr _ x => freeIn v x
  | .ParenExpr x => freeIn v x
  | .IndexExpr x i => freeIn v x || freeIn v i
  | .SelectorExpr x _ => freeIn v x
  | .ArrayType _ => false
  | .CallExpr (.Ident q) [.Ident x, t, body] =>
    if q = "ForAll" ∨ q = "Exists" then decide (x ≠ v) && freeIn v body
    else decide (x = v) || freeIn v t || freeIn v body
  | .CallExpr _ args => freeInArgs v args
/-- Some expression of the list has a free occurrence of `v`. -/
def freeInArgs (v : String) : List Expr → Bool
  | [] => false
  | a :: rest => freeIn v a || freeInArgs v rest
end

mutual
/-- The expression with every `ParenExpr` wrapper removed. -/
def unparen : Expr → Expr
  | .Nil => .Nil
  | .BasicLit k v => .BasicLit k v
  | .Ident n => .Ident n
  | .BinaryExpr x op y => .BinaryExpr (unparen x) op (unparen y)
  | .UnaryExpr op x => .UnaryExpr op (unparen x)
  | .CallExpr f args => .CallExpr (unparen f) (unparenArgs args)
  | .ParenExpr x => unparen x
  | .IndexExpr x i => .IndexExpr (unparen x) (unparen i)
  | .SelectorExpr x s => .SelectorExpr (unparen x) s
  | .ArrayType t => .ArrayType (unparen t)
/-- Pointwise `unparen`. -/
def unparenArgs : List Expr → List Expr
  | [] => []
  | a :: rest => unparen a :: unparenArgs rest
end

/-- The part of the grammar `Supported` in which every quantifier met outside
a quantifier body binds the identifier `v`. -/
def ShadowOnly (v : String) : Expr → Bool
  | .BasicLit k _ => decide (k = Token.INT ∨ k = Token.STRING)
  | .Ident _ => true
  | .UnaryExpr _ x => ShadowOnly v x
  | .BinaryExpr x _ y => ShadowOnly v x && ShadowOnly v y
  | .ParenExpr x => ShadowOnly v x
  | .CallExpr (.Ident name) [a, b] =>
    decide (name = "Implies") && ShadowOnly v a && ShadowOnly v b
  | .CallExpr (.Ident name) [.Ident x, .Ident _, body] =>
    decide (name = "ForAll" ∨ name = "Exists") && decide (x = v) && Supported body
  | _ => false

/-! ## The scenario programs of the specification

The procedures `abs`, `sum` and `use` of the end-to-end scenarios, as the Go
parser represents them, and an environment in which their annotation texts
parse and the contract of `abs` is on disk. -/

/-- The annotation statement `tag("text")`. -/
def markerCall (tag text : String) : Stmt :=
  .ExprStmt (.CallExpr (.Ident tag) [.BasicLit Token.STRING ("\"" ++ text ++ "\"")])

/-- The tree of `i*(i+1)/2` for the identifier `i`. -/
def triangle (i : String) : Expr :=
  .BinaryExpr
    (.BinaryExpr (.Ident i) Token.MUL
      (.ParenExpr (.BinaryExpr (.Ident i) Token.ADD (.BasicLit Token.INT "1"))))
    Token.QUO (.BasicLit Token.INT "2")

/-- The trees `parser.ParseExpr` returns for the annotation texts of the
scenarios; any other text is taken not to parse. -/
def scenarioParse (text : String) : Expr × Bool :=
  if text = "true" then (.Ident "true", true)
  else if text = "y >= 0" then (.BinaryExpr (.Ident "y") Token.GEQ (.BasicLit Token.INT "0"), true)
  else if text = "n >= 0" then (.BinaryExpr (.Ident "n") Token.GEQ (.BasicLit Token.INT "0"), true)
  else if text = "s == n*(n+1)/2" then
    (.BinaryExpr (.Ident "s") Token.EQL (triangle "n"), true)
  else if text = "s == i*(i+1)/2 && i <= n" then
    (.BinaryExpr (.BinaryExpr (.Ident "s") Token.EQL (triangle "i")) Token.LAND
      (.BinaryExpr (.Ident "i") Token.LEQ (.Ident "n")), true)
  else (.Nil, false)

/-- The verified contract of `abs`. -/
def absData : Data :=
  { Name := "abs", Inputs := [("x", "int")], Outputs := [("y", "int")], Pre := "true",
    Post := "y >= 0", Conds := [], Date := "", Note := "" }

/-- An environment for the scenarios: default configuration, source file
`prog.go`, the contract of `abs` in `prog_abs.json` and no other contract
file, and a generator whose `i`-th draw after any seeding is `1234 + i`. -/
def scenarioEnv : Env :=
  { conf := { Cmd := ["z3", "-in"], TimeOutSec := 60,
              IgnoreFuncs := ["Print", "Println", "Printf"], Debug := false },
    srcFile := "prog.go",
    ParseExpr := scenarioParse,
    LoadData := fun path =>
      if path = "prog_abs.json" then (absData, none)
      else (Data.zero, some "no such file or directory"),
    rand := fun _ i => 1234 + i }

/-- The state before the first statement is visited. -/
def St.init : St := { acc := [], vars := [], funcTab := [], seeds := 0 }

/-- The condition `x >= 0` of `abs`. -/
def absCond : Expr := .BinaryExpr (.Ident "x") Token.GEQ (.BasicLit Token.INT "0")

/-- The postcondition `y >= 0` of `abs`. -/
def absPost : Expr := .BinaryExpr (.Ident "y") Token.GEQ (.BasicLit Token.INT "0")

/-- The loop body of `sum`: `INV("...")`, `i = i + 1`, `s = s + i`. -/
def sumLoopBody : List Stmt :=
  [markerCall "INV" "s == i*(i+1)/2 && i <= n",
   .AssignStmt [.Ident "i"] [.BinaryExpr (.Ident "i") Token.ADD (.BasicLit Token.INT "1")],
   .AssignStmt [.Ident "s"] [.BinaryExpr (.Ident "s") Token.ADD (.Ident "i")]]

/-- The loop condition `i < n` of `sum`. -/
def sumCond : Expr := .BinaryExpr (.Ident "i") Token.LSS (.Ident "n")

/-- The loop invariant of `sum`. -/
def sumInv : Expr :=
  .BinaryExpr (.BinaryExpr (.Ident "s") Token.EQL (triangle "i")) Token.LAND
    (.BinaryExpr (.Ident "i") Token.LEQ (.Ident "n"))

/-- The postcondition of `sum`. -/
def sumPost : Expr := .BinaryExpr (.Ident "s") Token.EQL (triangle "n")

/-- The procedure `sum` of the scenario sum-to-n. -/
def sumDecl : FuncDecl :=
  { Name := "sum",
    Typ := { Params := [{ Names := ["n"], Typ := .Ident "int" }],
             Results := some [{ Names := ["s"], Typ := .Ident "int" }] },
    Body := some
      [markerCall "PRE" "n >= 0", markerCall "POST" "s == n*(n+1)/2",
       .DeclStmt (.GenDecl Token.VAR [.ValueSpec ["i"] (.Ident "int")]),
       .AssignStmt [.Ident "s"] [.BasicLit Token.INT "0"],
       .AssignStmt [.Ident "i"] [.BasicLit Token.INT "0"],
       .ForStmt sumCond sumLoopBody] }

/-! ## The SMT-LIB emitter (`smt.go`) -/

/-- Function `convOp(op)` of `smt.go`. -/
def convOp : Token → String
  | .ADD => "+"
  | .SUB => "-"
  | .MUL => "*"
  | .QUO => "div"
  | .REM => "mod"
  | .LAND => "and"
  | .LOR => "or"
  | .NOT => "not"
  | .EQL => "="
  | .NEQ => "="
  | .LSS => "<"
  | .GTR => ">"
  | .LEQ => "<="
  | .GEQ => ">="
  | _ => "unknown"

/-- Function `convType(typ)` of `smt.go`. -/
def convType : Expr → String
  | .Ident name =>
    if name = "int" then "Int"
    else if name = "bool" then "Bool"
    else if name = "string" then "String"
    else "unknown"
  | .ArrayType elt => "(Array Int " ++ convType elt ++ ")"
  | _ => "unknown"

/-- Function `convExpr(expr)` of `smt.go`; `none` when the call panics (a failed
type assertion, an argument index out of range, a slice out of range, or one
of the explicit `panic` calls).  `fmt.Sprintf` with `%s` verbs is
concatenation, and `Option.bind` passes a panic of a recursive call on. -/
def convExpr : Expr → Option String
  | .BasicLit _ value => some value
  | .Ident name => some name
  | .CallExpr (.Ident name) args =>
    if name = "Implies" then
      match args with
      | a0 :: a1 :: _ =>
        (convExpr a0).bind fun x => (convExpr a1).bind fun y =>
          some ("(=> " ++ x ++ " " ++ y ++ ")")
      | _ => none
    else if name = "ForAll" then
      match args with
      | .Ident nam :: typ :: body :: _ =>
        (convExpr body).bind fun b =>
          some ("(forall ((" ++ nam ++ " " ++ convType typ ++ ")) " ++ b ++ ")")
      | _ => none
    else if name = "Exists" then
      match args with
      | .BasicLit _ value :: typ :: body :: _ =>
        if value.length < 2 then none
        else
          (convExpr body).bind fun b =>
            some ("(exists ((" ++ String.mk (value.toList.tail.dropLast) ++ " " ++ convType typ
              ++ ")) " ++ b ++ ")")
      | _ => none
    else none
  | .CallExpr _ _ => none
  | .BinaryExpr x op y =>
    (convExpr x).bind fun x' => (convExpr y).bind fun y' =>
      if op = Token.NEQ then
        some ("(not " ++ ("(" ++ convOp op ++ " " ++ x' ++ " " ++ y' ++ ")") ++ ")")
      else some ("(" ++ convOp op ++ " " ++ x' ++ " " ++ y' ++ ")")
  | .UnaryExpr op x =>
    (convExpr x).bind fun x' => some ("(" ++ convOp op ++ " " ++ x' ++ ")")
  | .ParenExpr x => convExpr x
  | _ => none

/-! ## The translation as the specification words it (§4.C)

A second set of definitions, written from the text of the specification and
not from `smt.go`, against which `convExpr` is compared. -/

/-- The operator table of the specification: `+ - * / %` become
`+ - * div mod`, `&& ||` become `and or`, `!` becomes `not`, `< > <= >=` pass
through, `==` and `!=` both become `=`.  No other operator is supported. -/
def specOp : Token → Option String
  | .ADD => some "+"
  | .SUB => some "-"
  | .MUL => some "*"
  | .QUO => some "div"
  | .REM => some "mod"
  | .LAND => some "and"
  | .LOR => some "or"
  | .NOT => some "not"
  | .LSS => some "<"
  | .GTR => some ">"
  | .LEQ => some "<="
  | .GEQ => some ">="
  | .EQL => some "="
  | .NEQ => some "="
  | _ => none

/-- The operators of the supported set that the source language applies to
one operand: `+`, `-` and `!`. -/
def isUnaryOp : Token → Bool
  | .ADD => true
  | .SUB => true
  | .NOT => true
  | _ => false

/-- The operators of the supported set that the source language applies to
two operands: all but `!`. -/
def isBinaryOp : Token → Bool
  | .ADD => true
  | .SUB => true
  | .MUL => true
  | .QUO => true
  | .REM => true
  | .LAND => true
  | .LOR => true
  | .LSS => true
  | .GTR => true
  | .LEQ => true
  | .GEQ => true
  | .EQL => true
  | .NEQ => true
  | _ => false

/-- The type translation of the specification: `int`, `bool`, `string` become
`Int`, `Bool`, `String`, `[]T` becomes `(Array Int T')`, and any other
identifier becomes the literal `unknown`. -/
def specType : Expr → Option String
  | .Ident name =>
    if name = "int" then some "Int"
    else if name = "bool" then some "Bool"
    else if name = "string" then some "String"
    else some "unknown"
  | .ArrayType elt =>
    match specType elt with
    | none => none
    | some t => some ("(Array Int " ++ t ++ ")")
  | _ => none

/-- The expression translation of the specification: a literal is its text,
an identifier its name, `(e)` the translation of `e`, `X op Y` is
`(sym X' Y')`, wrapped in `(not ...)` for `!=`, `op X` is `(sym X')`,
`Implies(a, b)` is `(=> A B)`, `ForAll(x, T, b)` is `(forall ((x T')) B)`, and
`Exists("x", T, b)` is `(exists ((x T')) B)`, the bound name being the string
literal without its quotes.  Anything else has no translation. -/
def specExpr : Expr → Option String
  | .BasicLit _ value => some value
  | .Ident name => some name
  | .ParenExpr x => specExpr x
  | .BinaryExpr x op y =>
    if isBinaryOp op then
      match specOp op, specExpr x, specExpr y with
      | some sym, some x', some y' =>
        if op = Token.NEQ then some ("(not (" ++ sym ++ " " ++ x' ++ " " ++ y' ++ "))")
        else some ("(" ++ sym ++ " " ++ x' ++ " " ++ y' ++ ")")
      | _, _, _ => none
    else none
  | .UnaryExpr op x =>
    if isUnaryOp op then
      match specOp op, specExpr x with
      | some sym, some x' => some ("(" ++ sym ++ " " ++ x' ++ ")")
      | _, _ => none
    else none
  | .CallExpr (.Ident name) [a, b] =>
    if name = "Implies" then
      match specExpr a, specExpr b with
      | some a', some b' => some ("(=> " ++ a' ++ " " ++ b' ++ ")")
      | _, _ => none
    else none
  | .CallExpr (.Ident name) [.Ident x, t, body] =>
    if name = "ForAll" then
      match specType t, specExpr body with
      | some t', some b' => some ("(forall ((" ++ x ++ " " ++ t' ++ ")) " ++ b' ++ ")")
      | _, _ => none
    else none
  | .CallExpr (.Ident name) [.BasicLit kind value, t, body] =>
    if name = "Exists" ∧ kind = Token.STRING ∧ 2 ≤ value.length then
      match specType t, specExpr body with
      | some t', some b' =>
        some ("(exists ((" ++ String.mk (value.toList.tail.dropLast) ++ " " ++ t' ++ ")) " ++ b'
          ++ ")")
      | _, _ => none
    else none
  | _ => none

/-- The type expressions of the specification: identifiers and array types
`[]T`. -/
def isTypeExpr : Expr → Bool
  | .Ident _ => true
  | .ArrayType elt => isTypeExpr elt
  | _ => false

/-- The expressions the emitter is specified for: literals, identifiers,
parenthesized expressions, unary and binary expressions with an operator of
the supported set, `Implies(a, b)`, `ForAll(x, T, b)` with an identifier `x`,
and `Exists("x", T, b)` with a quoted string literal. -/
def Emittable : Expr → Bool
  | .BasicLit _ _ => true
  | .Ident _ => true
  | .ParenExpr x => Emittable x
  | .BinaryExpr x op y => isBinaryOp op && Emittable x && Emittable y
  | .UnaryExpr op x => isUnaryOp op && Emittable x
  | .CallExpr (.Ident name) [a, b] => decide (name = "Implies") && Emittable a && Emittable b
  | .CallExpr (.Ident name) [.Ident _, t, body] =>
    decide (name = "ForAll") && isTypeExpr t && Emittable body
  | .CallExpr (.Ident name) [.BasicLit kind value, t, body] =>
    decide (name = "Exists") && decide (kind = Token.STRING) && decide (2 ≤ value.length)
      && isTypeExpr t && Emittable body
  | _ => false

/-! ## Contract files (`data.go`, `main.go`) -/

/-- The contract files next to the source file.  A file is represented by the
record its JSON text decodes to (`json.Marshal` followed by `json.Unmarshal`
returns the record it started from); `locked` lists the paths that
`os.Create` fails on. -/
structure Disk where
  files : GoMap Data
  locked : List String
  deriving Repr, Inhabited

/-- Function `LoadData(inFile)` of `data.go` on the disk `disk`: the decoded record
and the error, if any. -/
def Disk.LoadData (disk : Disk) (inFile : String) : Data × Option String :=
  match disk.files.get? inFile with
  | some d => (d, none)
  | none => (Data.zero, some "no such file or directory")

/-- Method `Data.Save(outFile)` of `data.go`: the error, if any, and the disk
after the call. -/
def Data.Save (d : Data) (outFile : String) (disk : Disk) : Option String × Disk :=
  if outFile ∈ disk.locked then (some "permission denied", disk)
  else (none, { disk with files := disk.files.set outFile d })

/-- The environment `env` reading its contract files from `disk`. -/
def Env.onDisk (env : Env) (disk : Disk) : Env :=
  { env with LoadData := disk.LoadData }

/-- The last two statements of `processFunc` in `main.go`:
`setFuncData(funcName, data)` followed by
`data.Save(makeFuncFileName(funcName))`, whose error is dropped.  The result
is the table and the disk after both. -/
def processFuncStore (srcFile funcName : String) (data : Data) (funcTab : GoMap Data)
    (disk : Disk) : GoMap Data × Disk :=
  (setFuncData funcName data funcTab, (data.Save (makeFuncFileName srcFile funcName) disk).2)

/-! ## Vocabulary for stating the annotation checks -/

/-- The statement is an annotation with tag `tag`: `isAssertStmt` accepts it
with that tag and a parsed condition that is not nil. -/
def hasTag (env : Env) (tag : String) (s : Stmt) : Bool :=
  match isAssertStmt env s with
  | .ok (t, c, true) => decide (t = tag) && c.notNil
  | _ => false

/-- No statement of the list makes `isAssertStmt` panic: every call of `PRE`,
`POST` or `INV` has an argument, and a string literal has its two quotes. -/
def scanOk (env : Env) (stmts : List Stmt) : Bool :=
  stmts.all fun s =>
    match isAssertStmt env s with
    | .ok _ => true
    | .error _ => false

/-- The failure is a panic, not an `err != nil` return. -/
def Fail.isPanic : Fail → Bool
  | .panic _ => true
  | .error _ => false

/-! ## Script assembly and the solver driver (`smt.go`, `popen.go`, `conf.go`) -/

/-- Function `strings.Join(xs, sep)` of the Go library. -/
def stringsJoin : List String → String → String
  | [], _ => ""
  | [x], _ => x
  | x :: y :: rest, sep => x ++ sep ++ stringsJoin (y :: rest) sep

/-- One iteration of the loop of `convVars`: the text
`fmt.Sprintf("(declare-const %s %s)", name, convType(typ))`. -/
def declareConst (entry : String × Expr) : String :=
  "(declare-const " ++ entry.1 ++ " " ++ convType entry.2 ++ ")"

/-- Function `convVars(vars)` of `smt.go`.  The loop `for name, typ := range
vars` visits the entries of a Go map in an order the language leaves
unspecified; here `vars` lists the entries in the order the loop visits
them. -/
def convVars (vars : GoMap Expr) : String :=
  stringsJoin (vars.map declareConst) "\n"

/-- Function `makeSMTScript(vars, cond)` of `smt.go`; `none` when `convExpr`
panics. -/
def makeSMTScript (vars : GoMap Expr) (cond : Expr) : Option String :=
  (convExpr cond).map fun e =>
    stringsJoin [convVars vars, "(assert " ++ e ++ ")", "(check-sat)", "(get-model)"] "\n" ++ "\n"

/-- Predicate `unicode.IsSpace` of the Go library, which `strings.TrimSpace`
uses. -/
def isSpace (c : Char) : Bool :=
  c = '\t' || c = '\n' || c = '\x0b' || c = '\x0c' || c = '\r' || c = ' '
    || c = '\u0085' || c = '\u00a0' || c = '\u1680'
    || (0x2000 ≤ c.toNat && c.toNat ≤ 0x200a)
    || c = '\u2028' || c = '\u2029' || c = '\u202f' || c = '\u205f' || c = '\u3000'

/-- Function `strings.TrimSpace(s)` of the Go library. -/
def TrimSpace (s : String) : String :=
  String.mk ((s.data.dropWhile isSpace).reverse.dropWhile isSpace).reverse

/-- Function `strings.Split(s, "\n")` on characters: the first piece and the
pieces after it (the result of `Split` with a non-empty separator is never
empty, so `t[0]` exists). -/
def splitLF : List Char → List Char × List (List Char)
  | [] => ([], [])
  | c :: cs =>
      if c = '\n' then ([], (splitLF cs).1 :: (splitLF cs).2)
      else (c :: (splitLF cs).1, (splitLF cs).2)

/-- Function `runCmd` of `popen.go` seen from its callers: from the argv, the
script and the timeout to `(outText, errText, err)`. -/
abbrev RunCmd := List String → String → Int → String × String × Option String

/-- Function `runSMTScript(script)` of `smt.go` (debug output left out):
`(result, outText, errText, err)`. -/
def runSMTScript (conf : Config) (runCmd : RunCmd) (script : String) :
    String × String × String × Option String :=
  let out := runCmd conf.Cmd script conf.TimeOutSec
  let t := splitLF out.1.data
  (TrimSpace (String.mk t.1), TrimSpace (stringsJoin (t.2.map String.mk) "\n"),
    TrimSpace out.2.1, out.2.2)

/-- How `processFunc` judges one condition. -/
inductive Verdict where
  | holds
  | refuted (counterExample : String)
  | inconclusive (msg : String)
  deriving DecidableEq, Repr

/-- The test of `err` and the `switch result` of `processFunc` (`main.go`,
lines 144-161) on what `runSMTScript` returned. -/
def processFuncVerdict (r : String × String × String × Option String) : Verdict :=
  match r.2.2.2 with
  | some e => .inconclusive (e ++ "; " ++ r.2.2.1)
  | none =>
      if r.1 = "sat" then .refuted r.2.1
      else if r.1 = "unsat" then .holds
      else .inconclusive "something wrong"

/-- The loop `for _, cond := range conds` of `processFunc` (`main.go`, lines
110-163): `ok` when every condition holds, else the error of the first one
that does not. -/
def processFuncConds (conf : Config) (runCmd : RunCmd) (vars : GoMap Expr) :
    List Expr → Res Unit
  | [] => .ok ()
  | cond :: rest =>
      match makeSMTScript vars cond with
      | none => .error (.panic "convExpr")
      | some script =>
          match processFuncVerdict (runSMTScript conf runCmd script) with
          | .holds => processFuncConds conf runCmd vars rest
          | .refuted c => .error (.error ("unsat; counter-example: " ++ c))
          | .inconclusive msg => .error (.error msg)

/-- The text of `s` before its first line feed (all of `s` when there is
none): the first line of the specification. -/
def firstLine (s : String) : String :=
  String.mk (s.data.takeWhile (· ≠ '\n'))

/-- The text of `s` after its first line feed (empty when there is none):
the remaining output of the specification. -/
def afterFirstLine (s : String) : String :=
  String.mk ((s.data.dropWhile (· ≠ '\n')).drop 1)

/-- The event the `select` of `runCmd` observes. -/
inductive WaitEvent where
  | done
  | timer
  deriving DecidableEq, Repr

/-- The `select` statement of `runCmd` (`popen.go`, lines 97-108) and the
`return` after it.  `shared` holds `outText`, `errText` and `err` as the
reading goroutine has left them when the event is observed; `kill` is the
error of `p.Process.Kill()`, `none` when the kill succeeds. -/
def runCmdSelect (ev : WaitEvent) (kill : Option String)
    (shared : String × String × Option String) : String × String × Option String :=
  match ev with
  | .done => shared
  | .timer =>
      match kill with
      | some e => (shared.1, "runCmd: timeout: failed to kill: " ++ e, some e)
      | none => (shared.1, shared.2.1, none)

/-- The first statement of `runCmd`, `exec.Command(cmd[0], cmd[1:]...)`: the
program and its arguments, `none` when `cmd[0]` panics. -/
def runCmdCommand : List String → Option (String × List String)
  | [] => none
  | exe :: args => some (exe, args)

/-- The `Config` value as `json.Unmarshal` leaves it in `LoadConfig`: a slice
is `none` (Go `nil`) when its key is missing or `null`, and `some []` when the
file gives an empty array. -/
structure DecodedConfig where
  Cmd : Option (List String)
  TimeOutSec : Int
  IgnoreFuncs : Option (List String)
  Debug : Bool
  deriving DecidableEq, Repr

/-- Function `LoadConfig()` of `conf.go`; `decoded` is the outcome of
`ioutil.ReadFile` followed by `json.Unmarshal`. -/
def LoadConfig (decoded : Except String DecodedConfig) : Except String Config :=
  match decoded with
  | .error e => .error e
  | .ok c =>
      .ok { Cmd := match c.Cmd with
                   | none => ["z3", "-in"]
                   | some cmd => cmd
            TimeOutSec := if c.TimeOutSec = 0 then 60 else c.TimeOutSec
            IgnoreFuncs := if (c.IgnoreFuncs.getD []).length = 0
                           then ["Print", "Println", "Printf"]
                           else c.IgnoreFuncs.getD []
            Debug := c.Debug }

/-! ## The meaning of the emitted text (SMT-LIB theories `Core` and `Ints`) and of the source's division -/

/-- Go's quotient `a / b` of two `int` values, for `b` other than zero: "the
quotient is truncated towards zero", and "if the dividend is the most negative
value of its type, the quotient `x / -1` is equal to `x`" (Go language
specification, arithmetic operators; `int` taken as 64 bits wide). -/
def goQuo (a b : Int) : Int :=
  if a = -(2 ^ 63) ∧ b = -1 then a else Int.tdiv a b

/-- Go's remainder `a % b`, for `b` other than zero: `a = (a / b) * b + a % b`
with the truncated quotient, so the remainder has the sign of `a`. -/
def goRem (a b : Int) : Int := Int.tmod a b

/-- The functions of the theory `Ints` named by the symbols `convOp` can emit
for an arithmetic operator.  For a divisor other than zero `div` and `mod`
are the quotient and remainder with `m = n * (div m n) + (mod m n)` and
`0 <= (mod m n) < |n|`; the theory leaves them open for the divisor zero,
where this table takes Lean's value. -/
def smtIntOp (sym : String) : Option (Int → Int → Int) :=
  if sym = "+" then some (· + ·)
  else if sym = "-" then some (· - ·)
  else if sym = "*" then some (· * ·)
  else if sym = "div" then some Int.ediv
  else if sym = "mod" then some Int.emod
  else none

/-- The order predicates of the theory `Ints`. -/
def smtRelOp (sym : String) : Option (Int → Int → Bool) :=
  if sym = "<" then some fun a b => decide (a < b)
  else if sym = ">" then some fun a b => decide (a > b)
  else if sym = "<=" then some fun a b => decide (a ≤ b)
  else if sym = ">=" then some fun a b => decide (a ≥ b)
  else none

/-- The binary connectives of the theory `Core`. -/
def smtBoolOp (sym : String) : Option (Bool → Bool → Bool) :=
  if sym = "and" then some (· && ·)
  else if sym = "or" then some (· || ·)
  else if sym = "=>" then some fun a b => !a || b
  else none

/-- A value of sort `Int` or `Bool`. -/
inductive SVal where
  | int (i : Int)
  | bool (b : Bool)
  deriving DecidableEq, Repr

/-- The value of a numeral: a non-empty sequence of decimal digits. -/
def numeral (s : String) : Option Int :=
  if s.data ≠ [] ∧ s.data.all Char.isDigit = true then
    some (s.data.foldl (fun n c => 10 * n + ((c.toNat : Int) - 48)) 0)
  else none

/-- The value of `(sym a b)` for a binary operator symbol `convOp` emits. -/
def smtApply (sym : String) : SVal → SVal → Option SVal
  | .int a, .int b =>
      if sym = "=" then some (.bool (decide (a = b)))
      else
        match smtIntOp sym with
        | some f => some (.int (f a b))
        | none => (smtRelOp sym).map fun f => .bool (f a b)
  | .bool a, .bool b =>
      if sym = "=" then some (.bool (decide (a = b)))
      else (smtBoolOp sym).map fun f => .bool (f a b)
  | _, _ => none

/-- The value of `(sym a)` for a unary operator symbol `convOp` emits. -/
def smtApply1 (sym : String) : SVal → Option SVal
  | .int a => if sym = "-" then some (.int (-a)) else none
  | .bool a => if sym = "not" then some (.bool (!a)) else none

/-- The value, under the assignment `σ` to the declared constants, of the
term `convExpr` emits for a quantifier-free expression: `none` when the term
is ill-sorted or uses a symbol outside the two theories.  The cases follow
those of `convExpr`: parentheses are dropped, `!=` is `=` inside `not`. -/
def smtEval (σ : String → SVal) : Expr → Option SVal
  | .BasicLit kind value => if kind = Token.INT then (numeral value).map SVal.int else none
  | .Ident name =>
      if name = "true" then some (.bool true)
      else if name = "false" then some (.bool false)
      else some (σ name)
  | .CallExpr (.Ident name) args =>
      if name = "Implies" then
        match args with
        | a0 :: a1 :: _ =>
          (smtEval σ a0).bind fun x => (smtEval σ a1).bind fun y => smtApply "=>" x y
        | _ => none
      else none
  | .CallExpr _ _ => none
  | .BinaryExpr x op y =>
      (smtEval σ x).bind fun a => (smtEval σ y).bind fun b =>
        if op = Token.NEQ then (smtApply (convOp op) a b).bind (smtApply1 "not")
        else smtApply (convOp op) a b
  | .UnaryExpr op x => (smtEval σ x).bind (smtApply1 (convOp op))
  | .ParenExpr x => smtEval σ x
  | _ => none

/-- The variable environment of `sum`: `n`, `s` and `i`, of type `int`. -/
def sumVars : GoMap Expr := [("n", .Ident "int"), ("s", .Ident "int"), ("i", .Ident "int")]

/-- The conditions to be verified of `sum`, as `getCondTobeVerified` returns
them (an empty list if it fails). -/
def sumConds : List Expr :=
  match (getCondTobeVerified scenarioEnv sumDecl [] 0).1 with
  | .ok out => out.1
  | .error _ => []

/-! ## Reading the emitted text back (SMT-LIB S-expressions) -/

/-- An S-expression: an atom (a numeral, a symbol, a string literal, written
as its text) or a parenthesized sequence of S-expressions. -/
inductive SExp where
  | atom (text : String)
  | list (items : List SExp)

mutual
/-- The text of an S-expression: the items of a list stand between
parentheses, separated by one space. -/
def SExp.print : SExp → List Char
  | .atom text => text.data
  | .list items => '(' :: (SExp.printItems items ++ [')'])
/-- The texts of the items, separated by one space. -/
def SExp.printItems : List SExp → List Char
  | [] => []
  | x :: rest =>
      x.print ++ (match rest with
                  | [] => []
                  | _ :: _ => ' ' :: SExp.printItems rest)
end

/-- White space of SMT-LIB: tab, line feed, carriage return, space. -/
def isBlank (c : Char) : Bool := c = '\t' || c = '\n' || c = '\r' || c = ' '

/-- The characters that end an atom: parentheses, white space, and the
characters that start a comment, a string literal or a quoted symbol. -/
def isDelim (c : Char) : Bool :=
  c = '(' || c = ')' || isBlank c || c = ';' || c = '"' || c = '|'

/-- What the reader is in the middle of: between tokens, in an atom, in a
string literal, just after a double quote inside a string literal (the quote
ends the literal unless a second one follows), in a quoted symbol, in a
comment, or stopped at a closing parenthesis without an opening one.  `acc`
holds the characters of the token read so far, last one first. -/
inductive ReadMode where
  | gap
  | atom (acc : List Char)
  | str (acc : List Char)
  | strQuote (acc : List Char)
  | quoted (acc : List Char)
  | comment
  | bad

/-- The state of the reader: the items read so far of the innermost open
list (`top`, last one first), those of the enclosing open lists (`outer`),
and the mode.  At the outermost level `outer` is empty. -/
structure ReadState where
  top : List SExp
  outer : List (List SExp)
  mode : ReadMode

/-- The atom with the characters `acc` (last one first). -/
def SExp.ofAcc (acc : List Char) : SExp := .atom (String.mk acc.reverse)

/-- One character read between tokens. -/
def gapStep (top : List SExp) (outer : List (List SExp)) (c : Char) : ReadState :=
  if c = '(' then ⟨[], top :: outer, .gap⟩
  else if c = ')' then
    match outer with
    | next :: rest => ⟨SExp.list top.reverse :: next, rest, .gap⟩
    | [] => ⟨top, outer, .bad⟩
  else if isBlank c then ⟨top, outer, .gap⟩
  else if c = ';' then ⟨top, outer, .comment⟩
  else if c = '"' then ⟨top, outer, .str [c]⟩
  else if c = '|' then ⟨top, outer, .quoted [c]⟩
  else ⟨top, outer, .atom [c]⟩

/-- One character read. -/
def readStep (s : ReadState) (c : Char) : ReadState :=
  match s.mode with
  | .gap => gapStep s.top s.outer c
  | .atom acc =>
      if isDelim c then gapStep (SExp.ofAcc acc :: s.top) s.outer c
      else ⟨s.top, s.outer, .atom (c :: acc)⟩
  | .str acc =>
      if c = '"' then ⟨s.top, s.outer, .strQuote (c :: acc)⟩
      else ⟨s.top, s.outer, .str (c :: acc)⟩
  | .strQuote acc =>
      if c = '"' then ⟨s.top, s.outer, .str (c :: acc)⟩
      else gapStep (SExp.ofAcc acc :: s.top) s.outer c
  | .quoted acc =>
      if c = '|' then ⟨SExp.ofAcc (c :: acc) :: s.top, s.outer, .gap⟩
      else ⟨s.top, s.outer, .quoted (c :: acc)⟩
  | .comment => if c = '\n' then ⟨s.top, s.outer, .gap⟩ else s
  | .bad => s

/-- The items of the innermost open list and the enclosing lists once a
token in progress is closed by a delimiter; `none` inside a string literal, a
quoted symbol or a comment and after a stop. -/
def ReadState.settle (s : ReadState) : Option (List SExp × List (List SExp)) :=
  match s.mode with
  | .gap => some (s.top, s.outer)
  | .atom acc => some (SExp.ofAcc acc :: s.top, s.outer)
  | .strQuote acc => some (SExp.ofAcc acc :: s.top, s.outer)
  | _ => none

/-- The end of the text: it is one S-expression when no list is open, no
token is unfinished and exactly one item was read at the outermost level. -/
def ReadState.finish (s : ReadState) : Option SExp :=
  match (match s.mode with
         | .comment => some (s.top, s.outer)
         | _ => s.settle) with
  | some ([t], []) => some t
  | _ => none

/-- A reader of SMT-LIB's S-expression syntax (parentheses, white space,
comments, string literals, quoted symbols, and atoms, which are not classified
any further): the one S-expression the text consists of, `none` when the text
is not exactly one well-formed S-expression. -/
def readSExp (text : String) : Option SExp :=
  (text.data.foldl readStep ⟨[], [], .gap⟩).finish

/-- The sort `convType` writes, as a tree. -/
def treeOfType : Expr → SExp
  | .Ident name =>
      if name = "int" then .atom "Int"
      else if name = "bool" then .atom "Bool"
      else if name = "string" then .atom "String"
      else .atom "unknown"
  | .ArrayType elt => .list [.atom "Array", .atom "Int", treeOfType elt]
  | _ => .atom "unknown"

/-- The tree equivalent to an expression: the operators after the operator
mapping, the operands in their order, the parentheses of the source dropped;
`none` where `convExpr` has no translation. -/
def treeOf : Expr → Option SExp
  | .BasicLit _ value => some (.atom value)
  | .Ident name => some (.atom name)
  | .CallExpr (.Ident name) args =>
    if name = "Implies" then
      match args with
      | a0 :: a1 :: _ =>
        (treeOf a0).bind fun x => (treeOf a1).bind fun y =>
          some (.list [.atom "=>", x, y])
      | _ => none
    else if name = "ForAll" then
      match args with
      | .Ident nam :: typ :: body :: _ =>
        (treeOf body).bind fun b =>
          some (.list [.atom "forall", .list [.list [.atom nam, treeOfType typ]], b])
      | _ => none
    else if name = "Exists" then
      match args with
      | .BasicLit _ value :: typ :: body :: _ =>
        if value.length < 2 then none
        else
          (treeOf body).bind fun b =>
            some (.list [.atom "exists",
              .list [.list [.atom (String.mk (value.toList.tail.dropLast)), treeOfType typ]], b])
      | _ => none
    else none
  | .CallExpr _ _ => none
  | .BinaryExpr x op y =>
    (treeOf x).bind fun x' => (treeOf y).bind fun y' =>
      if op = Token.NEQ then
        some (.list [.atom "not", .list [.atom (convOp op), x', y']])
      else some (.list [.atom (convOp op), x', y'])
  | .UnaryExpr op x =>
    (treeOf x).bind fun x' => some (.list [.atom (convOp op), x'])
  | .ParenExpr x => treeOf x
  | _ => none

mutual
/-- Every atom of the tree is non-empty and free of delimiters. -/
def SExp.plain : SExp → Bool
  | .atom text => !text.data.isEmpty && text.data.all fun c => !isDelim c
  | .list items => SExp.plainItems items
/-- Every atom of the trees is non-empty and free of delimiters. -/
def SExp.plainItems : List SExp → Bool
  | [] => true
  | x :: rest => x.plain && SExp.plainItems rest
end

/-! # Properties -/

open Expr

/-! ## Substitution and equality -/

theorem Equals_ident (a b : String) :
    Equals (.Ident a) (.Ident b) = some (decide (a = b)) := by
  simp [Equals]

theorem unparen_ne_paren : ∀ (e y : Expr), unparen e ≠ .ParenExpr y
  | .ParenExpr x, y => by
    rw [unparen]
    exact unparen_ne_paren x y
  | .Nil, _ => by simp [unparen]
  | .BasicLit _ _, _ => by simp [unparen]
  | .Ident _, _ => by simp [unparen]
  | .BinaryExpr _ _ _, _ => by simp [unparen]
  | .UnaryExpr _ _, _ => by simp [unparen]
  | .CallExpr _ _, _ => by simp [unparen]
  | .IndexExpr _ _, _ => by simp [unparen]
  | .SelectorExpr _ _, _ => by simp [unparen]
  | .ArrayType _, _ => by simp [unparen]

/-- C1, as stated, fails: `(x)` is an expression of the supported grammar in
which `v` does not occur, yet `subst((x), [v], [1])` returns `x`, which is not
`(x)`: the `ParenExpr` case returns the substituted content without the
wrapper. -/
theorem subst_identity_counterexample :
    Supported (ParenExpr (Ident "x")) = true ∧
    freeIn "v" (ParenExpr (Ident "x")) = false ∧
    subst (ParenExpr (Ident "x")) [Ident "v"] [BasicLit Token.INT "1"] = .ok (Ident "x") ∧
    Ident "x" ≠ ParenExpr (Ident "x") := by
  refine ⟨rfl, rfl, rfl, ?_⟩
  intro h
  cases h

/-- C1, amended: let `e` be built from `INT`/`STRING` literals, identifiers,
unary and binary operators, parentheses, `Implies`, and quantifiers that bind
`v` itself, and let `v` not occur free in `e`.  Then `subst(e, [v], [r])`
succeeds with an expression that equals `e` once the parentheses are removed
from both, and that is `e` itself when `e` contains no parentheses. -/
theorem subst_identity_amended (v : String) (r : Expr) (e : Expr)
    (hg : ShadowOnly v e = true) (hf : freeIn v e = false) :
    ∃ e', subst e [.Ident v] [r] = .ok e' ∧ unparen e' = unparen e ∧
      (unparen e = e → e' = e) := by
  induction e using ShadowOnly.induct v with
  | case1 k val =>
    simp only [ShadowOnly, decide_eq_true_eq] at hg
    exact ⟨_, by simp [subst, hg], rfl, fun _ => rfl⟩
  | case2 n =>
    have hn : ¬ n = v := by simpa [freeIn] using hf
    exact ⟨.Ident n, by simp [subst, substIdent, Equals, hn], rfl, fun _ => rfl⟩
  | case3 op x ih =>
    simp only [ShadowOnly] at hg
    simp only [freeIn] at hf
    obtain ⟨x', h1, h2, h3⟩ := ih hg hf
    refine ⟨.UnaryExpr op x', by simp [subst, h1], by simp [unparen, h2], ?_⟩
    intro h
    simp only [unparen, UnaryExpr.injEq, true_and] at h
    rw [h3 h]
  | case4 x op y ihx ihy =>
    simp only [ShadowOnly, Bool.and_eq_true] at hg
    simp only [freeIn, Bool.or_eq_false_iff] at hf
    obtain ⟨x', h1, h2, h3⟩ := ihx hg.1 hf.1
    obtain ⟨y', k1, k2, k3⟩ := ihy hg.2 hf.2
    refine ⟨.BinaryExpr x' op y', by simp [subst, h1, k1], by simp [unparen, h2, k2], ?_⟩
    intro h
    simp only [unparen, BinaryExpr.injEq, true_and] at h
    rw [h3 h.1, k3 h.2]
  | case5 x ih =>
    simp only [ShadowOnly] at hg
    simp only [freeIn] at hf
    obtain ⟨x', h1, h2, _⟩ := ih hg hf
    refine ⟨x', by simp [subst, h1], by simp [unparen, h2], ?_⟩
    intro h
    exact absurd h (by simpa [unparen] using unparen_ne_paren x x)
  | case6 name a b iha ihb =>
    simp only [ShadowOnly, Bool.and_eq_true, decide_eq_true_eq] at hg
    simp only [freeIn, freeInArgs, Bool.or_eq_false_iff] at hf
    obtain ⟨⟨hname, ha⟩, hb⟩ := hg
    obtain ⟨a', h1, h2, h3⟩ := iha ha hf.1
    obtain ⟨b', k1, k2, k3⟩ := ihb hb hf.2.1
    subst hname
    refine ⟨.CallExpr (.Ident "Implies") [a', b'], by simp [subst, h1, k1],
      by simp [unparen, unparenArgs, h2, k2], ?_⟩
    intro h
    simp only [unparen, unparenArgs, CallExpr.injEq, true_and, List.cons.injEq, and_true] at h
    rw [h3 h.1, k3 h.2]
  | case7 name x t body =>
    simp only [ShadowOnly, Bool.and_eq_true, decide_eq_true_eq] at hg
    obtain ⟨⟨hname, hx⟩, _⟩ := hg
    subst hx
    refine ⟨_, ?_, rfl, fun _ => rfl⟩
    have hex : excludeVsEs (.Ident x) [.Ident x] [r] = .ok (true, [], []) := by
      simp [excludeVsEs, excludeVsEsLoop, Equals]
    have hne : ¬ name = "Implies" := by
      rcases hname with h | h <;> subst h <;> decide
    rw [subst.eq_6, if_neg hne, if_pos hname, hex]
    rfl
  | case8 t h1 h2 h3 h4 h5 h6 h7 =>
    exfalso
    unfold ShadowOnly at hg
    split at hg
    all_goals first
      | exact h1 _ _ rfl
      | exact h2 _ rfl
      | exact h3 _ _ rfl
      | exact h4 _ _ _ rfl
      | exact h5 _ rfl
      | exact h6 _ _ _ rfl
      | exact h7 _ _ _ _ rfl
      | exact Bool.false_ne_true hg

/-- Witness for C1 amended, at `(x) + 1` next to `ForAll(v, int, v > 0)`
under `Implies`, with `v` replaced by `y * 2`. -/
theorem subst_identity_amended_witness :
    ShadowOnly "v"
      (astImplies (BinaryExpr (ParenExpr (Ident "x")) Token.ADD (BasicLit Token.INT "1"))
        (astForAll (Ident "v") (Ident "int")
          (BinaryExpr (Ident "v") Token.GTR (BasicLit Token.INT "0")))) = true ∧
    freeIn "v"
      (astImplies (BinaryExpr (ParenExpr (Ident "x")) Token.ADD (BasicLit Token.INT "1"))
        (astForAll (Ident "v") (Ident "int")
          (BinaryExpr (Ident "v") Token.GTR (BasicLit Token.INT "0")))) = false ∧
    ∃ e', subst
        (astImplies (BinaryExpr (ParenExpr (Ident "x")) Token.ADD (BasicLit Token.INT "1"))
          (astForAll (Ident "v") (Ident "int")
            (BinaryExpr (Ident "v") Token.GTR (BasicLit Token.INT "0"))))
        [Ident "v"] [BinaryExpr (Ident "y") Token.MUL (BasicLit Token.INT "2")] = .ok e' ∧
      unparen e' = unparen
        (astImplies (BinaryExpr (ParenExpr (Ident "x")) Token.ADD (BasicLit Token.INT "1"))
          (astForAll (Ident "v") (Ident "int")
            (BinaryExpr (Ident "v") Token.GTR (BasicLit Token.INT "0")))) ∧
      (unparen
        (astImplies (BinaryExpr (ParenExpr (Ident "x")) Token.ADD (BasicLit Token.INT "1"))
          (astForAll (Ident "v") (Ident "int")
            (BinaryExpr (Ident "v") Token.GTR (BasicLit Token.INT "0")))) =
        astImplies (BinaryExpr (ParenExpr (Ident "x")) Token.ADD (BasicLit Token.INT "1"))
          (astForAll (Ident "v") (Ident "int")
            (BinaryExpr (Ident "v") Token.GTR (BasicLit Token.INT "0"))) →
        e' = astImplies (BinaryExpr (ParenExpr (Ident "x")) Token.ADD (BasicLit Token.INT "1"))
          (astForAll (Ident "v") (Ident "int")
            (BinaryExpr (Ident "v") Token.GTR (BasicLit Token.INT "0")))) :=
  ⟨rfl, rfl, subst_identity_amended "v" _ _ rfl rfl⟩

/-- C2, the code at the input of its own doc comment: the comment of
`excludeVsEs` promises `excludeVsEs(x, [a,x,y], [A,B,C]) = [a,y],[A,C]`, the
code returns `[x,x],[A,C]` (it appends the bound name `v`, not the kept
variable `v2`).  Hence `subst(ForAll(x, int, x > a), [a], [1])` is
`ForAll(x, int, 1 > a)`: the bound `x` of the body is replaced and the free
`a` is not. -/
theorem excludeVsEs_keeps_bound_name :
    excludeVsEs (Ident "x") [Ident "a", Ident "x", Ident "y"] [Ident "A", Ident "B", Ident "C"]
      = .ok (true, [Ident "x", Ident "x"], [Ident "A", Ident "C"]) ∧
    subst (astForAll (Ident "x") (Ident "int") (BinaryExpr (Ident "x") Token.GTR (Ident "a")))
        [Ident "a"] [BasicLit Token.INT "1"]
      = .ok (astForAll (Ident "x") (Ident "int")
          (BinaryExpr (BasicLit Token.INT "1") Token.GTR (Ident "a"))) :=
  ⟨rfl, rfl⟩

theorem Equals_call_ne_false (f g : Expr) (xs ys : List Expr) :
    Equals (.CallExpr f xs) (.CallExpr g ys) ≠ some false := by
  rw [Equals]
  split
  · simp
  · simp
  · split
    · simp
    · split <;> simp

/-- C3, the code at three pairs of calls: `Equals(f(1), f(2))` is true
although the arguments differ, `Equals(f(1), g(1))` is true although the heads
differ, and `Equals(f(1, z), f(1))` panics on `yce.Args[1]`. -/
theorem Equals_call_evaluated :
    Equals (CallExpr (Ident "f") [BasicLit Token.INT "1"])
      (CallExpr (Ident "f") [BasicLit Token.INT "2"]) = some true ∧
    Equals (CallExpr (Ident "f") [BasicLit Token.INT "1"])
      (CallExpr (Ident "g") [BasicLit Token.INT "1"]) = some true ∧
    Equals (CallExpr (Ident "f") [BasicLit Token.INT "1", Ident "z"])
      (CallExpr (Ident "f") [BasicLit Token.INT "1"]) = none :=
  ⟨rfl, rfl, rfl⟩


/-! ## The weakest-precondition calculus -/

theorem separateStmtsLoop_spec (env : Env) :
    ∀ (l : List Stmt) (asserts : GoMap Expr) (acc2 : List Stmt) (a : GoMap Expr)
      (stmts : List Stmt),
      separateStmtsLoop env l asserts acc2 = .ok (a, stmts) →
      ∃ tail, stmts = acc2 ++ tail ∧
        ∀ post st, wpStmtsNonAssert env l post st = wpStmts env tail post st := by
  intro l
  induction l with
  | nil =>
    intro asserts acc2 a stmts h
    simp only [separateStmtsLoop, Except.ok.injEq, Prod.mk.injEq] at h
    exact ⟨[], by simp [h.2], fun post st => by simp [wpStmtsNonAssert, wpStmts]⟩
  | cons s rest ih =>
    intro asserts acc2 a stmts h
    rw [separateStmtsLoop] at h
    cases hs : isAssertStmt env s with
    | error e => rw [hs] at h; cases h
    | ok r =>
      obtain ⟨tag, cond, ok⟩ := r
      rw [hs] at h
      cases ok with
      | true =>
        simp only [if_true] at h
        split at h
        · cases h
        · obtain ⟨tail, h1, h2⟩ := ih _ _ _ _ h
          exact ⟨tail, h1, fun post st => by rw [wpStmtsNonAssert, hs]; exact h2 post st⟩
      | false =>
        simp only [Bool.false_eq_true, if_false] at h
        obtain ⟨tail, h1, h2⟩ := ih _ _ _ _ h
        refine ⟨s :: tail, by simp [h1], fun post st => ?_⟩
        rw [wpStmtsNonAssert, hs, wpStmts, h2]

theorem wpStmtsNonAssert_eq_wpStmts (env : Env) (body : List Stmt) (asserts : GoMap Expr)
    (stmts : List Stmt) (h : separateStmts env body = .ok (asserts, stmts)) (post : Expr)
    (st : St) : wpStmtsNonAssert env body post st = wpStmts env stmts post st := by
  obtain ⟨tail, h1, h2⟩ := separateStmtsLoop_spec env body [] [] asserts stmts h
  simp only [List.nil_append] at h1
  rw [h1, h2]

theorem wpStmt_IfStmt (env : Env) (cond : Expr) (body : List Stmt) (els : Option Stmt)
    (Q : Expr) (st : St) :
    wpStmt env (.IfStmt cond body els) Q st =
      andThen (wpStmts env body Q st) fun thenCond st1 =>
        match els with
        | none => (.error (.error "wp: unknown statement"), st1)
        | some s2 =>
          andThen (wpStmt env s2 Q st1) fun elseCond st2 =>
            (.ok (astOr (astAnd cond thenCond) (astAnd (astNot cond) elseCond)), st2) := by
  cases els <;> rfl

theorem wpStmt_ForStmt (env : Env) (cond : Expr) (body : List Stmt) (Q : Expr) (st : St) :
    wpStmt env (.ForStmt cond body) Q st =
      match separateStmts env body with
      | .error e => (.error e, st)
      | .ok (asserts, _) =>
        if (asserts.getExpr "INV").notNil then
          andThen (wpStmtsNonAssert env body (asserts.getExpr "INV") st) fun pre st1 =>
            (.ok (asserts.getExpr "INV"),
              { st1 with acc := (st1.acc ++ [astImplies (astAnd (asserts.getExpr "INV") cond) pre])
                  ++ [astImplies (astAnd (asserts.getExpr "INV") (astNot cond)) Q] })
        else (.error (.error "wpStmt: ForStmt: no INV"), st) := by
  rfl

theorem wpIfStmt_none_not_ok (env : Env) (cond : Expr) (body : List Stmt) (Q : Expr) (st : St)
    (w : Expr) : (wpIfStmt env cond body none Q st).1 ≠ .ok w := by
  rw [wpIfStmt, wpStmt_IfStmt]
  rcases h : wpStmts env body Q st with ⟨r, st1⟩
  cases r <;> simp [andThen]

/-- C4, the code on `if x >= 0 { y = x }` with postcondition `y >= 0`: the nil
`Else` reaches the `default` branch of `wpStmt` and `wpIfStmt` returns the
error `wp: unknown statement`; with an explicit empty `else {}` it returns
`(c && WP(S1,Q)) || (!c && Q)`. -/
theorem wpIfStmt_without_else_evaluated :
    wpIfStmt scenarioEnv absCond [.AssignStmt [Ident "y"] [Ident "x"]] none absPost St.init
      = (.error (.error "wp: unknown statement"), St.init) ∧
    wpIfStmt scenarioEnv absCond [.AssignStmt [Ident "y"] [Ident "x"]] (some (.BlockStmt []))
        absPost St.init
      = (.ok (astOr (astAnd absCond (BinaryExpr (Ident "x") Token.GEQ (BasicLit Token.INT "0")))
          (astAnd (astNot absCond) absPost)), St.init) :=
  ⟨rfl, rfl⟩

/-- C5: when `getCondTobeVerified` succeeds, the body separates into
annotations and statements, `wpStmts` on the statements against `POST`
succeeds with some `wp` from the empty accumulator, and the returned list is
`!Implies(PRE, wp)` followed by `!s` for every `s` of the accumulator, in the
accumulator's order; the returned conditions are `PRE` and `POST`. -/
theorem getCondTobeVerified_list (env : Env) (f : FuncDecl) (funcTab : GoMap Data) (seeds : Nat)
    (out : List Expr × GoMap Expr × Expr × Expr) (g : GoMap Data × Nat)
    (h : getCondTobeVerified env f funcTab seeds = (.ok out, g)) :
    ∃ body asserts stmts wp st,
      f.Body = some body ∧ separateStmts env body = .ok (asserts, stmts) ∧
      wpStmts env stmts (asserts.getExpr "POST") ⟨[], getFuncVars f.Typ, funcTab, seeds⟩
        = (.ok wp, st) ∧
      out.1 = astNot (astImplies (asserts.getExpr "PRE") wp) :: st.acc.map astNot ∧
      out.2.2.1 = asserts.getExpr "PRE" ∧ out.2.2.2 = asserts.getExpr "POST" := by
  unfold getCondTobeVerified at h
  split at h
  · cases h
  · rename_i body hbody
    split at h
    · cases h
    · split at h
      · cases h
      · rename_i asserts stmts hsep
        simp only at h
        split at h
        · cases h
        · split at h
          · cases h
          · split at h
            · cases h
            · rename_i wp st hwp
              simp only [Prod.mk.injEq, Except.ok.injEq] at h
              refine ⟨body, asserts, stmts, wp, st, hbody, hsep, hwp, ?_, ?_, ?_⟩
              · rw [← h.1]; rfl
              · rw [← h.1]
              · rw [← h.1]

/-- Witness for C5, at the procedure `sum`: three conditions are returned. -/
theorem getCondTobeVerified_list_witness :
    ∃ out g, getCondTobeVerified scenarioEnv sumDecl [] 0 = (.ok out, g) ∧
      out.1.length = 3 ∧
      ∃ body asserts stmts wp st,
        sumDecl.Body = some body ∧ separateStmts scenarioEnv body = .ok (asserts, stmts) ∧
        wpStmts scenarioEnv stmts (asserts.getExpr "POST")
          ⟨[], getFuncVars sumDecl.Typ, [], 0⟩ = (.ok wp, st) ∧
        out.1 = astNot (astImplies (asserts.getExpr "PRE") wp) :: st.acc.map astNot ∧
        out.2.2.1 = asserts.getExpr "PRE" ∧ out.2.2.2 = asserts.getExpr "POST" :=
  ⟨_, _, rfl, rfl, getCondTobeVerified_list scenarioEnv sumDecl [] 0 _ _ rfl⟩

/-- C8: when the then-block has WP `w1` against `Q`, and the else-statement,
visited next, has WP `w2` against the same `Q`, `wpIfStmt` returns the
disjunction `(c && w1) || (!c && w2)`: the binary expression with operator
`||` whose operands are the conjunctions `c && w1` and `!c && w2`. -/
theorem wpIfStmt_else (env : Env) (cond : Expr) (body : List Stmt) (els : Stmt) (Q : Expr)
    (st st1 st2 : St) (w1 w2 : Expr)
    (h1 : wpStmts env body Q st = (.ok w1, st1))
    (h2 : wpStmt env els Q st1 = (.ok w2, st2)) :
    wpIfStmt env cond body (some els) Q st
      = (.ok (.BinaryExpr (.BinaryExpr cond Token.LAND w1) Token.LOR
          (.BinaryExpr (.UnaryExpr Token.NOT cond) Token.LAND w2)), st2) := by
  rw [wpIfStmt, wpStmt_IfStmt, h1]
  simp only [andThen, h2]
  rfl

/-- Witness for C8, at the conditional of `abs`:
`if x >= 0 { y = x } else { y = -x }` against `y >= 0`; the emitter writes
the result as `(or (and ...) (and (not ...) ...))`. -/
theorem wpIfStmt_else_witness :
    wpIfStmt scenarioEnv absCond [.AssignStmt [Ident "y"] [Ident "x"]]
        (some (.BlockStmt [.AssignStmt [Ident "y"] [UnaryExpr Token.SUB (Ident "x")]]))
        absPost St.init
      = (.ok (BinaryExpr
          (BinaryExpr (BinaryExpr (Ident "x") Token.GEQ (BasicLit Token.INT "0")) Token.LAND
            (BinaryExpr (Ident "x") Token.GEQ (BasicLit Token.INT "0")))
          Token.LOR
          (BinaryExpr
            (UnaryExpr Token.NOT (BinaryExpr (Ident "x") Token.GEQ (BasicLit Token.INT "0")))
            Token.LAND
            (BinaryExpr (UnaryExpr Token.SUB (Ident "x")) Token.GEQ (BasicLit Token.INT "0")))),
        St.init) ∧
    convExpr (BinaryExpr
          (BinaryExpr (BinaryExpr (Ident "x") Token.GEQ (BasicLit Token.INT "0")) Token.LAND
            (BinaryExpr (Ident "x") Token.GEQ (BasicLit Token.INT "0")))
          Token.LOR
          (BinaryExpr
            (UnaryExpr Token.NOT (BinaryExpr (Ident "x") Token.GEQ (BasicLit Token.INT "0")))
            Token.LAND
            (BinaryExpr (UnaryExpr Token.SUB (Ident "x")) Token.GEQ (BasicLit Token.INT "0"))))
      = some "(or (and (>= x 0) (>= x 0)) (and (not (>= x 0)) (>= (- x) 0)))" :=
  ⟨wpIfStmt_else scenarioEnv absCond _ _ absPost St.init St.init St.init _ _ rfl rfl, rfl⟩

theorem firstNonIdent_none (l : List Expr) (i : Nat) (h : ∀ x ∈ l, ∃ n, x = Expr.Ident n) :
    firstNonIdent l i = none := by
  induction l generalizing i with
  | nil => rfl
  | cons x rest ih =>
    obtain ⟨n, hn⟩ := h x (List.mem_cons_self _ _)
    subst hn
    rw [firstNonIdent]
    exact ih (i + 1) (fun y hy => h y (List.mem_cons_of_mem _ hy))

theorem Equals_ident_left (n : String) (e : Expr) : ∃ b, Equals (.Ident n) e = some b := by
  cases e <;> simp [Equals]

theorem assignPairs_spec (rhs : List Expr) :
    ∀ (l r' : List Expr) (i : Nat) (vs es : List Expr),
      rhs.drop i = r' → r'.length = l.length → (∀ x ∈ l, ∃ n, x = Expr.Ident n) →
      assignPairs rhs l i vs es =
        .ok (vs ++ ((l.zip r').filter (fun p => decide (Equals p.1 p.2 = some false))).map Prod.fst,
             es ++ ((l.zip r').filter (fun p => decide (Equals p.1 p.2 = some false))).map Prod.snd) := by
  intro l
  induction l with
  | nil =>
    intro r' i vs es _ _ _
    simp [assignPairs]
  | cons x rest ih =>
    intro r' i vs es hdrop hlen hid
    cases r' with
    | nil => simp at hlen
    | cons e r'' =>
      have hget : rhs[i]? = some e := by
        have := congrArg (fun l => l[0]?) hdrop
        simpa [List.getElem?_drop] using this
      have hdrop' : rhs.drop (i + 1) = r'' := by
        have := congrArg List.tail hdrop
        simpa [List.tail_drop] using this
      have hlen' : r''.length = rest.length := by simpa using hlen
      have hid' : ∀ y ∈ rest, ∃ n, y = Expr.Ident n := fun y hy => hid y (List.mem_cons_of_mem _ hy)
      obtain ⟨n, hn⟩ := hid x (List.mem_cons_self _ _)
      subst hn
      obtain ⟨b, hb⟩ := Equals_ident_left n e
      rw [assignPairs, hget]
      simp only [hb]
      cases b with
      | true =>
        simp only []
        rw [ih r'' (i + 1) vs es hdrop' hlen' hid']
        simp [List.zip_cons_cons, List.filter_cons, hb]
      | false =>
        simp only []
        rw [ih r'' (i + 1) _ _ hdrop' hlen' hid']
        simp [List.zip_cons_cons, List.filter_cons, hb]

theorem wpAssignStmt_pairs (env : Env) (lhs rhs : List Expr) (P : Expr) (st : St)
    (hne : lhs ≠ [])
    (hid : ∀ x ∈ lhs, ∃ n, x = Expr.Ident n)
    (hlen : rhs.length = lhs.length)
    (hcall : ∀ e ∈ rhs, e.isCall = false) :
    wpAssignStmt env lhs rhs P st =
      (subst P
        (((lhs.zip rhs).filter (fun p => decide (Equals p.1 p.2 = some false))).map Prod.fst)
        (((lhs.zip rhs).filter (fun p => decide (Equals p.1 p.2 = some false))).map Prod.snd),
       st) := by
  have h1 : ¬ lhs.length < 1 := by
    cases lhs with
    | nil => exact absurd rfl hne
    | cons _ _ => simp
  have hany : rhs.any Expr.isCall = false := by
    rw [List.any_eq_false]
    intro e he
    simp [hcall e he]
  unfold wpAssignStmt
  rw [if_neg h1]
  split
  · rename_i a b
    obtain ⟨n, hn⟩ := hid (.IndexExpr a b) (List.mem_singleton_self _)
    cases hn
  · rw [firstNonIdent_none lhs 0 hid]
    simp only []
    split
    · rename_i fn args
      have := hcall (.CallExpr fn args) (List.mem_singleton_self _)
      simp [Expr.isCall] at this
    · rw [if_neg (by simp [hany])]
      rw [assignPairs_spec rhs lhs rhs 0 [] [] rfl hlen hid]
      simp

/-- C6: for an assignment whose left-hand sides are identifiers, with as many
right-hand sides and no call among them, `wpAssignStmt` returns
`subst(P, vs, es)` for the pairs `(x_i, e_i)`, in order, on which `Equals` is
false, and leaves the state as it was; in particular the WP of `x = e`, for
`e` other than `x` itself, is `subst(P, [x], [e])`. -/
theorem wpAssignStmt_subst (env : Env) (P : Expr) (st : St) :
    (∀ lhs rhs : List Expr, lhs ≠ [] → (∀ x ∈ lhs, ∃ n, x = Expr.Ident n) →
      rhs.length = lhs.length → (∀ e ∈ rhs, e.isCall = false) →
      wpAssignStmt env lhs rhs P st =
        (subst P
          (((lhs.zip rhs).filter (fun p => decide (Equals p.1 p.2 = some false))).map Prod.fst)
          (((lhs.zip rhs).filter (fun p => decide (Equals p.1 p.2 = some false))).map Prod.snd),
         st)) ∧
    (∀ (x : String) (e : Expr), e.isCall = false → Equals (.Ident x) e = some false →
      wpAssignStmt env [.Ident x] [e] P st = (subst P [.Ident x] [e], st)) := by
  refine ⟨fun lhs rhs hne hid hlen hcall => wpAssignStmt_pairs env lhs rhs P st hne hid hlen hcall,
    fun x e he hx => ?_⟩
  rw [wpAssignStmt_pairs env [.Ident x] [e] P st (by simp) (by simp) rfl (by simpa using he)]
  simp [hx]

/-- Witness for C6, at `x = e` with `e = y + 1` against `P(x) = x > 0`: the
WP is `P(e) = y + 1 > 0`. -/
theorem wpAssignStmt_subst_witness :
    wpAssignStmt scenarioEnv [Ident "x"] [BinaryExpr (Ident "y") Token.ADD (BasicLit Token.INT "1")]
        (BinaryExpr (Ident "x") Token.GTR (BasicLit Token.INT "0")) St.init
      = (.ok (BinaryExpr (BinaryExpr (Ident "y") Token.ADD (BasicLit Token.INT "1")) Token.GTR
          (BasicLit Token.INT "0")), St.init) ∧
    wpAssignStmt scenarioEnv [Ident "c", Ident "d"] [Ident "b", Ident "d"]
        (BinaryExpr (Ident "c") Token.EQL (Ident "d")) St.init
      = (.ok (BinaryExpr (Ident "b") Token.EQL (Ident "d")), St.init) :=
  ⟨(wpAssignStmt_subst scenarioEnv (BinaryExpr (Ident "x") Token.GTR (BasicLit Token.INT "0"))
      St.init).2 "x" (BinaryExpr (Ident "y") Token.ADD (BasicLit Token.INT "1")) rfl rfl,
   (wpAssignStmt_subst scenarioEnv (BinaryExpr (Ident "c") Token.EQL (Ident "d")) St.init).1
      [Ident "c", Ident "d"] [Ident "b", Ident "d"] (by simp) (by simp) rfl
      (by simp [Expr.isCall])⟩

theorem GoMap_getExpr_set_ne (m : GoMap Expr) (k k' : String) (v : Expr) (h : k' ≠ k) :
    (GoMap.set m k v).getExpr k' = m.getExpr k' := by
  have hb : (k' == k) = false := by simpa using h
  induction m with
  | nil =>
    simp [GoMap.set, GoMap.getExpr, GoMap.get?, List.lookup, hb]
  | cons p rest ih =>
    obtain ⟨k0, v0⟩ := p
    unfold GoMap.set
    by_cases hk : k0 = k
    · subst hk
      simp [GoMap.getExpr, GoMap.get?, List.lookup, hb]
    · rw [if_neg hk]
      unfold GoMap.getExpr GoMap.get? at ih ⊢
      by_cases hk' : k' = k0
      · subst hk'
        simp [List.lookup]
      · have : (k' == k0) = false := by simpa using hk'
        simp only [List.lookup, this]
        exact ih

theorem separateStmtsLoop_no_inv (env : Env) :
    ∀ (l : List Stmt) (asserts : GoMap Expr) (acc2 : List Stmt) (a : GoMap Expr)
      (stmts : List Stmt),
      separateStmtsLoop env l asserts acc2 = .ok (a, stmts) →
      (∀ s ∈ l, ∀ c, isAssertStmt env s ≠ .ok ("INV", c, true)) →
      a.getExpr "INV" = asserts.getExpr "INV" := by
  intro l
  induction l with
  | nil =>
    intro asserts acc2 a stmts h _
    simp only [separateStmtsLoop, Except.ok.injEq, Prod.mk.injEq] at h
    rw [h.1]
  | cons s rest ih =>
    intro asserts acc2 a stmts h hno
    have hrest : ∀ s' ∈ rest, ∀ c, isAssertStmt env s' ≠ .ok ("INV", c, true) :=
      fun s' hs' => hno s' (List.mem_cons_of_mem _ hs')
    rw [separateStmtsLoop] at h
    cases hs : isAssertStmt env s with
    | error e => rw [hs] at h; cases h
    | ok r =>
      obtain ⟨tag, cond, ok⟩ := r
      rw [hs] at h
      cases ok with
      | true =>
        simp only [if_true] at h
        split at h
        · cases h
        · have htag : "INV" ≠ tag := by
            intro ht
            subst ht
            exact hno s (List.mem_cons_self _ _) cond hs
          rw [ih _ _ _ _ h hrest, GoMap_getExpr_set_ne _ _ _ _ htag]
      | false =>
        simp only [Bool.false_eq_true, if_false] at h
        exact ih _ _ _ _ h hrest

/-- C7: when the loop body separates into annotations with invariant `I` and
statements whose WP against `I` is `inner`, `wpForStmt` returns `I` and the
accumulator is the one the body left followed by `Implies(I && c, inner)` and
`Implies(I && !c, Q)`; and a loop body none of whose statements is an `INV`
annotation makes `wpForStmt` fail. -/
theorem wpForStmt_spec (env : Env) (cond : Expr) (body : List Stmt) (Q : Expr) (st : St) :
    (∀ asserts stmts inner st1,
      separateStmts env body = .ok (asserts, stmts) →
      (asserts.getExpr "INV").notNil = true →
      wpStmts env stmts (asserts.getExpr "INV") st = (.ok inner, st1) →
      wpForStmt env cond body Q st =
        (.ok (asserts.getExpr "INV"),
          { st1 with acc := st1.acc ++
              [astImplies (astAnd (asserts.getExpr "INV") cond) inner,
               astImplies (astAnd (asserts.getExpr "INV") (astNot cond)) Q] })) ∧
    ((∀ s ∈ body, ∀ c, isAssertStmt env s ≠ .ok ("INV", c, true)) →
      ∀ w st', wpForStmt env cond body Q st ≠ (.ok w, st')) := by
  constructor
  · intro asserts stmts inner st1 hsep hinv hwp
    rw [wpForStmt, wpStmt_ForStmt, hsep]
    simp only [hinv, if_true]
    rw [wpStmtsNonAssert_eq_wpStmts env body asserts stmts hsep, hwp]
    simp [andThen]
  · intro hno w st' h
    rw [wpForStmt, wpStmt_ForStmt] at h
    cases hsep : separateStmts env body with
    | error e => rw [hsep] at h; cases h
    | ok r =>
      obtain ⟨asserts, stmts⟩ := r
      rw [hsep] at h
      have hnil : asserts.getExpr "INV" = Expr.Nil := by
        rw [separateStmtsLoop_no_inv env body [] [] asserts stmts hsep hno]
        rfl
      simp only [hnil, Expr.notNil, Bool.false_eq_true, if_false] at h
      cases h

/-- Witness for C7, at the loop of `sum` against its postcondition, and at a
loop whose body is the single statement `i = i + 1`. -/
theorem wpForStmt_spec_witness :
    wpForStmt scenarioEnv sumCond sumLoopBody sumPost St.init =
      (.ok sumInv,
        { St.init with acc :=
            [astImplies (astAnd sumInv sumCond)
              (BinaryExpr
                (BinaryExpr
                  (BinaryExpr (Ident "s") Token.ADD
                    (BinaryExpr (Ident "i") Token.ADD (BasicLit Token.INT "1")))
                  Token.EQL
                  (BinaryExpr
                    (BinaryExpr
                      (BinaryExpr (Ident "i") Token.ADD (BasicLit Token.INT "1"))
                      Token.MUL
                      (BinaryExpr (BinaryExpr (Ident "i") Token.ADD (BasicLit Token.INT "1"))
                        Token.ADD (BasicLit Token.INT "1")))
                    Token.QUO (BasicLit Token.INT "2")))
                Token.LAND
                (BinaryExpr (BinaryExpr (Ident "i") Token.ADD (BasicLit Token.INT "1"))
                  Token.LEQ (Ident "n"))),
             astImplies (astAnd sumInv (astNot sumCond)) sumPost] }) ∧
    ∀ w st', wpForStmt scenarioEnv sumCond
      [.AssignStmt [Ident "i"] [BinaryExpr (Ident "i") Token.ADD (BasicLit Token.INT "1")]]
      sumPost St.init ≠ (.ok w, st') :=
  ⟨(wpForStmt_spec scenarioEnv sumCond sumLoopBody sumPost St.init).1 _ _ _ _ rfl rfl rfl,
   (wpForStmt_spec scenarioEnv sumCond
      [.AssignStmt [Ident "i"] [BinaryExpr (Ident "i") Token.ADD (BasicLit Token.INT "1")]]
      sumPost St.init).2
     (by
       intro s hs c
       rw [List.mem_singleton.mp hs]
       simp [isAssertStmt])⟩


/-- C9: when `getFuncData` delivers the contract `d` of `f`, the counts of
left-hand sides and of arguments match `d`, and the four substitutions
succeed, `wpFunCall` returns `pre[iParams := a] && F`, where `F` is
`Implies(post[oParams := u][iParams := a], postCond[oParams := u])` wrapped,
for each output parameter in turn, in `ForAll(u_i, T_i, .)`; `u` are the
identifiers `RandomIdents` generates at this seeding. -/
theorem wpFunCall_spec (env : Env) (lhs : List Expr) (f : String) (args : List Expr)
    (postCond : Expr) (st : St) (d : Data) (tab : GoMap Data)
    (pre1 post1 post2 postCond1 : Expr)
    (hd : getFuncData env f st.funcTab = (.ok d, tab))
    (hn : lhs.length = d.Outputs.length)
    (hm : args.length = d.Inputs.length)
    (hpre : subst (d.getAsserts env).1 d.getParams.1 args = .ok pre1)
    (hpost1 : subst (d.getAsserts env).2 d.getParams.2.1
      (RandomIdents (env.rand st.seeds) d.Outputs.length) = .ok post1)
    (hpost2 : subst post1 d.getParams.1 args = .ok post2)
    (hpostCond : subst postCond d.getParams.2.1
      (RandomIdents (env.rand st.seeds) d.Outputs.length) = .ok postCond1) :
    wpFunCall env lhs (.Ident f) args postCond st =
      (.ok (astAnd pre1
        (((RandomIdents (env.rand st.seeds) d.Outputs.length).zip d.getParams.2.2.2).foldl
          (fun p ut => astForAll ut.1 ut.2 p) (astImplies post2 postCond1))),
       { st with funcTab := tab, seeds := st.seeds + 1 }) := by
  have ho : d.getParams.2.1.length = d.Outputs.length := by simp [Data.getParams]
  have hi : d.getParams.1.length = d.Inputs.length := by simp [Data.getParams]
  unfold wpFunCall
  simp only [hd, ho, hi, hn, hm, ne_eq, not_true_eq_false, if_false, hpre, hpost1,
    hpost2, hpostCond, wrapForAll]

/-- Witness for C9, at `y = abs(x)` against `y >= 0` with the contract of
`abs` in its contract file: the WP is
`true && ForAll(u01234, int, Implies(u01234 >= 0, u01234 >= 0))`. -/
theorem wpFunCall_spec_witness :
    wpFunCall scenarioEnv [Ident "y"] (Ident "abs") [Ident "x"] absPost St.init =
      (.ok (astAnd (Ident "true")
        (astForAll (Ident "u01234") (Ident "int")
          (astImplies (BinaryExpr (Ident "u01234") Token.GEQ (BasicLit Token.INT "0"))
            (BinaryExpr (Ident "u01234") Token.GEQ (BasicLit Token.INT "0"))))),
       { St.init with funcTab := [("abs", absData)], seeds := 1 }) :=
  wpFunCall_spec scenarioEnv [Ident "y"] "abs" [Ident "x"] absPost St.init absData
    [("abs", absData)] _ _ _ _ rfl rfl rfl rfl rfl rfl rfl

/-! ## Fresh names -/

theorem digitChar_inj : ∀ a < 10, ∀ b < 10, Nat.digitChar a = Nat.digitChar b → a = b := by
  decide

theorem fmt05d_inj (a b : Nat) (ha : a < 10000) (hb : b < 10000)
    (h : fmt05d a = fmt05d b) : a = b := by
  unfold fmt05d at h
  rw [if_pos (by omega), if_pos (by omega)] at h
  have hl := congrArg String.data h
  simp only [List.cons.injEq, and_true] at hl
  obtain ⟨_, h3, h2, h1, h0⟩ := hl
  have e3 := digitChar_inj _ (Nat.mod_lt _ (by decide)) _ (Nat.mod_lt _ (by decide)) h3
  have e2 := digitChar_inj _ (Nat.mod_lt _ (by decide)) _ (Nat.mod_lt _ (by decide)) h2
  have e1 := digitChar_inj _ (Nat.mod_lt _ (by decide)) _ (Nat.mod_lt _ (by decide)) h1
  have e0 := digitChar_inj _ (Nat.mod_lt _ (by decide)) _ (Nat.mod_lt _ (by decide)) h0
  omega

theorem RandomIdents_getElem (draw : Nat → Nat) (n i : Nat) (h : i < n) :
    (RandomIdents draw n)[i]? = some (Expr.Ident ("u" ++ fmt05d (draw i % 10000))) := by
  simp [RandomIdents, List.getElem?_range h]

/-- C10, as stated, fails: when the generator draws 7 twice, the two
identifiers generated for a call with two output parameters are both
`u00007`; and for `y = abs(x)` against the postcondition `y >= u01234`, with
the draw 1234, the generated identifier is the `u01234` of the caller's
postcondition, which the quantifier of the result then binds. -/
theorem RandomIdents_not_fresh :
    RandomIdents (fun _ => 7) 2 = [Ident "u00007", Ident "u00007"] ∧
    ¬ (RandomIdents (fun _ => 7) 2).Nodup ∧
    freeIn "u01234" (BinaryExpr (Ident "y") Token.GEQ (Ident "u01234")) = true ∧
    wpFunCall scenarioEnv [Ident "y"] (Ident "abs") [Ident "x"]
        (BinaryExpr (Ident "y") Token.GEQ (Ident "u01234"))
        { St.init with funcTab := [("abs", absData)] } =
      (.ok (astAnd (Ident "true")
        (astForAll (Ident "u01234") (Ident "int")
          (astImplies (BinaryExpr (Ident "u01234") Token.GEQ (BasicLit Token.INT "0"))
            (BinaryExpr (Ident "u01234") Token.GEQ (Ident "u01234"))))),
       { St.init with funcTab := [("abs", absData)], seeds := 1 }) := by
  refine ⟨rfl, ?_, rfl, rfl⟩
  rw [show RandomIdents (fun _ => 7) 2 = [Ident "u00007", Ident "u00007"] from rfl]
  simp

/-- C10, amended: for every outcome `draw` of the random source,
`RandomIdents(n)` returns `n` identifiers, the `i`-th named `u` followed by
the five-digit decimal of the `i`-th draw reduced below 10000; the `i`-th and
the `j`-th are equal exactly when these two reduced draws are equal.  The
names are compared with nothing else. -/
theorem RandomIdents_names (draw : Nat → Nat) (n : Nat) :
    (RandomIdents draw n).length = n ∧
    (∀ i, i < n →
      (RandomIdents draw n)[i]? = some (Expr.Ident ("u" ++ fmt05d (draw i % 10000)))) ∧
    (∀ i j, i < n → j < n →
      ((RandomIdents draw n)[i]? = (RandomIdents draw n)[j]? ↔
        draw i % 10000 = draw j % 10000)) := by
  refine ⟨by simp [RandomIdents], fun i hi => RandomIdents_getElem draw n i hi, ?_⟩
  intro i j hi hj
  rw [RandomIdents_getElem draw n i hi, RandomIdents_getElem draw n j hj]
  constructor
  · intro h
    simp only [Option.some.injEq, Expr.Ident.injEq] at h
    have h' : fmt05d (draw i % 10000) = fmt05d (draw j % 10000) := by
      have := congrArg String.data h
      simp only [String.data_append, List.append_cancel_left_eq] at this
      exact String.ext this
    exact fmt05d_inj _ _ (Nat.mod_lt _ (by decide)) (Nat.mod_lt _ (by decide)) h'
  · intro h
    rw [h]

/-- Witness for C10 amended, at the draws 5 and 10005 of a call with two
output parameters: both identifiers are `u00005`. -/
theorem RandomIdents_names_witness :
    (RandomIdents (fun i => 5 + 10000 * i) 2)[0]? = (RandomIdents (fun i => 5 + 10000 * i) 2)[1]? :=
  ((RandomIdents_names (fun i => 5 + 10000 * i) 2).2.2 0 1 (by decide) (by decide)).mpr
    (by decide)

/-! ## Calls without assignment and the contract table -/

/-- C11: for a call `f(a...)` with `f` in the ignore-set, `wpFunCall2` returns
`Q` and leaves the state, the contract table included, as it was; for `f`
outside the set whose contract `d` `getFuncData` delivers, it returns
`pre[iParams := a] && Q` when the argument count is that of `d` (and the
substitution succeeds), and the error `len(iParams) != len(ce.Args)` when the
counts differ. -/
theorem wpFunCall2_spec (env : Env) (f : String) (args : List Expr) (Q : Expr) (st : St) :
    (f ∈ env.conf.IgnoreFuncs → wpFunCall2 env (.Ident f) args Q st = (.ok Q, st)) ∧
    (f ∉ env.conf.IgnoreFuncs → ∀ d tab, getFuncData env f st.funcTab = (.ok d, tab) →
      (args.length = d.Inputs.length → ∀ pre1,
        subst (d.getAsserts env).1 d.getParams.1 args = .ok pre1 →
        wpFunCall2 env (.Ident f) args Q st =
          (.ok (astAnd pre1 Q), { st with funcTab := tab })) ∧
      (args.length ≠ d.Inputs.length →
        wpFunCall2 env (.Ident f) args Q st =
          (.error (.error "wpFunCall2: len(iParams) != len(ce.Args)"),
            { st with funcTab := tab }))) := by
  refine ⟨fun hin => ?_, fun hnin d tab hd => ⟨fun hlen pre1 hpre => ?_, fun hlen => ?_⟩⟩
  · unfold wpFunCall2
    simp only [hin, if_true]
  · have hi : d.getParams.1.length = d.Inputs.length := by simp [Data.getParams]
    unfold wpFunCall2
    simp only [hnin, if_false, hd, hi, hlen, ne_eq, not_true_eq_false, hpre]
  · have hi : d.getParams.1.length = d.Inputs.length := by simp [Data.getParams]
    have hne : ¬ d.Inputs.length = args.length := fun h => hlen h.symm
    unfold wpFunCall2
    simp only [hnin, if_false, hd, hi, ne_eq, hne, not_false_eq_true, if_true]

/-- Witness for C11, at `Println(x)` (in the ignore-set), `abs(x)` and
`abs(x, y)` (contract of `abs` in its contract file), against `y >= 0`. -/
theorem wpFunCall2_spec_witness :
    wpFunCall2 scenarioEnv (Ident "Println") [Ident "x"] absPost St.init = (.ok absPost, St.init) ∧
    wpFunCall2 scenarioEnv (Ident "abs") [Ident "x"] absPost St.init =
      (.ok (astAnd (Ident "true") absPost), { St.init with funcTab := [("abs", absData)] }) ∧
    wpFunCall2 scenarioEnv (Ident "abs") [Ident "x", Ident "y"] absPost St.init =
      (.error (.error "wpFunCall2: len(iParams) != len(ce.Args)"),
        { St.init with funcTab := [("abs", absData)] }) :=
  ⟨(wpFunCall2_spec scenarioEnv "Println" [Ident "x"] absPost St.init).1 (by decide),
   ((wpFunCall2_spec scenarioEnv "abs" [Ident "x"] absPost St.init).2 (by decide)
      absData [("abs", absData)] rfl).1 rfl (Ident "true") rfl,
   ((wpFunCall2_spec scenarioEnv "abs" [Ident "x", Ident "y"] absPost St.init).2 (by decide)
      absData [("abs", absData)] rfl).2 (by decide)⟩

/-- C12, the code on a name without contract: the first `getFuncData("g")`
returns the load error but has already stored the zero record under `g`; the
second call finds that entry and returns the zero record with no error. -/
theorem getFuncData_missing_twice :
    getFuncData scenarioEnv "g" [] =
      (.error (.error "no such file or directory"), [("g", Data.zero)]) ∧
    getFuncData scenarioEnv "g" (getFuncData scenarioEnv "g" []).2 =
      (.ok Data.zero, [("g", Data.zero)]) :=
  ⟨rfl, rfl⟩

theorem GoMap_get_set_self {α : Type} (m : GoMap α) (k : String) (v : α) :
    (GoMap.set m k v).get? k = some v := by
  induction m with
  | nil => simp [GoMap.set, GoMap.get?, List.lookup]
  | cons p rest ih =>
    obtain ⟨k0, v0⟩ := p
    unfold GoMap.set
    by_cases hk : k0 = k
    · subst hk
      simp [GoMap.get?, List.lookup]
    · rw [if_neg hk]
      have hb : (k == k0) = false := by simpa using fun h : k = k0 => hk h.symm
      unfold GoMap.get? at ih ⊢
      simp only [List.lookup, hb]
      exact ih

/-- C13, as stated, fails: `setFuncData` only assigns to the in-process map.
After `setFuncData("abs", d)` on an empty disk the map answers `d`, but the
disk is still empty, and `getFuncData("abs")` from an empty map fails with
the load error. -/
theorem setFuncData_writes_no_file :
    getFuncData (scenarioEnv.onDisk ⟨[], []⟩) "abs" (setFuncData "abs" absData []) =
      (.ok absData, [("abs", absData)]) ∧
    getFuncData (scenarioEnv.onDisk ⟨[], []⟩) "abs" [] =
      (.error (.error "no such file or directory"), [("abs", Data.zero)]) :=
  ⟨rfl, rfl⟩

/-- C13, amended: after `setFuncData(n, d)` a call `getFuncData(n)` returns
`d` and leaves the map as it is, whatever the disk holds; and after the two
statements `setFuncData(n, d); d.Save(makeFuncFileName(n))` of `processFunc`,
when the contract file can be created, `getFuncData(n)` started from an empty
map returns `d` loaded from disk. -/
theorem cache_coherence (env : Env) (n : String) (d : Data) (funcTab : GoMap Data) :
    getFuncData env n (setFuncData n d funcTab) = (.ok d, setFuncData n d funcTab) ∧
    (∀ disk : Disk, makeFuncFileName env.srcFile n ∉ disk.locked →
      getFuncData (env.onDisk (processFuncStore env.srcFile n d funcTab disk).2) n [] =
        (.ok d, [(n, d)])) := by
  constructor
  · unfold getFuncData setFuncData
    rw [GoMap_get_set_self]
  · intro disk hfree
    unfold getFuncData
    simp only [GoMap.get?, List.lookup, Env.onDisk, processFuncStore, Data.Save, hfree, if_false,
      Disk.LoadData]
    have := GoMap_get_set_self disk.files (makeFuncFileName env.srcFile n) d
    unfold GoMap.get? at this
    rw [this]
    rfl

/-- Witness for C13 amended, at the contract of `abs` stored by `processFunc`
for the source file `prog.go` on an empty disk. -/
theorem cache_coherence_witness :
    getFuncData (scenarioEnv.onDisk (processFuncStore "prog.go" "abs" absData [] ⟨[], []⟩).2)
      "abs" [] = (.ok absData, [("abs", absData)]) :=
  (cache_coherence scenarioEnv "abs" absData []).2 ⟨[], []⟩ (by decide)
/-! ## The emitter against the specification -/

theorem specOp_convOp (op : Token) (sym : String) (h : specOp op = some sym) :
    convOp op = sym ∧ sym ≠ "unknown" := by
  cases op <;> simp [specOp] at h <;> subst h <;> exact ⟨rfl, by decide⟩

theorem specType_convType : ∀ (t : Expr) (s : String), specType t = some s → convType t = s
  | .Ident name, s, h => by
    simp only [specType] at h
    simp only [convType]
    split_ifs at h ⊢ <;> simpa using h
  | .ArrayType elt, s, h => by
    simp only [specType] at h
    cases he : specType elt with
    | none => simp [he] at h
    | some t =>
      simp only [he, Option.some.injEq] at h
      simp only [convType, specType_convType elt t he, h]
  | .Nil, _, h => by simp [specType] at h
  | .BasicLit _ _, _, h => by simp [specType] at h
  | .BinaryExpr _ _ _, _, h => by simp [specType] at h
  | .UnaryExpr _ _, _, h => by simp [specType] at h
  | .CallExpr _ _, _, h => by simp [specType] at h
  | .ParenExpr _, _, h => by simp [specType] at h
  | .IndexExpr _ _, _, h => by simp [specType] at h
  | .SelectorExpr _ _, _, h => by simp [specType] at h

theorem convExpr_BinaryExpr (x y : Expr) (op : Token) :
    convExpr (.BinaryExpr x op y) =
      (convExpr x).bind fun x' => (convExpr y).bind fun y' =>
        if op = Token.NEQ then
          some ("(not " ++ ("(" ++ convOp op ++ " " ++ x' ++ " " ++ y' ++ ")") ++ ")")
        else some ("(" ++ convOp op ++ " " ++ x' ++ " " ++ y' ++ ")") := rfl

theorem convExpr_UnaryExpr (x : Expr) (op : Token) :
    convExpr (.UnaryExpr op x) =
      (convExpr x).bind fun x' => some ("(" ++ convOp op ++ " " ++ x' ++ ")") := rfl

theorem convExpr_Implies (a b : Expr) (rest : List Expr) :
    convExpr (.CallExpr (.Ident "Implies") (a :: b :: rest)) =
      (convExpr a).bind fun x => (convExpr b).bind fun y =>
        some ("(=> " ++ x ++ " " ++ y ++ ")") := by
  delta convExpr
  rfl

theorem convExpr_ForAll (x : String) (t body : Expr) (rest : List Expr) :
    convExpr (.CallExpr (.Ident "ForAll") (.Ident x :: t :: body :: rest)) =
      (convExpr body).bind fun b =>
        some ("(forall ((" ++ x ++ " " ++ convType t ++ ")) " ++ b ++ ")") := by
  delta convExpr
  rfl

theorem convExpr_Exists (k : Token) (value : String) (t body : Expr) (rest : List Expr) :
    convExpr (.CallExpr (.Ident "Exists") (.BasicLit k value :: t :: body :: rest)) =
      if value.length < 2 then none
      else
        (convExpr body).bind fun b =>
          some ("(exists ((" ++ String.mk (value.toList.tail.dropLast) ++ " " ++ convType t
            ++ ")) " ++ b ++ ")") := by
  delta convExpr
  rfl

theorem specExpr_convExpr (e : Expr) :
    ∀ (s : String), specExpr e = some s → convExpr e = some s := by
  induction e using specExpr.induct with
  | case1 k v => intro s h; exact h
  | case2 n => intro s h; exact h
  | case3 x ih => intro s h; exact ih s h
  | case4 x y sym x' y' hy hx hb hop ihx ihy =>
    intro s h
    obtain ⟨hc, _⟩ := specOp_convOp _ _ hop
    rw [specExpr] at h
    simp only [hb, hop, hx, hy, if_true, Option.some.injEq] at h
    rw [convExpr_BinaryExpr, ihx x' hx, ihy y' hy, hc, ← h]
    simp [String.append_assoc]
    rw [← String.append_assoc "(not " "(" _]
    rfl
  | case5 x op y hb sym x' y' hy hx hop hne ihx ihy =>
    intro s h
    obtain ⟨hc, _⟩ := specOp_convOp _ _ hop
    rw [specExpr] at h
    simp only [hb, hop, hx, hy, if_true, hne, if_false, Option.some.injEq] at h
    rw [convExpr_BinaryExpr, ihx x' hx, ihy y' hy, hc, ← h]
    simp [hne]
  | case6 x op y hb hnone ihx ihy =>
    intro s h
    rw [specExpr] at h
    simp only [hb, if_true] at h
    cases h
  | case7 x op y hb =>
    intro s h
    rw [specExpr] at h
    simp only [hb, if_false] at h
    cases h
  | case8 op x hu sym x' hx hop ih =>
    intro s h
    obtain ⟨hc, _⟩ := specOp_convOp _ _ hop
    rw [specExpr] at h
    simp only [hu, hop, hx, if_true, Option.some.injEq] at h
    rw [convExpr_UnaryExpr, ih x' hx, hc, ← h]
    rfl
  | case9 op x hu hnone ih =>
    intro s h
    rw [specExpr] at h
    simp only [hu, if_true] at h
    cases h
  | case10 op x hu =>
    intro s h
    rw [specExpr] at h
    simp only [hu, if_false] at h
    cases h
  | case11 a b a' b' hb ha iha ihb =>
    intro s h
    rw [specExpr] at h
    simp only [ha, hb, if_true, Option.some.injEq] at h
    rw [convExpr_Implies, iha a' ha, ihb b' hb, ← h]
    rfl
  | case12 a b hnone iha ihb =>
    intro s h
    rw [specExpr] at h
    simp only [if_true] at h
    cases h
  | case13 name a b hne =>
    intro s h
    rw [specExpr] at h
    simp only [hne, if_false] at h
    cases h
  | case14 x t body t' b' hb ht ih =>
    intro s h
    rw [specExpr] at h
    simp only [ht, hb, if_true, Option.some.injEq] at h
    rw [convExpr_ForAll, ih b' hb, specType_convType t t' ht, ← h]
    rfl
  | case15 x t body hnone ih =>
    intro s h
    rw [specExpr] at h
    simp only [if_true] at h
    cases h
  | case16 name x t body hne =>
    intro s h
    rw [specExpr] at h
    simp only [hne, if_false] at h
    cases h
  | case17 name kind value t body hcond t' b' hb ht ih =>
    intro s h
    obtain ⟨hname, _, hlen⟩ := hcond
    subst hname
    rw [specExpr] at h
    simp only [ht, hb, Option.some.injEq] at h
    rw [if_pos (by simp_all)] at h
    rw [convExpr_Exists, if_neg (by omega), ih b' hb, specType_convType t t' ht]
    simpa using h
  | case18 name kind value t body hcond hnone ih =>
    intro s h
    rw [specExpr] at h
    rw [if_pos hcond] at h
    split at h
    · rename_i t' b' h1 h2
      exact (hnone t' b' h1 h2).elim
    · cases h
  | case19 name kind value t body hcond =>
    intro s h
    rw [specExpr] at h
    rw [if_neg hcond] at h
    cases h
  | case20 t h1 h2 h3 h4 h5 h6 h7 h8 =>
    intro s h
    rw [specExpr] at h
    · cases h
    all_goals assumption

theorem specType_total : ∀ t : Expr, isTypeExpr t = true → ∃ s, specType t = some s
  | .Ident name, _ => by
    simp only [specType]
    split_ifs <;> exact ⟨_, rfl⟩
  | .ArrayType elt, h => by
    obtain ⟨s, hs⟩ := specType_total elt (by simpa [isTypeExpr] using h)
    refine ⟨"(Array Int " ++ s ++ ")", ?_⟩
    simp only [specType, hs]
  | .Nil, h => by simp [isTypeExpr] at h
  | .BasicLit _ _, h => by simp [isTypeExpr] at h
  | .BinaryExpr _ _ _, h => by simp [isTypeExpr] at h
  | .UnaryExpr _ _, h => by simp [isTypeExpr] at h
  | .CallExpr _ _, h => by simp [isTypeExpr] at h
  | .ParenExpr _, h => by simp [isTypeExpr] at h
  | .IndexExpr _ _, h => by simp [isTypeExpr] at h
  | .SelectorExpr _ _, h => by simp [isTypeExpr] at h

theorem specOp_total (op : Token) (h : isBinaryOp op = true ∨ isUnaryOp op = true) :
    ∃ sym, specOp op = some sym := by
  cases op <;> simp [isBinaryOp, isUnaryOp] at h <;> exact ⟨_, rfl⟩

theorem specExpr_total (e : Expr) : Emittable e = true → ∃ s, specExpr e = some s := by
  induction e using Emittable.induct with
  | case1 k v => intro _; exact ⟨_, rfl⟩
  | case2 n => intro _; exact ⟨_, rfl⟩
  | case3 x ih => intro h; rw [Emittable] at h; rw [specExpr]; exact ih h
  | case4 x op y ihx ihy =>
    intro h
    rw [Emittable] at h
    simp only [Bool.and_eq_true] at h
    obtain ⟨⟨hop, hx⟩, hy⟩ := h
    obtain ⟨x', hx'⟩ := ihx hx
    obtain ⟨y', hy'⟩ := ihy hy
    obtain ⟨sym, hsym⟩ := specOp_total op (Or.inl hop)
    rw [specExpr]
    simp only [hop, if_true, hsym, hx', hy']
    split_ifs <;> exact ⟨_, rfl⟩
  | case5 op x ih =>
    intro h
    rw [Emittable] at h
    simp only [Bool.and_eq_true] at h
    obtain ⟨x', hx'⟩ := ih h.2
    obtain ⟨sym, hsym⟩ := specOp_total op (Or.inr h.1)
    rw [specExpr]
    simp only [h.1, if_true, hsym, hx']
    exact ⟨_, rfl⟩
  | case6 name a b iha ihb =>
    intro h
    rw [Emittable] at h
    simp only [Bool.and_eq_true, decide_eq_true_eq] at h
    obtain ⟨⟨hn, ha⟩, hb⟩ := h
    obtain ⟨a', ha'⟩ := iha ha
    obtain ⟨b', hb'⟩ := ihb hb
    subst hn
    rw [specExpr]
    simp only [if_true, ha', hb']
    exact ⟨_, rfl⟩
  | case7 name x t body ih =>
    intro h
    rw [Emittable] at h
    simp only [Bool.and_eq_true, decide_eq_true_eq] at h
    obtain ⟨⟨hn, ht⟩, hb⟩ := h
    obtain ⟨b', hb'⟩ := ih hb
    obtain ⟨t', ht'⟩ := specType_total t ht
    subst hn
    rw [specExpr]
    simp only [if_true, ht', hb']
    exact ⟨_, rfl⟩
  | case8 name kind value t body ih =>
    intro h
    rw [Emittable] at h
    simp only [Bool.and_eq_true, decide_eq_true_eq] at h
    obtain ⟨⟨⟨⟨hn, hk⟩, hv⟩, ht⟩, hb⟩ := h
    obtain ⟨b', hb'⟩ := ih hb
    obtain ⟨t', ht'⟩ := specType_total t ht
    rw [specExpr]
    rw [if_pos ⟨hn, hk, hv⟩]
    simp only [ht', hb']
    exact ⟨_, rfl⟩
  | case9 t h1 h2 h3 h4 h5 h6 h7 h8 =>
    intro h
    rw [Emittable] at h
    · cases h
    all_goals assumption

/-- C14: for every expression of the specified grammar the specification's
translation `specExpr` is defined and `convExpr` returns exactly it; every
operator of the supported set is translated by `convOp` to the symbol of the
specification's table, which is never `unknown`; and `convExpr(X != Y)` is
`(not ` followed by `convExpr(X == Y)` and `)`, a panic of the latter being a
panic of the former. -/
theorem convExpr_refines_spec :
    (∀ e : Expr, Emittable e = true → ∃ s, specExpr e = some s ∧ convExpr e = some s) ∧
    (∀ op : Token, isBinaryOp op = true ∨ isUnaryOp op = true →
      ∃ sym, specOp op = some sym ∧ convOp op = sym ∧ sym ≠ "unknown") ∧
    (∀ x y : Expr, convExpr (.BinaryExpr x Token.NEQ y) =
      (convExpr (.BinaryExpr x Token.EQL y)).map (fun s => "(not " ++ s ++ ")")) := by
  refine ⟨fun e he => ?_, fun op hop => ?_, fun x y => ?_⟩
  · obtain ⟨s, hs⟩ := specExpr_total e he
    exact ⟨s, hs, specExpr_convExpr e s hs⟩
  · obtain ⟨sym, hsym⟩ := specOp_total op hop
    exact ⟨sym, hsym, specOp_convOp op sym hsym⟩
  · rw [convExpr_BinaryExpr, convExpr_BinaryExpr]
    cases convExpr x with
    | none => rfl
    | some x' =>
      cases convExpr y with
      | none => rfl
      | some y' => rfl

/-- Witness for C14, at `Implies((x + 1) != y, ForAll(k, int, !(k < x)))` and
at the operator `/`. -/
theorem convExpr_refines_spec_witness :
    (∃ s, specExpr (astImplies
        (BinaryExpr (ParenExpr (BinaryExpr (Ident "x") Token.ADD (BasicLit Token.INT "1")))
          Token.NEQ (Ident "y"))
        (astForAll (Ident "k") (Ident "int")
          (UnaryExpr Token.NOT (BinaryExpr (Ident "k") Token.LSS (Ident "x"))))) = some s ∧
      convExpr (astImplies
        (BinaryExpr (ParenExpr (BinaryExpr (Ident "x") Token.ADD (BasicLit Token.INT "1")))
          Token.NEQ (Ident "y"))
        (astForAll (Ident "k") (Ident "int")
          (UnaryExpr Token.NOT (BinaryExpr (Ident "k") Token.LSS (Ident "x"))))) = some s) ∧
    convExpr (astImplies
        (BinaryExpr (ParenExpr (BinaryExpr (Ident "x") Token.ADD (BasicLit Token.INT "1")))
          Token.NEQ (Ident "y"))
        (astForAll (Ident "k") (Ident "int")
          (UnaryExpr Token.NOT (BinaryExpr (Ident "k") Token.LSS (Ident "x"))))) =
      some "(=> (not (= (+ x 1) y)) (forall ((k Int)) (not (< k x))))" ∧
    (∃ sym, specOp Token.QUO = some sym ∧ convOp Token.QUO = sym ∧ sym ≠ "unknown") :=
  ⟨convExpr_refines_spec.1 _ rfl, rfl, convExpr_refines_spec.2.1 Token.QUO (Or.inl rfl)⟩

/-! ## Equality and substitution, continued -/

/-- C15, the code on parenthesized expressions: the type switch of `Equals`
has no `ParenExpr` case, so `Equals((e), y)` is false for every `e` and `y`;
in particular `Equals((x), (x))` is false although `Equals(x, x)` is true. -/
theorem Equals_paren_evaluated :
    (∀ e y : Expr, Equals (.ParenExpr e) y = some false) ∧
    Equals (ParenExpr (Ident "x")) (ParenExpr (Ident "x")) = some false ∧
    Equals (Ident "x") (Ident "x") = some true :=
  ⟨fun _ _ => rfl, rfl, rfl⟩

/-- C16, the code on two calls of the same head whose argument lists differ
in length: `Equals(f(a, b), f(a))` enters the argument loop, finds the first
arguments equal, and panics on `yce.Args[1]`. -/
theorem Equals_call_reads_past_end (f a b : String) :
    Equals (CallExpr (Ident f) [Ident a, Ident b]) (CallExpr (Ident f) [Ident a]) = none := by
  simp [Equals, EqualsArgs]

theorem Equals_ident_true (n : String) (v : Expr) :
    Equals (.Ident n) v = some true ↔ v = .Ident n := by
  cases v <;> simp [Equals]
  exact eq_comm

theorem substIdent_none (n : String) (es : List Expr) :
    ∀ (vs : List Expr) (k : Nat), (∀ v ∈ vs, v ≠ Expr.Ident n) →
      substIdent (.Ident n) es vs k = .ok (.Ident n) := by
  intro vs
  induction vs with
  | nil => intro k _; rfl
  | cons v rest ih =>
    intro k h
    obtain ⟨b, hb⟩ := Equals_ident_left n v
    have hv : b = false := by
      cases b with
      | false => rfl
      | true => exact absurd ((Equals_ident_true n v).mp hb) (h v (List.mem_cons_self _ _))
    subst hv
    rw [substIdent, hb]
    exact ih (k + 1) (fun w hw => h w (List.mem_cons_of_mem _ hw))

theorem substIdent_first (n : String) (es : List Expr) (r : Expr) :
    ∀ (vs : List Expr) (k i : Nat), vs[i]? = some (Expr.Ident n) →
      (∀ j, j < i → vs[j]? ≠ some (Expr.Ident n)) → es[k + i]? = some r →
      substIdent (.Ident n) es vs k = .ok r := by
  intro vs
  induction vs with
  | nil => intro k i h; simp at h
  | cons v rest ih =>
    intro k i hi hfirst hr
    cases i with
    | zero =>
      simp only [List.getElem?_cons_zero, Option.some.injEq] at hi
      subst hi
      rw [substIdent, (Equals_ident_true n _).mpr rfl]
      simp only [Nat.add_zero] at hr
      simp only [hr]
    | succ i' =>
      have hv : Equals (.Ident n) v = some false := by
        obtain ⟨b, hb⟩ := Equals_ident_left n v
        cases b with
        | false => exact hb
        | true =>
          have := hfirst 0 (Nat.succ_pos _)
          simp only [List.getElem?_cons_zero] at this
          exact absurd (congrArg some ((Equals_ident_true n v).mp hb)) this
      rw [substIdent, hv]
      refine ih (k + 1) i' (by simpa using hi) (fun j hj => ?_) (by rw [← hr]; congr 1; omega)
      have := hfirst (j + 1) (by omega)
      simpa using this

/-- C17: for an identifier `e` and lists `vs`, `es` of equal length,
`subst(e, vs, es)` returns `es[i]` itself for the smallest `i` with `vs[i]`
equal to `e`, and `e` when no `vs[i]` equals `e`; hence for distinct `x` and
`y`, `subst(x + y, [x, y], [y, x])` is `y + x`. -/
theorem subst_ident_simultaneous (n : String) (vs es : List Expr)
    (hlen : vs.length = es.length) :
    (∀ i : Nat, vs[i]? = some (Expr.Ident n) →
      (∀ j : Nat, j < i → vs[j]? ≠ some (Expr.Ident n)) →
      ∃ r, es[i]? = some r ∧ subst (.Ident n) vs es = .ok r) ∧
    ((∀ v ∈ vs, v ≠ Expr.Ident n) → subst (.Ident n) vs es = .ok (.Ident n)) ∧
    (∀ x y : String, x ≠ y →
      subst (BinaryExpr (Ident x) Token.ADD (Ident y)) [Ident x, Ident y] [Ident y, Ident x]
        = .ok (BinaryExpr (Ident y) Token.ADD (Ident x))) := by
  refine ⟨fun i hi hfirst => ?_, fun h => ?_, fun x y hxy => ?_⟩
  · have hlt : i < es.length := by
      rw [← hlen]
      by_contra hge
      rw [List.getElem?_eq_none (by omega)] at hi
      cases hi
    have hr : es[i]? = some (es.get ⟨i, hlt⟩) := by
      simp [List.getElem?_eq_getElem hlt]
    refine ⟨es.get ⟨i, hlt⟩, hr, ?_⟩
    rw [subst]
    exact substIdent_first n es _ vs 0 i hi hfirst (by rw [Nat.zero_add]; exact hr)
  · rw [subst]
    exact substIdent_none n es vs 0 h
  · have hyx : ¬ y = x := fun h => hxy h.symm
    simp [subst, substIdent, Equals, hxy, hyx]

/-- Witness for C17, at `subst(b, [a, b, b], [1, 2, 3]) = 2` and at
`subst(x + y, [x, y], [y, x]) = y + x`. -/
theorem subst_ident_simultaneous_witness :
    (∃ r, [BasicLit Token.INT "1", BasicLit Token.INT "2", BasicLit Token.INT "3"][1]? = some r ∧
      subst (Ident "b") [Ident "a", Ident "b", Ident "b"]
        [BasicLit Token.INT "1", BasicLit Token.INT "2", BasicLit Token.INT "3"] = .ok r) ∧
    subst (BinaryExpr (Ident "x") Token.ADD (Ident "y")) [Ident "x", Ident "y"]
      [Ident "y", Ident "x"] = .ok (BinaryExpr (Ident "y") Token.ADD (Ident "x")) :=
  ⟨(subst_ident_simultaneous "b" [Ident "a", Ident "b", Ident "b"]
      [BasicLit Token.INT "1", BasicLit Token.INT "2", BasicLit Token.INT "3"] rfl).1 1 rfl
      (by
        intro j hj
        have hj0 : j = 0 := by omega
        subst hj0
        simp),
   (subst_ident_simultaneous "x" [] [] rfl).2.2 "x" "y" (by decide)⟩

/-- C18: `subst(ForAll(x, T, body), [x], [e])` succeeds and returns
`ForAll(x, T, body)` itself, for every identifier `x`, type identifier `T`,
body and `e`. -/
theorem subst_forall_shadow (x T : String) (body e : Expr) :
    subst (astForAll (.Ident x) (.Ident T) body) [.Ident x] [e] =
      .ok (astForAll (.Ident x) (.Ident T) body) := by
  have hex : excludeVsEs (.Ident x) [.Ident x] [e] = .ok (true, [], []) := by
    simp [excludeVsEs, excludeVsEsLoop, Equals]
  unfold astForAll
  rw [subst.eq_6, if_neg (by decide), if_pos (Or.inl rfl), hex]
  rfl

/-- C20: for a call whose head is not one of the identifiers `Implies`,
`ForAll`, `Exists`, `subst` returns an error and no expression, whatever the
arguments and the lists `vs`, `es` are. -/
theorem subst_unsupported_head (fn : Expr) (args vs es : List Expr)
    (h1 : fn ≠ .Ident "Implies") (h2 : fn ≠ .Ident "ForAll") (h3 : fn ≠ .Ident "Exists") :
    ∃ msg, subst (.CallExpr fn args) vs es = .error (.error msg) := by
  cases fn with
  | Ident name =>
    have k1 : ¬ name = "Implies" := fun h => h1 (by rw [h])
    have k2 : ¬ (name = "ForAll" ∨ name = "Exists") := fun h =>
      h.elim (fun h => h2 (by rw [h])) (fun h => h3 (by rw [h]))
    unfold subst
    rw [if_neg k1, if_neg k2]
    exact ⟨_, rfl⟩
  | _ =>
    unfold subst
    exact ⟨_, rfl⟩

/-- Witness for C20, at `Select(a, i)`, `Store(a, i, x)`, a user function
`abs(x)` and a call through a selector `fmt.Println(x)`. -/
theorem subst_unsupported_head_witness :
    (∃ msg, subst (CallExpr (Ident "Select") [Ident "a", Ident "i"]) [Ident "a"] [Ident "b"]
      = .error (.error msg)) ∧
    (∃ msg, subst (CallExpr (Ident "abs") [Ident "x"]) [Ident "x"] [Ident "y"]
      = .error (.error msg)) ∧
    (∃ msg, subst (CallExpr (SelectorExpr (Ident "fmt") "Println") [Ident "x"]) [] []
      = .error (.error msg)) :=
  ⟨subst_unsupported_head (Ident "Select") _ _ _ (by simp) (by simp) (by simp),
   subst_unsupported_head (Ident "abs") _ _ _ (by simp) (by simp) (by simp),
   subst_unsupported_head (SelectorExpr (Ident "fmt") "Println") _ _ _ (by simp) (by simp)
     (by simp)⟩

/-! ## Annotation checks -/

theorem GoMap_getExpr_set_self (m : GoMap Expr) (k : String) (v : Expr) :
    (GoMap.set m k v).getExpr k = v := by
  unfold GoMap.getExpr
  rw [GoMap_get_set_self]
  rfl

theorem hasTag_iff (env : Env) (tag : String) (s : Stmt) :
    hasTag env tag s = true ↔
      ∃ c, isAssertStmt env s = .ok (tag, c, true) ∧ c.notNil = true := by
  unfold hasTag
  constructor
  · intro h
    split at h
    · rename_i t c heq
      simp only [Bool.and_eq_true, decide_eq_true_eq] at h
      exact ⟨c, by rw [heq, h.1], h.2⟩
    · cases h
  · rintro ⟨c, hc, hn⟩
    rw [hc]
    simp [hn]

theorem separateStmtsLoop_dup (env : Env) (tag : String) :
    ∀ (l : List Stmt) (asserts : GoMap Expr) (acc2 : List Stmt),
      (asserts.getExpr tag).notNil = true → (∃ s ∈ l, hasTag env tag s = true) →
      ∃ e, separateStmtsLoop env l asserts acc2 = .error e := by
  intro l
  induction l with
  | nil => intro _ _ _ h; obtain ⟨s, hs, _⟩ := h; cases hs
  | cons s0 rest ih =>
    intro asserts acc2 hset hex
    rw [separateStmtsLoop]
    cases h0 : isAssertStmt env s0 with
    | error e => exact ⟨e, rfl⟩
    | ok r =>
      obtain ⟨t, c, ok⟩ := r
      simp only []
      cases ok with
      | true =>
        simp only [if_true]
        by_cases hn : (asserts.getExpr t).notNil = true
        · rw [if_pos hn]; exact ⟨_, rfl⟩
        · rw [if_neg hn]
          have htag : tag ≠ t := by
            intro h
            subst h
            exact hn hset
          apply ih
          · rw [GoMap_getExpr_set_ne _ _ _ _ htag]; exact hset
          · obtain ⟨s, hs, ha⟩ := hex
            rcases List.mem_cons.mp hs with h | h
            · subst h
              obtain ⟨c', hc', _⟩ := (hasTag_iff env tag s).mp ha
              rw [h0] at hc'
              simp only [Except.ok.injEq, Prod.mk.injEq] at hc'
              exact absurd hc'.1.symm htag
            · exact ⟨s, h, ha⟩
      | false =>
        simp only [Bool.false_eq_true, if_false]
        apply ih _ _ hset
        obtain ⟨s, hs, ha⟩ := hex
        rcases List.mem_cons.mp hs with h | h
        · subst h
          obtain ⟨c', hc', _⟩ := (hasTag_iff env tag s).mp ha
          rw [h0] at hc'
          simp at hc'
        · exact ⟨s, h, ha⟩

theorem separateStmtsLoop_two (env : Env) (tag : String) (s1 s2 : Stmt) (l2 l3 : List Stmt)
    (h1 : hasTag env tag s1 = true) (h2 : hasTag env tag s2 = true) :
    ∀ (l1 : List Stmt) (asserts : GoMap Expr) (acc2 : List Stmt),
      ∃ e, separateStmtsLoop env (l1 ++ s1 :: (l2 ++ s2 :: l3)) asserts acc2 = .error e := by
  intro l1
  induction l1 with
  | nil =>
    intro asserts acc2
    obtain ⟨c, hc, hn⟩ := (hasTag_iff env tag s1).mp h1
    rw [List.nil_append, separateStmtsLoop, hc]
    simp only [if_true]
    by_cases hset : (asserts.getExpr tag).notNil = true
    · rw [if_pos hset]; exact ⟨_, rfl⟩
    · rw [if_neg hset]
      apply separateStmtsLoop_dup env tag
      · rw [GoMap_getExpr_set_self]; exact hn
      · exact ⟨s2, by simp, h2⟩
  | cons s0 rest ih =>
    intro asserts acc2
    rw [List.cons_append, separateStmtsLoop]
    cases h0 : isAssertStmt env s0 with
    | error e => exact ⟨e, rfl⟩
    | ok r =>
      obtain ⟨t, c, ok⟩ := r
      simp only []
      cases ok with
      | true =>
        simp only [if_true]
        by_cases hn : (asserts.getExpr t).notNil = true
        · rw [if_pos hn]; exact ⟨_, rfl⟩
        · rw [if_neg hn]; exact ih _ _
      | false =>
        simp only [Bool.false_eq_true, if_false]
        exact ih _ _

theorem separateStmtsLoop_absent (env : Env) (tag : String) :
    ∀ (l : List Stmt) (asserts : GoMap Expr) (acc2 : List Stmt) (a : GoMap Expr)
      (stmts : List Stmt),
      separateStmtsLoop env l asserts acc2 = .ok (a, stmts) →
      (∀ s ∈ l, hasTag env tag s = false) →
      (asserts.getExpr tag).notNil = false → (a.getExpr tag).notNil = false := by
  intro l
  induction l with
  | nil =>
    intro asserts acc2 a stmts h _ hnil
    simp only [separateStmtsLoop, Except.ok.injEq, Prod.mk.injEq] at h
    rw [← h.1]; exact hnil
  | cons s0 rest ih =>
    intro asserts acc2 a stmts h hno hnil
    have hrest : ∀ s ∈ rest, hasTag env tag s = false :=
      fun s hs => hno s (List.mem_cons_of_mem _ hs)
    rw [separateStmtsLoop] at h
    cases h0 : isAssertStmt env s0 with
    | error e => rw [h0] at h; cases h
    | ok r =>
      obtain ⟨t, c, ok⟩ := r
      rw [h0] at h
      cases ok with
      | true =>
        simp only [if_true] at h
        split at h
        · cases h
        · refine ih _ _ _ _ h hrest ?_
          by_cases ht : tag = t
          · subst ht
            rw [GoMap_getExpr_set_self]
            have := hno s0 (List.mem_cons_self _ _)
            unfold hasTag at this
            rw [h0] at this
            simpa using this
          · rw [GoMap_getExpr_set_ne _ _ _ _ ht]; exact hnil
      | false =>
        simp only [Bool.false_eq_true, if_false] at h
        exact ih _ _ _ _ h hrest hnil

theorem separateStmtsLoop_error_kind (env : Env) :
    ∀ (l : List Stmt) (asserts : GoMap Expr) (acc2 : List Stmt) (e : Fail),
      separateStmtsLoop env l asserts acc2 = .error e → scanOk env l = true →
      e.isPanic = false := by
  intro l
  induction l with
  | nil => intro _ _ e h; simp [separateStmtsLoop] at h
  | cons s0 rest ih =>
    intro asserts acc2 e h hscan
    simp only [scanOk, List.all_cons, Bool.and_eq_true] at hscan
    have hrest : scanOk env rest = true := hscan.2
    rw [separateStmtsLoop] at h
    cases h0 : isAssertStmt env s0 with
    | error e0 => rw [h0] at hscan; simp at hscan
    | ok r =>
      obtain ⟨t, c, ok⟩ := r
      rw [h0] at h
      cases ok with
      | true =>
        simp only [if_true] at h
        split at h
        · simp only [Except.error.injEq] at h
          rw [← h]; rfl
        · exact ih _ _ _ h hrest
      | false =>
        simp only [Bool.false_eq_true, if_false] at h
        exact ih _ _ _ h hrest

theorem getCondTobeVerified_of_separate_error (env : Env) (f : FuncDecl) (body : List Stmt)
    (funcTab : GoMap Data) (seeds : Nat) (hbody : f.Body = some body) (e : Fail)
    (hsep : separateStmts env body = .error e) :
    ∃ e', (getCondTobeVerified env f funcTab seeds).1 = .error e' ∧
      (scanOk env body = true → e'.isPanic = false) := by
  unfold getCondTobeVerified
  simp only [hbody]
  split
  · exact ⟨_, rfl, fun _ => rfl⟩
  · simp only [hsep]
    exact ⟨e, rfl, fun hs => separateStmtsLoop_error_kind env body [] [] e hsep hs⟩

theorem getCondTobeVerified_of_absent (env : Env) (f : FuncDecl) (body : List Stmt)
    (funcTab : GoMap Data) (seeds : Nat) (hbody : f.Body = some body) (tag : String)
    (htag : tag = "PRE" ∨ tag = "POST")
    (hno : ∀ s ∈ body, hasTag env tag s = false) :
    ∃ e, (getCondTobeVerified env f funcTab seeds).1 = .error e ∧
      (scanOk env body = true → e.isPanic = false) := by
  cases hsep : separateStmts env body with
  | error e => exact getCondTobeVerified_of_separate_error env f body funcTab seeds hbody e hsep
  | ok r =>
    obtain ⟨asserts, stmts⟩ := r
    have hnil : (asserts.getExpr tag).notNil = false :=
      separateStmtsLoop_absent env tag body [] [] asserts stmts hsep hno rfl
    unfold getCondTobeVerified
    simp only [hbody]
    split
    · exact ⟨_, rfl, fun _ => rfl⟩
    · simp only [hsep]
      rcases htag with h | h
      · subst h
        simp only [hnil, Bool.not_false, if_true]
        exact ⟨_, rfl, fun _ => rfl⟩
      · subst h
        split
        · exact ⟨_, rfl, fun _ => rfl⟩
        · simp only [hnil, Bool.not_false, if_true]
          exact ⟨_, rfl, fun _ => rfl⟩

/-- C19: for a procedure with a body, `getCondTobeVerified` returns no
condition list but a failure when the body has no `PRE` annotation, or no
`POST` annotation, or two annotations with the same tag; and `separateStmts`
fails on every statement list with two `INV` annotations.  The failure is an
`err != nil` return whenever `isAssertStmt` itself does not panic on a
statement of the list. -/
theorem annotations_checked (env : Env) (f : FuncDecl) (body : List Stmt)
    (funcTab : GoMap Data) (seeds : Nat) (hbody : f.Body = some body) :
    (((∀ s ∈ body, hasTag env "PRE" s = false) ∨
      (∀ s ∈ body, hasTag env "POST" s = false) ∨
      (∃ tag l1 s1 l2 s2 l3, body = l1 ++ s1 :: (l2 ++ s2 :: l3) ∧
        hasTag env tag s1 = true ∧ hasTag env tag s2 = true)) →
      ∃ e, (getCondTobeVerified env f funcTab seeds).1 = .error e ∧
        (scanOk env body = true → e.isPanic = false)) ∧
    (∀ l1 s1 l2 s2 l3, hasTag env "INV" s1 = true → hasTag env "INV" s2 = true →
      ∃ e, separateStmts env (l1 ++ s1 :: (l2 ++ s2 :: l3)) = .error e ∧
        (scanOk env (l1 ++ s1 :: (l2 ++ s2 :: l3)) = true → e.isPanic = false)) := by
  constructor
  · rintro (hno | hno | ⟨tag, l1, s1, l2, s2, l3, hb, h1, h2⟩)
    · exact getCondTobeVerified_of_absent env f body funcTab seeds hbody "PRE" (Or.inl rfl) hno
    · exact getCondTobeVerified_of_absent env f body funcTab seeds hbody "POST" (Or.inr rfl) hno
    · obtain ⟨e, he⟩ := separateStmtsLoop_two env tag s1 s2 l2 l3 h1 h2 l1 [] []
      rw [← hb] at he
      exact getCondTobeVerified_of_separate_error env f body funcTab seeds hbody e he
  · intro l1 s1 l2 s2 l3 h1 h2
    obtain ⟨e, he⟩ := separateStmtsLoop_two env "INV" s1 s2 l2 l3 h1 h2 l1 [] []
    exact ⟨e, he, fun hs => separateStmtsLoop_error_kind env _ [] [] e he hs⟩

/-- Witness for C19, at the body of `sum` without its `PRE` line, at that body
with the `POST` line written twice, and at the loop body of `sum` with the
`INV` line written twice. -/
theorem annotations_checked_witness :
    (∃ e, (getCondTobeVerified scenarioEnv
        ⟨"sum", sumDecl.Typ, some
            ([markerCall "POST" "s == n*(n+1)/2",
              .AssignStmt [Ident "s"] [BasicLit Token.INT "0"]])⟩ [] 0).1 = .error e ∧
      (scanOk scenarioEnv
        [markerCall "POST" "s == n*(n+1)/2",
         .AssignStmt [Ident "s"] [BasicLit Token.INT "0"]] = true → e.isPanic = false)) ∧
    (∃ e, (getCondTobeVerified scenarioEnv
        ⟨"sum", sumDecl.Typ, some
            ([markerCall "PRE" "n >= 0"] ++ markerCall "POST" "s == n*(n+1)/2" ::
              ([.AssignStmt [Ident "s"] [BasicLit Token.INT "0"]] ++
                markerCall "POST" "s == n*(n+1)/2" :: []))⟩ [] 0).1 = .error e ∧
      (scanOk scenarioEnv
        ([markerCall "PRE" "n >= 0"] ++ markerCall "POST" "s == n*(n+1)/2" ::
          ([.AssignStmt [Ident "s"] [BasicLit Token.INT "0"]] ++
            markerCall "POST" "s == n*(n+1)/2" :: [])) = true → e.isPanic = false)) ∧
    (∃ e, separateStmts scenarioEnv
        ([] ++ markerCall "INV" "s == i*(i+1)/2 && i <= n" ::
          ([] ++ markerCall "INV" "s == i*(i+1)/2 && i <= n" :: sumLoopBody)) = .error e ∧
      (scanOk scenarioEnv
        ([] ++ markerCall "INV" "s == i*(i+1)/2 && i <= n" ::
          ([] ++ markerCall "INV" "s == i*(i+1)/2 && i <= n" :: sumLoopBody)) = true →
        e.isPanic = false)) :=
  ⟨(annotations_checked scenarioEnv _ _ [] 0 rfl).1 (Or.inl (by decide)),
   (annotations_checked scenarioEnv _ _ [] 0 rfl).1
     (Or.inr (Or.inr ⟨"POST", _, _, _, _, _, rfl, rfl, rfl⟩)),
   (annotations_checked scenarioEnv sumDecl _ [] 0 rfl).2 [] _ [] _ sumLoopBody rfl rfl⟩

/-! ## Quantifiers between substitution and emitter -/

theorem convExpr_Exists_ident (x : String) (rest : List Expr) :
    convExpr (.CallExpr (.Ident "Exists") (.Ident x :: rest)) = none := by
  delta convExpr
  rfl

theorem subst_Exists_ok (args vs es : List Expr) (r : Expr)
    (h : subst (.CallExpr (.Ident "Exists") args) vs es = .ok r) :
    ∃ x t body b, args = [.Ident x, .Ident t, body] ∧
      r = .CallExpr (.Ident "Exists") [.Ident x, .Ident t, b] := by
  unfold subst at h
  rw [if_neg (by decide), if_pos (Or.inr rfl)] at h
  split at h
  · rename_i x t body
    refine ⟨x, t, body, ?_⟩
    split at h
    · cases h
    · split at h
      · cases h; exact ⟨_, rfl, rfl⟩
      · split at h
        · cases h
        · cases h; exact ⟨_, rfl, rfl⟩
  · cases h
  · cases h
  · cases h

/-- C28: no `Exists` formula passes both `subst` and `convExpr`.  When `subst`
succeeds on `Exists(args...)`, `convExpr` panics on that formula and on the
result of the substitution; when `convExpr` returns a text for it, `subst`
returns an error for all `vs` and `es`. -/
theorem exists_subst_convExpr_disjoint (args : List Expr) :
    (∀ vs es r, subst (.CallExpr (.Ident "Exists") args) vs es = .ok r →
      convExpr (.CallExpr (.Ident "Exists") args) = none ∧ convExpr r = none) ∧
    (∀ s, convExpr (.CallExpr (.Ident "Exists") args) = some s →
      ∀ vs es, ∃ msg, subst (.CallExpr (.Ident "Exists") args) vs es = .error (.error msg)) := by
  have key : ∀ vs es r, subst (.CallExpr (.Ident "Exists") args) vs es = .ok r →
      convExpr (.CallExpr (.Ident "Exists") args) = none ∧ convExpr r = none := by
    intro vs es r h
    obtain ⟨x, t, body, b, ha, hr⟩ := subst_Exists_ok args vs es r h
    subst ha hr
    exact ⟨convExpr_Exists_ident _ _, convExpr_Exists_ident _ _⟩
  refine ⟨key, ?_⟩
  intro s hs vs es
  cases hsub : subst (.CallExpr (.Ident "Exists") args) vs es with
  | ok r => rw [(key vs es r hsub).1] at hs; cases hs
  | error f =>
    cases f with
    | error msg => exact ⟨msg, rfl⟩
    | panic msg =>
      exfalso
      unfold subst at hsub
      rw [if_neg (by decide), if_pos (Or.inr rfl)] at hsub
      split at hsub
      · rename_i x t body
        rw [convExpr_Exists_ident] at hs
        cases hs
      · cases hsub
      · cases hsub
      · cases hsub
/-! ## Scripts, verdicts and the solver driver -/

theorem stringsJoin_cons_cons (x y : String) (rest : List String) (sep : String) :
    stringsJoin (x :: y :: rest) sep = x ++ sep ++ stringsJoin (y :: rest) sep := rfl

theorem stringsJoin_append (sep : String) (ys : List String) (hy : ys ≠ []) :
    ∀ xs : List String, xs ≠ [] →
      stringsJoin (xs ++ ys) sep = stringsJoin xs sep ++ sep ++ stringsJoin ys sep := by
  intro xs
  induction xs with
  | nil => intro h; exact absurd rfl h
  | cons x rest ih =>
    intro _
    cases rest with
    | nil =>
      cases ys with
      | nil => exact absurd rfl hy
      | cons y ys => rfl
    | cons z rest =>
      have h := ih (by simp)
      rw [List.cons_append, List.cons_append, stringsJoin_cons_cons, ← List.cons_append, h,
        stringsJoin_cons_cons]
      simp only [String.append_assoc]

/-- For a non-empty variable environment and a condition `convExpr`
translates to `e`, `makeSMTScript` returns the lines `(declare-const ...)`,
one for each entry, `(assert e)`, `(check-sat)` and `(get-model)`, joined by
line feeds and followed by one line feed. -/
theorem makeSMTScript_lines (vars : GoMap Expr) (cond : Expr) (e : String)
    (hv : vars ≠ []) (he : convExpr cond = some e) :
    makeSMTScript vars cond =
      some (stringsJoin
        (vars.map declareConst ++ ["(assert " ++ e ++ ")", "(check-sat)", "(get-model)"]) "\n"
        ++ "\n") := by
  unfold makeSMTScript convVars
  rw [he, Option.map_some', stringsJoin_append "\n" _ (by simp) _ (by simpa using hv)]
  rfl

/-- C21, on the empty variable environment: the script `makeSMTScript`
returns starts with an empty line, the text of `convVars` for no entry, before
`(assert E)`; with one entry the script is the four expected lines. -/
theorem makeSMTScript_empty_env :
    (∀ cond, makeSMTScript [] cond =
      (convExpr cond).map fun e => "\n(assert " ++ e ++ ")\n(check-sat)\n(get-model)\n") ∧
    makeSMTScript [] (astNot (astImplies (Ident "true") (Ident "true"))) =
      some "\n(assert (not (=> true true)))\n(check-sat)\n(get-model)\n" ∧
    makeSMTScript [("x", Ident "int")] (astNot (astImplies (Ident "true") (Ident "true"))) =
      some "(declare-const x Int)\n(assert (not (=> true true)))\n(check-sat)\n(get-model)\n" := by
  refine ⟨?_, rfl, rfl⟩
  intro cond
  unfold makeSMTScript
  cases convExpr cond with
  | none => rfl
  | some e =>
    simp only [Option.map_some', convVars, List.map_nil, stringsJoin, String.append_assoc]
    rfl
theorem splitLF_fst (cs : List Char) : (splitLF cs).1 = cs.takeWhile (· ≠ '\n') := by
  induction cs with
  | nil => rfl
  | cons c cs ih =>
    by_cases h : c = '\n'
    · simp [splitLF, h]
    · simp [splitLF, h, ih]

theorem stringsJoin_data (l : List Char) (ys : List String) (sep : String) :
    (stringsJoin (String.mk l :: ys) sep).data =
      l ++ (match ys with
            | [] => []
            | y :: rest => sep.data ++ (stringsJoin (y :: rest) sep).data) := by
  cases ys with
  | nil => simp [stringsJoin]
  | cons y rest => simp [stringsJoin, String.data_append]

theorem stringsJoin_splitLF (cs : List Char) :
    (stringsJoin (String.mk (splitLF cs).1 :: (splitLF cs).2.map String.mk) "\n").data = cs := by
  induction cs with
  | nil => rfl
  | cons c cs ih =>
    by_cases h : c = '\n'
    · subst h
      have e : splitLF ('\n' :: cs) = ([], (splitLF cs).1 :: (splitLF cs).2) := by
        simp [splitLF]
      rw [e, stringsJoin_data]
      simp only [List.map_cons, List.nil_append]
      rw [ih]
      rfl
    · have e : splitLF (c :: cs) = (c :: (splitLF cs).1, (splitLF cs).2) := by
        simp [splitLF, h]
      rw [e, stringsJoin_data]
      rw [stringsJoin_data] at ih
      simp only [List.cons_append]
      exact congrArg (c :: ·) ih

theorem stringsJoin_splitLF_snd (cs : List Char) :
    (stringsJoin ((splitLF cs).2.map String.mk) "\n").data =
      (cs.dropWhile (· ≠ '\n')).drop 1 := by
  induction cs with
  | nil => rfl
  | cons c cs ih =>
    by_cases h : c = '\n'
    · subst h
      have e : splitLF ('\n' :: cs) = ([], (splitLF cs).1 :: (splitLF cs).2) := by
        simp [splitLF]
      rw [e]
      simp only [List.map_cons]
      rw [stringsJoin_splitLF]
      simp
    · have e : splitLF (c :: cs) = (c :: (splitLF cs).1, (splitLF cs).2) := by
        simp [splitLF, h]
      rw [e]
      simp only [ih, List.dropWhile_cons, h]
      simp [h]

theorem runSMTScript_eq (conf : Config) (runCmd : RunCmd) (script : String) :
    runSMTScript conf runCmd script =
      (TrimSpace (firstLine (runCmd conf.Cmd script conf.TimeOutSec).1),
       TrimSpace (afterFirstLine (runCmd conf.Cmd script conf.TimeOutSec).1),
       TrimSpace (runCmd conf.Cmd script conf.TimeOutSec).2.1,
       (runCmd conf.Cmd script conf.TimeOutSec).2.2) := by
  unfold runSMTScript firstLine afterFirstLine
  simp only [splitLF_fst]
  congr 3
  apply String.ext
  rw [stringsJoin_splitLF_snd]
/-- C22, as stated, fails: on the output `sat`, line feed, `(model)`, line
feed, the condition is refuted with the counter-example `(model)`, while the
output that remains after the first line is `(model)` followed by a line
feed. -/
theorem verdict_counterexample_not_verbatim :
    processFuncVerdict
        (runSMTScript scenarioEnv.conf (fun _ _ _ => ("sat\n(model)\n", "", none)) "")
      = .refuted "(model)" ∧
    afterFirstLine "sat\n(model)\n" = "(model)\n" ∧
    processFuncVerdict
        (runSMTScript scenarioEnv.conf (fun _ _ _ => ("sat\n(model)\n", "", none)) "")
      ≠ .refuted (afterFirstLine "sat\n(model)\n") := by
  decide

/-- C22, amended: when `runCmd` returns no error, the condition is refuted
exactly when the first line of the output, trimmed, is `sat`, and the
counter-example is then the output after that line, trimmed; it holds exactly
when the trimmed first line is `unsat`; in every other case the verdict is the
error `something wrong`.  When `runCmd` returns an error the verdict is an
error whatever the output is. -/
theorem verdict_classification (conf : Config) (runCmd : RunCmd) (script : String) :
    ((runCmd conf.Cmd script conf.TimeOutSec).2.2 = none →
      ((∃ c, processFuncVerdict (runSMTScript conf runCmd script) = .refuted c) ↔
        TrimSpace (firstLine (runCmd conf.Cmd script conf.TimeOutSec).1) = "sat") ∧
      (∀ c, processFuncVerdict (runSMTScript conf runCmd script) = .refuted c →
        c = TrimSpace (afterFirstLine (runCmd conf.Cmd script conf.TimeOutSec).1)) ∧
      (processFuncVerdict (runSMTScript conf runCmd script) = .holds ↔
        TrimSpace (firstLine (runCmd conf.Cmd script conf.TimeOutSec).1) = "unsat") ∧
      (TrimSpace (firstLine (runCmd conf.Cmd script conf.TimeOutSec).1) ≠ "sat" →
        TrimSpace (firstLine (runCmd conf.Cmd script conf.TimeOutSec).1) ≠ "unsat" →
        processFuncVerdict (runSMTScript conf runCmd script) = .inconclusive "something wrong")) ∧
    (∀ e, (runCmd conf.Cmd script conf.TimeOutSec).2.2 = some e →
      ∃ msg, processFuncVerdict (runSMTScript conf runCmd script) = .inconclusive msg) := by
  rw [runSMTScript_eq]
  constructor
  · intro herr
    unfold processFuncVerdict
    simp only [herr]
    by_cases h1 : TrimSpace (firstLine (runCmd conf.Cmd script conf.TimeOutSec).1) = "sat"
    · simp [h1]
    · by_cases h2 : TrimSpace (firstLine (runCmd conf.Cmd script conf.TimeOutSec).1) = "unsat"
      · simp [h2]
      · simp [h1, h2]
  · intro e herr
    unfold processFuncVerdict
    simp only [herr]
    exact ⟨_, rfl⟩

/-- Witness for C22: the outputs `sat` with a model, `unsat`, `unknown` and
the empty output, from a solver run without error. -/
theorem verdict_classification_witness :
    processFuncVerdict
      (runSMTScript scenarioEnv.conf (fun _ _ _ => (" sat \r\n (model) \n", "", none)) "")
        = .refuted "(model)" ∧
    processFuncVerdict
      (runSMTScript scenarioEnv.conf (fun _ _ _ => ("unsat\n", "", none)) "") = .holds ∧
    processFuncVerdict
      (runSMTScript scenarioEnv.conf (fun _ _ _ => ("unknown\n", "", none)) "")
        = .inconclusive "something wrong" ∧
    processFuncVerdict
      (runSMTScript scenarioEnv.conf (fun _ _ _ => ("", "", none)) "")
        = .inconclusive "something wrong" :=
  ⟨by
    obtain ⟨c, hc⟩ := ((verdict_classification scenarioEnv.conf
      (fun _ _ _ => (" sat \r\n (model) \n", "", none)) "").1 rfl).1.2 (by decide)
    rw [hc, (((verdict_classification scenarioEnv.conf
      (fun _ _ _ => (" sat \r\n (model) \n", "", none)) "").1 rfl).2.1 c hc)]
    decide,
   ((verdict_classification scenarioEnv.conf (fun _ _ _ => ("unsat\n", "", none)) "").1
      rfl).2.2.1.2 (by decide),
   ((verdict_classification scenarioEnv.conf (fun _ _ _ => ("unknown\n", "", none)) "").1
      rfl).2.2.2 (by decide) (by decide),
   ((verdict_classification scenarioEnv.conf (fun _ _ _ => ("", "", none)) "").1
      rfl).2.2.2 (by decide) (by decide)⟩

/-- C24, on the timer event with a kill that succeeds: `runCmd` returns
`err == nil`, with `outText` and `errText` as the reading goroutine left them;
an error is returned only when the kill fails, and it is the error of the
kill. -/
theorem runCmdSelect_timer (shared : String × String × Option String) :
    runCmdSelect .timer none shared = (shared.1, shared.2.1, none) ∧
    (runCmdSelect .timer none ("", "", none)).2.2 = none ∧
    (∀ e, runCmdSelect .timer (some e) shared =
      (shared.1, "runCmd: timeout: failed to kill: " ++ e, some e)) ∧
    processFuncVerdict
      (runSMTScript scenarioEnv.conf (fun _ _ _ => runCmdSelect .timer none ("", "", none)) "")
        = .inconclusive "something wrong" := by
  refine ⟨rfl, rfl, fun _ => rfl, by decide⟩

/-- C25, on a configuration file with `"cmd": []`: the empty argv is kept,
because `LoadConfig` tests `conf.Cmd == nil`, and `runCmd` then panics on
`cmd[0]`; an empty `ignore_funcs`, tested with `len`, is replaced. -/
theorem LoadConfig_empty_cmd (t : Int) (ig : Option (List String)) (dbg : Bool) :
    (∃ conf, LoadConfig (.ok ⟨some [], t, ig, dbg⟩) = .ok conf ∧ conf.Cmd = [] ∧
      runCmdCommand conf.Cmd = none) ∧
    LoadConfig (.ok ⟨some [], 0, some [], false⟩) =
      .ok ⟨[], 60, ["Print", "Println", "Printf"], false⟩ ∧
    LoadConfig (.ok ⟨none, 0, none, false⟩) =
      .ok ⟨["z3", "-in"], 60, ["Print", "Println", "Printf"], false⟩ := by
  refine ⟨⟨_, rfl, rfl, rfl⟩, rfl, rfl⟩

/-- Function `wpFunCall` reads of the left-hand sides their number only: two
left-hand-side lists of one length give the same result in the same state. -/
theorem wpFunCall_lhs_length (env : Env) (lhs1 lhs2 : List Expr) (fn : Expr)
    (args : List Expr) (Q : Expr) (st : St) (h : lhs1.length = lhs2.length) :
    wpFunCall env lhs1 fn args Q st = wpFunCall env lhs2 fn args Q st := by
  unfold wpFunCall
  rw [h]

/-- An identifier that is not the name of an output parameter of the contract
is returned as it is by the substitution on the output parameters. -/
theorem subst_ident_not_output (d : Data) (us : List Expr) (z : String)
    (hz : ∀ o ∈ d.Outputs, o.1 ≠ z) :
    subst (.Ident z) d.getParams.2.1 us = .ok (.Ident z) := by
  rw [subst]
  apply substIdent_none
  intro v hv
  simp only [Data.getParams, List.mem_map] at hv
  obtain ⟨o, ho, rfl⟩ := hv
  intro heq
  exact hz o ho (by injection heq)

/-- C27, at `z = abs(x)` (output parameter `y`) against the postcondition
`ForAll(z, int, z >= 0)`: the `z` of the quantifier's body, the assigned
variable, is rewritten to the generated identifier `u01234`, so the result is
`true && ForAll(u01234, int, Implies(u01234 >= 0, ForAll(z, int, u01234 >= 0)))`;
the left-hand side `y` gives the same result.  Against `z >= 0`, without a
quantifier, the `z` is left as it is. -/
theorem wpFunCall_rewrites_bound_lhs :
    wpFunCall scenarioEnv [Ident "z"] (Ident "abs") [Ident "x"]
        (CallExpr (Ident "ForAll") [Ident "z", Ident "int",
          BinaryExpr (Ident "z") Token.GEQ (BasicLit Token.INT "0")]) St.init =
      (.ok (BinaryExpr (Ident "true") Token.LAND
        (CallExpr (Ident "ForAll") [Ident "u01234", Ident "int",
          CallExpr (Ident "Implies")
            [BinaryExpr (Ident "u01234") Token.GEQ (BasicLit Token.INT "0"),
             CallExpr (Ident "ForAll") [Ident "z", Ident "int",
               BinaryExpr (Ident "u01234") Token.GEQ (BasicLit Token.INT "0")]]])),
       { St.init with funcTab := [("abs", absData)], seeds := 1 }) ∧
    wpFunCall scenarioEnv [Ident "y"] (Ident "abs") [Ident "x"]
        (CallExpr (Ident "ForAll") [Ident "z", Ident "int",
          BinaryExpr (Ident "z") Token.GEQ (BasicLit Token.INT "0")]) St.init =
      wpFunCall scenarioEnv [Ident "z"] (Ident "abs") [Ident "x"]
        (CallExpr (Ident "ForAll") [Ident "z", Ident "int",
          BinaryExpr (Ident "z") Token.GEQ (BasicLit Token.INT "0")]) St.init ∧
    subst (CallExpr (Ident "ForAll") [Ident "z", Ident "int",
        BinaryExpr (Ident "z") Token.GEQ (BasicLit Token.INT "0")])
        absData.getParams.2.1 [Ident "u01234"] =
      .ok (CallExpr (Ident "ForAll") [Ident "z", Ident "int",
        BinaryExpr (Ident "u01234") Token.GEQ (BasicLit Token.INT "0")]) ∧
    excludeVsEs (Ident "z") absData.getParams.2.1 [Ident "u01234"] =
      .ok (false, [Ident "z"], [Ident "u01234"]) ∧
    wpFunCall scenarioEnv [Ident "z"] (Ident "abs") [Ident "x"]
        (BinaryExpr (Ident "z") Token.GEQ (BasicLit Token.INT "0")) St.init =
      (.ok (BinaryExpr (Ident "true") Token.LAND
        (CallExpr (Ident "ForAll") [Ident "u01234", Ident "int",
          CallExpr (Ident "Implies")
            [BinaryExpr (Ident "u01234") Token.GEQ (BasicLit Token.INT "0"),
             BinaryExpr (Ident "z") Token.GEQ (BasicLit Token.INT "0")]])),
       { St.init with funcTab := [("abs", absData)], seeds := 1 }) :=
  ⟨rfl, rfl, rfl, rfl, rfl⟩

/-- Witness for C28, at `Exists(k, int, k > 0)`, which `subst` accepts, and at
the same formula with the quoted name `"k"`, which `convExpr` accepts. -/
theorem exists_subst_convExpr_disjoint_witness :
    (convExpr (CallExpr (Ident "Exists") [Ident "k", Ident "int",
        BinaryExpr (Ident "k") Token.GTR (BasicLit Token.INT "0")]) = none ∧
      convExpr (CallExpr (Ident "Exists") [Ident "k", Ident "int",
        BinaryExpr (Ident "k") Token.GTR (BasicLit Token.INT "0")]) = none) ∧
    ∃ msg, subst (CallExpr (Ident "Exists") [BasicLit Token.STRING "\"k\"", Ident "int",
        BinaryExpr (Ident "k") Token.GTR (BasicLit Token.INT "0")]) [Ident "x"] [Ident "y"]
      = .error (.error msg) :=
  ⟨(exists_subst_convExpr_disjoint [Ident "k", Ident "int",
      BinaryExpr (Ident "k") Token.GTR (BasicLit Token.INT "0")]).1 [] []
      (CallExpr (Ident "Exists") [Ident "k", Ident "int",
        BinaryExpr (Ident "k") Token.GTR (BasicLit Token.INT "0")]) rfl,
   (exists_subst_convExpr_disjoint [BasicLit Token.STRING "\"k\"", Ident "int",
      BinaryExpr (Ident "k") Token.GTR (BasicLit Token.INT "0")]).2
      "(exists ((k Int)) (> k 0))" rfl _ _⟩

/-! ## The scenario sum-to-n, end to end -/

theorem sumConds_eval (σ : String → Int) :
    sumConds.map (smtEval fun x => .int (σ x)) =
      [some (.bool (!(!decide (σ "n" ≥ 0) ||
          (decide ((0 : Int) = (0 * (0 + 1)) / 2) && decide (0 ≤ σ "n"))))),
       some (.bool (!(!((decide (σ "s" = (σ "i" * (σ "i" + 1)) / 2) &&
            decide (σ "i" ≤ σ "n")) && decide (σ "i" < σ "n")) ||
          (decide (σ "s" + (σ "i" + 1) = ((σ "i" + 1) * (σ "i" + 1 + 1)) / 2) &&
            decide (σ "i" + 1 ≤ σ "n"))))),
       some (.bool (!(!((decide (σ "s" = (σ "i" * (σ "i" + 1)) / 2) &&
            decide (σ "i" ≤ σ "n")) && !decide (σ "i" < σ "n")) ||
          decide (σ "s" = (σ "n" * (σ "n" + 1)) / 2))))] := by
  rfl

theorem sumConds_unsat (σ : String → Int) :
    ∀ c ∈ sumConds, smtEval (fun x => .int (σ x)) c = some (.bool false) := by
  have key : sumConds.map (smtEval fun x => .int (σ x)) =
      [some (.bool false), some (.bool false), some (.bool false)] := by
    rw [sumConds_eval σ]
    have e1 : (σ "i" + 1) * (σ "i" + 1 + 1) = σ "i" * (σ "i" + 1) + 2 * (σ "i" + 1) := by ring
    have e2 : (σ "i" * (σ "i" + 1) + 2 * (σ "i" + 1)) / 2
        = (σ "i" * (σ "i" + 1)) / 2 + (σ "i" + 1) :=
      Int.add_mul_ediv_left _ _ (by decide)
    have v1 : (!(!decide (σ "n" ≥ 0) ||
          (decide ((0 : Int) = (0 * (0 + 1)) / 2) && decide (0 ≤ σ "n")))) = false := by
      simp
    have v2 : (!(!((decide (σ "s" = (σ "i" * (σ "i" + 1)) / 2) &&
            decide (σ "i" ≤ σ "n")) && decide (σ "i" < σ "n")) ||
          (decide (σ "s" + (σ "i" + 1) = ((σ "i" + 1) * (σ "i" + 1 + 1)) / 2) &&
            decide (σ "i" + 1 ≤ σ "n")))) = false := by
      rw [e1, e2]
      simp
      omega
    have v3 : (!(!((decide (σ "s" = (σ "i" * (σ "i" + 1)) / 2) &&
            decide (σ "i" ≤ σ "n")) && !decide (σ "i" < σ "n")) ||
          decide (σ "s" = (σ "n" * (σ "n" + 1)) / 2))) = false := by
      simp
      intro hs hle hge
      have : σ "i" = σ "n" := by omega
      rw [← this]
      exact hs
    rw [v1, v2, v3]
  intro c hc
  have hm : smtEval (fun x => .int (σ x)) c ∈ sumConds.map (smtEval fun x => .int (σ x)) :=
    List.mem_map_of_mem _ hc
  rw [key] at hm
  simp only [List.mem_cons, List.mem_singleton, List.not_mem_nil, or_false, or_self] at hm
  exact hm
theorem processFuncConds_ok (conf : Config) (runCmd : RunCmd) (vars : GoMap Expr) :
    ∀ conds : List Expr,
      (∀ c ∈ conds, ∃ script, makeSMTScript vars c = some script ∧
        processFuncVerdict (runSMTScript conf runCmd script) = .holds) →
      processFuncConds conf runCmd vars conds = .ok () := by
  intro conds
  induction conds with
  | nil => intro _; rfl
  | cons c rest ih =>
    intro h
    obtain ⟨script, hs, hv⟩ := h c (List.mem_cons_self _ _)
    unfold processFuncConds
    simp only [hs, hv]
    exact ih fun c' hc' => h c' (List.mem_cons_of_mem _ hc')

theorem verdict_holds_of_unsat (conf : Config) (runCmd : RunCmd) (script : String)
    (herr : (runCmd conf.Cmd script conf.TimeOutSec).2.2 = none)
    (hout : TrimSpace (firstLine (runCmd conf.Cmd script conf.TimeOutSec).1) = "unsat") :
    processFuncVerdict (runSMTScript conf runCmd script) = .holds := by
  rw [runSMTScript_eq]
  unfold processFuncVerdict
  simp only [herr, hout]
  rfl

/-- C23: for the procedure `sum`, `getCondTobeVerified` returns three
conditions, the negated primary condition and the two negated side conditions
of the loop; `convExpr` translates each; under every assignment of integers
to `n`, `s` and `i` each evaluates to false under the SMT-LIB meaning of the
emitted symbols, so none is satisfiable; and with a solver that answers
`unsat` to each of the three scripts `processFunc` finds every condition to
hold. -/
theorem sum_verified :
    getCondTobeVerified scenarioEnv sumDecl [] 0 =
      (.ok (sumConds, sumVars, BinaryExpr (Ident "n") Token.GEQ (BasicLit Token.INT "0"),
        sumPost), [], 0) ∧
    sumConds =
      [astNot (astImplies (BinaryExpr (Ident "n") Token.GEQ (BasicLit Token.INT "0"))
        (astAnd
          (BinaryExpr (BasicLit Token.INT "0") Token.EQL
            (BinaryExpr (BinaryExpr (BasicLit Token.INT "0") Token.MUL
              (BinaryExpr (BasicLit Token.INT "0") Token.ADD (BasicLit Token.INT "1")))
              Token.QUO (BasicLit Token.INT "2")))
          (BinaryExpr (BasicLit Token.INT "0") Token.LEQ (Ident "n")))),
       astNot (astImplies (astAnd sumInv sumCond)
        (astAnd
          (BinaryExpr
            (BinaryExpr (Ident "s") Token.ADD
              (BinaryExpr (Ident "i") Token.ADD (BasicLit Token.INT "1")))
            Token.EQL
            (BinaryExpr
              (BinaryExpr (BinaryExpr (Ident "i") Token.ADD (BasicLit Token.INT "1")) Token.MUL
                (BinaryExpr (BinaryExpr (Ident "i") Token.ADD (BasicLit Token.INT "1"))
                  Token.ADD (BasicLit Token.INT "1")))
              Token.QUO (BasicLit Token.INT "2")))
          (BinaryExpr (BinaryExpr (Ident "i") Token.ADD (BasicLit Token.INT "1")) Token.LEQ
            (Ident "n")))),
       astNot (astImplies (astAnd sumInv (astNot sumCond)) sumPost)] ∧
    sumConds.length = 3 ∧
    (∀ c ∈ sumConds, ∃ script, makeSMTScript sumVars c = some script) ∧
    (∀ σ : String → Int, ∀ c ∈ sumConds,
      smtEval (fun x => .int (σ x)) c = some (.bool false)) ∧
    (∀ runCmd : RunCmd,
      (∀ c ∈ sumConds, ∀ script, makeSMTScript sumVars c = some script →
        (runCmd scenarioEnv.conf.Cmd script scenarioEnv.conf.TimeOutSec).2.2 = none ∧
        TrimSpace (firstLine
          (runCmd scenarioEnv.conf.Cmd script scenarioEnv.conf.TimeOutSec).1) = "unsat") →
      processFuncConds scenarioEnv.conf runCmd sumVars sumConds = .ok ()) := by
  have hs : ∀ c ∈ sumConds, ∃ script, makeSMTScript sumVars c = some script := by
    have hl : ∀ o ∈ sumConds.map (makeSMTScript sumVars), o.isSome = true := by
      decide
    intro c hc
    exact Option.isSome_iff_exists.mp (hl _ (List.mem_map_of_mem _ hc))
  refine ⟨rfl, rfl, rfl, hs, sumConds_unsat, ?_⟩
  intro runCmd h
  apply processFuncConds_ok
  intro c hc
  obtain ⟨script, hscript⟩ := hs c hc
  exact ⟨script, hscript, verdict_holds_of_unsat _ _ _ (h c hc script hscript).1
    (h c hc script hscript).2⟩

/-- Witness for C23: with a solver that answers `unsat` to every script the
three conditions of `sum` are found to hold. -/
theorem sum_verified_witness :
    processFuncConds scenarioEnv.conf (fun _ _ _ => ("unsat\n", "", none)) sumVars sumConds
      = .ok () :=
  sum_verified.2.2.2.2.2 (fun _ _ _ => ("unsat\n", "", none))
    (fun _ _ _ _ => ⟨rfl, rfl⟩)
/-! ## Division and remainder -/

theorem tdiv_eq_ediv_of_nonneg (a b : Int) (ha : 0 ≤ a) : Int.tdiv a b = a / b := by
  rcases Int.le_total 0 b with hb | hb
  · exact Int.tdiv_eq_ediv ha hb
  · have h : Int.tdiv a (-b) = a / (-b) := Int.tdiv_eq_ediv ha (by omega)
    rw [Int.tdiv_neg, Int.ediv_neg] at h
    exact Int.neg_inj.mp h

theorem tmod_eq_emod_of_nonneg (a b : Int) (ha : 0 ≤ a) : Int.tmod a b = a % b := by
  rcases Int.le_total 0 b with hb | hb
  · exact Int.tmod_eq_emod ha hb
  · have h : Int.tmod a (-b) = a % (-b) := Int.tmod_eq_emod ha (by omega)
    rw [Int.tmod_neg, Int.emod_neg] at h
    exact h

theorem tmod_ne_emod_of_neg (a b : Int) (hb : b ≠ 0) (ha : a < 0) (hd : ¬ b ∣ a) :
    Int.tmod a b ≠ a % b := by
  have h1 : 0 ≤ a % b := Int.emod_nonneg a hb
  have h2 : a % b ≠ 0 := fun h => hd (Int.dvd_of_emod_eq_zero h)
  have h3 : 0 ≤ Int.tmod (-a) b := Int.tmod_nonneg b (by omega)
  have h4 : Int.tmod (-a) b = -(Int.tmod a b) := by
    rw [Int.tmod_def, Int.tmod_def, Int.neg_tdiv]
    ring
  intro h
  omega

/-- C29, as stated, fails: for `a = -7` and `b = 2` the source's quotient is
`-3` and its remainder `-1`, while `(div a b)` is `-4` and `(mod a b)` is
`1`. -/
theorem div_mod_counterexample :
    goQuo (-7) 2 = -3 ∧ (smtIntOp (convOp Token.QUO)).map (fun f => f (-7) 2) = some (-4) ∧
    goRem (-7) 2 = -1 ∧ (smtIntOp (convOp Token.REM)).map (fun f => f (-7) 2) = some 1 ∧
    (smtIntOp (convOp Token.QUO)).map (fun f => f (-7) 2) ≠ some (goQuo (-7) 2) ∧
    (smtIntOp (convOp Token.REM)).map (fun f => f (-7) 2) ≠ some (goRem (-7) 2) := by
  decide

/-- C29, amended: for a dividend `a >= 0` and a divisor `b` other than zero
the source's quotient and remainder are the values of `(div a b)` and
`(mod a b)`, the symbols `convOp` emits for `/` and `%`; for `a < 0` not
divisible by `b` both differ. -/
theorem div_mod_translation (a b : Int) (hb : b ≠ 0) :
    (0 ≤ a →
      (smtIntOp (convOp Token.QUO)).map (fun f => f a b) = some (goQuo a b) ∧
      (smtIntOp (convOp Token.REM)).map (fun f => f a b) = some (goRem a b)) ∧
    (a < 0 → ¬ b ∣ a →
      (smtIntOp (convOp Token.QUO)).map (fun f => f a b) ≠ some (goQuo a b) ∧
      (smtIntOp (convOp Token.REM)).map (fun f => f a b) ≠ some (goRem a b)) := by
  have hq : smtIntOp (convOp Token.QUO) = some fun x y => x / y := rfl
  have hr : smtIntOp (convOp Token.REM) = some fun x y => x % y := rfl
  rw [hq, hr]
  simp only [Option.map_some', Option.some.injEq, ne_eq]
  constructor
  · intro ha
    have hg : goQuo a b = Int.tdiv a b := by
      unfold goQuo
      rw [if_neg]
      intro h
      omega
    rw [hg]
    exact ⟨(tdiv_eq_ediv_of_nonneg a b ha).symm, (tmod_eq_emod_of_nonneg a b ha).symm⟩
  · intro ha hd
    have hm := tmod_ne_emod_of_neg a b hb ha hd
    have hg : goQuo a b = Int.tdiv a b := by
      unfold goQuo
      rw [if_neg]
      intro h
      exact hd (h.2 ▸ ⟨-a, by omega⟩)
    rw [hg]
    refine ⟨?_, fun h => hm h.symm⟩
    intro h
    have h1 := Int.tdiv_add_tmod a b
    have h2 : b * (a / b) + a % b = a := Int.ediv_add_emod a b
    rw [h] at h2
    exact hm (by omega)

/-- Witness for C29: `7 / -2` and `7 % -2`, with `-3` and `1` on both sides,
and `-7 / 2`, where the two sides differ. -/
theorem div_mod_translation_witness :
    ((smtIntOp (convOp Token.QUO)).map (fun f => f 7 (-2)) = some (goQuo 7 (-2)) ∧
      (smtIntOp (convOp Token.REM)).map (fun f => f 7 (-2)) = some (goRem 7 (-2))) ∧
    ((smtIntOp (convOp Token.QUO)).map (fun f => f (-7) 2) ≠ some (goQuo (-7) 2) ∧
      (smtIntOp (convOp Token.REM)).map (fun f => f (-7) 2) ≠ some (goRem (-7) 2)) :=
  ⟨(div_mod_translation 7 (-2) (by decide)).1 (by decide),
   (div_mod_translation (-7) 2 (by decide)).2 (by decide) (by decide)⟩

/-! ## The emitted text read back -/

theorem foldl_readStep_atom (top : List SExp) (outer : List (List SExp)) :
    ∀ (cs acc : List Char), (cs.all fun c => !isDelim c) = true →
      cs.foldl readStep ⟨top, outer, .atom acc⟩ = ⟨top, outer, .atom (cs.reverse ++ acc)⟩ := by
  intro cs
  induction cs with
  | nil => intro acc _; rfl
  | cons c cs ih =>
    intro acc h
    simp only [List.all_cons, Bool.and_eq_true, Bool.not_eq_true'] at h
    have hc : readStep ⟨top, outer, .atom acc⟩ c = ⟨top, outer, .atom (c :: acc)⟩ := by
      simp [readStep, h.1]
    rw [List.foldl_cons, hc, ih (c :: acc) h.2]
    simp

theorem gapStep_plain (top : List SExp) (outer : List (List SExp)) (c : Char)
    (h : isDelim c = false) : gapStep top outer c = ⟨top, outer, .atom [c]⟩ := by
  simp only [isDelim, Bool.or_eq_false_iff, decide_eq_false_iff_not] at h
  obtain ⟨⟨⟨⟨⟨h1, h2⟩, h3⟩, h4⟩, h5⟩, h6⟩ := h
  simp [gapStep, h1, h2, h3, h4, h5, h6]

theorem readStep_blank (s : ReadState) (top : List SExp) (outer : List (List SExp))
    (h : s.settle = some (top, outer)) : readStep s ' ' = ⟨top, outer, .gap⟩ := by
  obtain ⟨t, o, m⟩ := s
  cases m <;> simp [ReadState.settle] at h <;> obtain ⟨h1, h2⟩ := h <;> subst h1 h2 <;>
    simp [readStep, gapStep, isDelim, isBlank]

theorem readStep_close (s : ReadState) (top next : List SExp) (outer : List (List SExp))
    (h : s.settle = some (top, next :: outer)) :
    readStep s ')' = ⟨SExp.list top.reverse :: next, outer, .gap⟩ := by
  obtain ⟨t, o, m⟩ := s
  cases m <;> simp [ReadState.settle] at h <;> obtain ⟨h1, h2⟩ := h <;> subst h1 h2 <;>
    simp [readStep, gapStep, isDelim, isBlank]

theorem finish_of_settle (s : ReadState) (t : SExp) (h : s.settle = some ([t], [])) :
    s.finish = some t := by
  obtain ⟨tp, o, m⟩ := s
  cases m <;> simp [ReadState.settle] at h <;> simp [ReadState.finish, ReadState.settle, h]

mutual
theorem read_print (t : SExp) (h : t.plain = true) (top : List SExp)
    (outer : List (List SExp)) :
    (t.print.foldl readStep ⟨top, outer, .gap⟩).settle = some (t :: top, outer) := by
  match t with
  | .atom text =>
    obtain ⟨cs⟩ := text
    cases cs with
    | nil => simp [SExp.plain] at h
    | cons c cs =>
      simp only [SExp.plain, List.all_cons, Bool.and_eq_true, Bool.not_eq_true',
        List.isEmpty_cons, Bool.not_false, true_and] at h
      simp only [SExp.print, List.foldl_cons, readStep, gapStep_plain top outer c h.1]
      rw [foldl_readStep_atom top outer cs [c] (by simpa using h.2)]
      simp [ReadState.settle, SExp.ofAcc]
  | .list items =>
    simp only [SExp.plain] at h
    have hi := read_printItems items h [] (top :: outer)
    simp only [SExp.print, List.foldl_cons, List.foldl_append, List.foldl_nil]
    have h0 : readStep ⟨top, outer, .gap⟩ '(' = ⟨[], top :: outer, .gap⟩ := by
      simp [readStep, gapStep]
    rw [h0, readStep_close _ _ _ _ hi]
    simp [ReadState.settle]
theorem read_printItems (items : List SExp) (h : SExp.plainItems items = true)
    (top : List SExp) (outer : List (List SExp)) :
    ((SExp.printItems items).foldl readStep ⟨top, outer, .gap⟩).settle =
      some (items.reverse ++ top, outer) := by
  match items with
  | [] => rfl
  | x :: rest =>
    simp only [SExp.plainItems, Bool.and_eq_true] at h
    have hx := read_print x h.1 top outer
    match rest with
    | [] =>
      simp only [SExp.printItems, List.append_nil]
      rw [hx]
      rfl
    | y :: rest' =>
      have hr := read_printItems (y :: rest') h.2 (x :: top) outer
      simp only [SExp.printItems, List.foldl_append, List.foldl_cons] at hr ⊢
      rw [readStep_blank _ _ _ hx, hr]
      simp
end

theorem readSExp_print (t : SExp) (h : t.plain = true) :
    readSExp (String.mk t.print) = some t :=
  finish_of_settle _ t (read_print t h [] [])
theorem convExpr_CallExpr_Ident (name : String) (args : List Expr) :
    convExpr (.CallExpr (.Ident name) args) =
    if name = "Implies" then
      match args with
      | a0 :: a1 :: _ =>
        (convExpr a0).bind fun x => (convExpr a1).bind fun y =>
          some ("(=> " ++ x ++ " " ++ y ++ ")")
      | _ => none
    else if name = "ForAll" then
      match args with
      | .Ident nam :: typ :: body :: _ =>
        (convExpr body).bind fun b =>
          some ("(forall ((" ++ nam ++ " " ++ convType typ ++ ")) " ++ b ++ ")")
      | _ => none
    else if name = "Exists" then
      match args with
      | .BasicLit _ value :: typ :: body :: _ =>
        if value.length < 2 then none
        else
          (convExpr body).bind fun b =>
            some ("(exists ((" ++ String.mk (value.toList.tail.dropLast) ++ " " ++ convType typ
              ++ ")) " ++ b ++ ")")
      | _ => none
    else none := by
  cases args with
  | nil => delta convExpr; rfl
  | cons a rest =>
    cases rest with
    | nil => cases a <;> (delta convExpr; rfl)
    | cons b rest =>
      cases rest with
      | nil => cases a <;> (delta convExpr; rfl)
      | cons c rest => cases a <;> (delta convExpr; rfl)
theorem treeOfType_print : ∀ typ : Expr, (treeOfType typ).print = (convType typ).data
  | .Ident name => by
    simp only [treeOfType, convType]
    split_ifs <;> rfl
  | .ArrayType elt => by
    simp only [treeOfType, convType, SExp.print, SExp.printItems, treeOfType_print elt,
      String.data_append]
    simp
  | .Nil => rfl
  | .BasicLit _ _ => rfl
  | .BinaryExpr _ _ _ => rfl
  | .UnaryExpr _ _ => rfl
  | .CallExpr _ _ => rfl
  | .ParenExpr _ => rfl
  | .IndexExpr _ _ => rfl
  | .SelectorExpr _ _ => rfl

theorem treeOfType_plain : ∀ typ : Expr, (treeOfType typ).plain = true
  | .Ident name => by
    simp only [treeOfType]
    split_ifs <;> rfl
  | .ArrayType elt => by
    simp only [treeOfType, SExp.plain, SExp.plainItems, treeOfType_plain elt]
    rfl
  | .Nil => rfl
  | .BasicLit _ _ => rfl
  | .BinaryExpr _ _ _ => rfl
  | .UnaryExpr _ _ => rfl
  | .CallExpr _ _ => rfl
  | .ParenExpr _ => rfl
  | .IndexExpr _ _ => rfl
  | .SelectorExpr _ _ => rfl

theorem treeOf_BinaryExpr (x y : Expr) (op : Token) :
    treeOf (.BinaryExpr x op y) =
      (treeOf x).bind fun x' => (treeOf y).bind fun y' =>
        if op = Token.NEQ then
          some (.list [.atom "not", .list [.atom (convOp op), x', y']])
        else some (.list [.atom (convOp op), x', y']) := rfl

theorem treeOf_UnaryExpr (x : Expr) (op : Token) :
    treeOf (.UnaryExpr op x) =
      (treeOf x).bind fun x' => some (.list [.atom (convOp op), x']) := rfl

theorem treeOf_Implies (a b : Expr) (rest : List Expr) :
    treeOf (.CallExpr (.Ident "Implies") (a :: b :: rest)) =
      (treeOf a).bind fun x => (treeOf b).bind fun y =>
        some (.list [.atom "=>", x, y]) := by
  delta treeOf
  rfl

theorem treeOf_ForAll (x : String) (t body : Expr) (rest : List Expr) :
    treeOf (.CallExpr (.Ident "ForAll") (.Ident x :: t :: body :: rest)) =
      (treeOf body).bind fun b =>
        some (.list [.atom "forall", .list [.list [.atom x, treeOfType t]], b]) := by
  delta treeOf
  rfl

theorem treeOf_Exists (k : Token) (value : String) (t body : Expr) (rest : List Expr) :
    treeOf (.CallExpr (.Ident "Exists") (.BasicLit k value :: t :: body :: rest)) =
      if value.length < 2 then none
      else
        (treeOf body).bind fun b =>
          some (.list [.atom "exists",
            .list [.list [.atom (String.mk (value.toList.tail.dropLast)), treeOfType t]], b]) := by
  delta treeOf
  rfl

theorem convExpr_print (e : Expr) :
    ∀ s, convExpr e = some s → ∃ t, treeOf e = some t ∧ s.data = t.print := by
  induction e using convExpr.induct with
  | case1 k value => intro s h; cases h; exact ⟨_, rfl, rfl⟩
  | case2 name => intro s h; cases h; exact ⟨_, rfl, rfl⟩
  | case3 a0 a1 tail ih0 ih1 =>
    intro s h
    rw [convExpr_Implies] at h
    cases h0 : convExpr a0 with
    | none => simp [h0] at h
    | some x =>
      cases h1 : convExpr a1 with
      | none => simp [h0, h1] at h
      | some y =>
        obtain ⟨tx, hx, ex⟩ := ih0 x h0
        obtain ⟨ty, hy, ey⟩ := ih1 y h1
        simp only [h0, h1, Option.some_bind, Option.some.injEq] at h
        subst h
        refine ⟨_, by rw [treeOf_Implies, hx, hy]; rfl, ?_⟩
        simp [String.data_append, SExp.print, SExp.printItems, ex, ey]
  | case4 args hn =>
    intro s h
    rw [convExpr_CallExpr_Ident, if_pos rfl] at h
    split at h
    · exact absurd rfl (fun e => hn _ _ _ e)
    · cases h
  | case5 nam typ body tail _ ih =>
    intro s h
    rw [convExpr_ForAll] at h
    cases hb : convExpr body with
    | none => simp [hb] at h
    | some b =>
      obtain ⟨tb, htb, eb⟩ := ih b hb
      simp only [hb, Option.some_bind, Option.some.injEq] at h
      subst h
      refine ⟨_, by rw [treeOf_ForAll, htb]; rfl, ?_⟩
      simp [String.data_append, SExp.print, SExp.printItems, eb, treeOfType_print]
  | case6 args hn _ =>
    intro s h
    rw [convExpr_CallExpr_Ident, if_neg (by decide), if_pos rfl] at h
    split at h
    · exact absurd rfl (fun e => hn _ _ _ _ e)
    · cases h
  | case7 k value typ body tail hlen _ _ =>
    intro s h
    rw [convExpr_Exists, if_pos hlen] at h
    cases h
  | case8 k value typ body tail hlen _ _ ih =>
    intro s h
    rw [convExpr_Exists, if_neg hlen] at h
    cases hb : convExpr body with
    | none => simp [hb] at h
    | some b =>
      obtain ⟨tb, htb, eb⟩ := ih b hb
      simp only [hb, Option.some_bind, Option.some.injEq] at h
      subst h
      refine ⟨_, by rw [treeOf_Exists, if_neg hlen, htb]; rfl, ?_⟩
      simp [String.data_append, SExp.print, SExp.printItems, eb, treeOfType_print]
  | case9 args hn _ _ =>
    intro s h
    rw [convExpr_CallExpr_Ident, if_neg (by decide), if_neg (by decide), if_pos rfl] at h
    split at h
    · exact absurd rfl (fun e => hn _ _ _ _ _ e)
    · cases h
  | case10 name args h1 h2 h3 =>
    intro s h
    rw [convExpr_CallExpr_Ident, if_neg h1, if_neg h2, if_neg h3] at h
    cases h
  | case11 fn args hn =>
    intro s h
    cases fn with
    | Ident name => exact absurd rfl (hn name)
    | _ => cases h
  | case12 x op y ihx ihy =>
    intro s h
    rw [convExpr_BinaryExpr] at h
    cases h0 : convExpr x with
    | none => simp [h0] at h
    | some x' =>
      cases h1 : convExpr y with
      | none => simp [h0, h1] at h
      | some y' =>
        obtain ⟨tx, hx, ex⟩ := ihx x' h0
        obtain ⟨ty, hy, ey⟩ := ihy y' h1
        simp only [h0, h1, Option.some_bind] at h
        by_cases hop : op = Token.NEQ
        · rw [if_pos hop] at h
          cases h
          refine ⟨.list [.atom "not", .list [.atom (convOp op), tx, ty]],
            by rw [treeOf_BinaryExpr, hx, hy]; simp only [Option.some_bind, if_pos hop], ?_⟩
          simp [String.data_append, SExp.print, SExp.printItems, ex, ey]
        · rw [if_neg hop] at h
          cases h
          refine ⟨.list [.atom (convOp op), tx, ty],
            by rw [treeOf_BinaryExpr, hx, hy]; simp only [Option.some_bind, if_neg hop], ?_⟩
          simp [String.data_append, SExp.print, SExp.printItems, ex, ey]
  | case13 op x ih =>
    intro s h
    rw [convExpr_UnaryExpr] at h
    cases h0 : convExpr x with
    | none => simp [h0] at h
    | some x' =>
      obtain ⟨tx, hx, ex⟩ := ih x' h0
      simp only [h0, Option.some_bind, Option.some.injEq] at h
      subst h
      refine ⟨_, by rw [treeOf_UnaryExpr, hx]; rfl, ?_⟩
      simp [String.data_append, SExp.print, SExp.printItems, ex]
  | case14 x ih =>
    intro s h
    exact ih s h
  | case15 t h1 h2 h3 h4 h5 h6 h7 =>
    intro s h
    cases t with
    | BasicLit k v => exact absurd rfl (h1 k v)
    | Ident n => exact absurd rfl (h2 n)
    | CallExpr f a => exact absurd rfl (h4 f a)
    | BinaryExpr x op y => exact absurd rfl (h5 x op y)
    | UnaryExpr op x => exact absurd rfl (h6 op x)
    | ParenExpr x => exact absurd rfl (h7 x)
    | _ => cases h
/-- C26, as stated, fails: for `c == '('`, with a character literal,
`convExpr` returns the text `(= c '(')`, in which the parenthesis of the
literal is never closed, and for the character literal `' '` it returns a
text that holds two atoms; the reader accepts neither as one S-expression. -/
theorem convExpr_not_read_back :
    convExpr (BinaryExpr (Ident "c") Token.EQL (BasicLit Token.CHAR "'('")) = some "(= c '(')" ∧
    readSExp "(= c '(')" = none ∧
    convExpr (BasicLit Token.CHAR "' '") = some "' '" ∧
    readSExp "' '" = none :=
  ⟨rfl, rfl, rfl, rfl⟩

/-- C26, amended: whenever `convExpr` returns a text for an expression, the
text is the writing of the tree equivalent to the expression (operators after
the operator mapping, operands in their order, parentheses dropped); and when
every atom of that tree is non-empty and free of white space, parentheses,
semicolons, double quotes and vertical bars, the reader reads the text back
as one S-expression, which is that tree. -/
theorem convExpr_read_back (e : Expr) (s : String) (h : convExpr e = some s) :
    ∃ t, treeOf e = some t ∧ s.data = t.print ∧ (t.plain = true → readSExp s = some t) := by
  obtain ⟨t, ht, hs⟩ := convExpr_print e s h
  refine ⟨t, ht, hs, fun hp => ?_⟩
  have e1 : s = String.mk t.print := by
    rw [← hs]
  rw [e1]
  exact readSExp_print t hp

/-- Witness for C26, at the postcondition `s == n*(n+1)/2` of `sum`: the text
`(= s (div (* n (+ n 1)) 2))` is read back as the tree of the expression. -/
theorem convExpr_read_back_witness :
    convExpr sumPost = some "(= s (div (* n (+ n 1)) 2))" ∧
    readSExp "(= s (div (* n (+ n 1)) 2))" =
      some (.list [.atom "=", .atom "s",
        .list [.atom "div",
          .list [.atom "*", .atom "n", .list [.atom "+", .atom "n", .atom "1"]],
          .atom "2"]]) ∧
    treeOf sumPost = readSExp "(= s (div (* n (+ n 1)) 2))" := by
  obtain ⟨t, ht, _, hr⟩ := convExpr_read_back sumPost "(= s (div (* n (+ n 1)) 2))" rfl
  have e : t = .list [.atom "=", .atom "s",
        .list [.atom "div",
          .list [.atom "*", .atom "n", .list [.atom "+", .atom "n", .atom "1"]],
          .atom "2"]] := Option.some.inj (ht.symm.trans rfl)
  subst e
  exact ⟨rfl, hr rfl, ht.trans (hr rfl).symm⟩

end HL
